import Mathlib

/-!
# A shallow embedding of the `nn` autograd engine

Source files embedded here: `include/matrix.h`, `include/matrix.cpp`,
`include/minimal_intrusive_ptr.hpp`, `include/value.h`.

Modelling decisions.

* `float32` is an arbitrary linearly ordered field `α` (exact arithmetic); the two
  operations of `float32` that are not field operations, `std::isfinite` and `sqrt`,
  are carried by a `FloatOps α` record.  Rounding is not modelled.
* A `float32**` buffer is a total function `Nat → Nat → α`; a node's `rows` and
  `cols` say which part of it is allocated.  Reading or writing outside that part is
  undefined behaviour in the source; theorems speak about in-range entries only.
* Nodes live in a heap addressed by natural numbers; a handle
  (`minimal::intrusive_ptr<Tensor>`) is an `Option Nat`, `none` being the null handle.
  Reference counts are not part of the node model; the handle class is embedded on its
  own, over a table of handle objects (`RcState`).
* The objects of the wrapper class `Value` live in a store addressed by natural
  numbers, so that the two operands of an operator may be one object.
* A `for (int i = 0; i < n; i++)` loop is `forRange n`, a left fold over
  `List.range n` that threads the mutated state.
-/

namespace NN

universe u

/-- The operations of `float32` that the engine uses besides field arithmetic and
comparison: `std::isfinite` and `sqrt`. -/
structure FloatOps (α : Type) where
  isfinite : α → Bool
  sqrt : α → α

/-- A `float32**` buffer. -/
abbrev Buf (α : Type) := Nat → Nat → α

/-- The buffer obtained by `b[i][j] = v`. -/
def Buf.set {α : Type} (b : Buf α) (i j : Nat) (v : α) : Buf α :=
  fun a c => if a = i ∧ c = j then v else b a c

/-- The loop `for (int i = 0; i < n; i++) s = f i s`. -/
def forRange {σ : Type u} (n : Nat) (f : Nat → σ → σ) (s : σ) : σ :=
  (List.range n).foldl (fun s i => f i s) s

/-- The member-function pointer `void (Tensor::*_backward)()`: which backward rule a
node carries. -/
inductive Rule where
  | backadd
  | backsub
  | backmul
  | backdot
  | backleakyrelu
  deriving DecidableEq, Repr

/-- The class `Tensor` of `matrix.h`. -/
structure Tensor (α : Type) where
  rows : Nat
  cols : Nat
  left : Option Nat
  right : Option Nat
  data : Buf α
  grad : Buf α
  _backward : Option Rule
  name : String

/-- The store of nodes: `cell p` is the node at address `p`, `next` the first address
not yet handed out. -/
structure Heap (α : Type) where
  cell : Nat → Tensor α
  next : Nat

section Defs

variable {α : Type} [LinearOrderedField α]

/-- The upper threshold, `const float CLIP_NORM = 1.0f;`. -/
def CLIP_NORM : α := 1

/-- The lower threshold, `const float MIN_GRAD_NORM = 1e-3f;` (taken as the exact
rational `1/1000`). -/
def MIN_GRAD_NORM : α := 1 / 1000

/-- The constant `const float EPSILON = 1e-6f;` (taken as the exact rational
`1/1000000`). -/
def EPSILON : α := 1 / 1000000

/-- The two nested loops `for i < rows, for j < cols` that multiply every entry by
`scale` (both branches of `clip_gradient` end in this loop). -/
def scale_loop (grad : Buf α) (rows cols : Nat) (scale : α) : Buf α :=
  forRange rows (fun i g => forRange cols (fun j g => g.set i j (g i j * scale)) g) grad

/-- The first loop of `clip_gradient`: zero the non-finite entries and accumulate the
sum of squares. The state is the buffer together with the running `norm`. -/
def sanitize_loop (F : FloatOps α) (grad : Buf α) (rows cols : Nat) : Buf α × α :=
  forRange rows (fun i s => forRange cols (fun j s =>
    let g : Buf α := if F.isfinite (s.1 i j) = false then s.1.set i j 0 else s.1
    (g, s.2 + g i j * g i j)) s) (grad, 0)

/-- The function `void clip_gradient(float** grad, int rows, int cols)`; the mutated buffer is
returned. -/
def clip_gradient (F : FloatOps α) (grad : Buf α) (rows cols : Nat) : Buf α :=
  let s := sanitize_loop F grad rows cols
  let norm := F.sqrt (s.2 + EPSILON)
  if norm > CLIP_NORM then
    scale_loop s.1 rows cols (CLIP_NORM / norm)
  else if norm < MIN_GRAD_NORM then
    scale_loop s.1 rows cols (MIN_GRAD_NORM / (norm + EPSILON))
  else
    s.1

/-- The constructor
`Tensor(int rows, int cols, float32** input_data = nullptr, std::string name = "")`:
every row is value-initialised (zero) and, when `input_data` is given, overwritten by
`memcpy` of `cols` entries. -/
def Tensor.new (rows cols : Nat) (input_data : Option (Buf α)) (name : String) : Tensor α :=
  { rows := rows
    cols := cols
    name := name
    _backward := none
    left := none
    right := none
    data := forRange rows (fun j d => fun a c =>
      if a = j then
        (if c < cols then (match input_data with
          | some inp => inp j c
          | none => 0) else 0)
      else d a c) (fun _ _ => 0)
    grad := forRange rows (fun j g => fun a c => if a = j then 0 else g a c) (fun _ _ => 0) }

/-- Place a freshly built node at the next free address. -/
def Heap.alloc (h : Heap α) (t : Tensor α) : Heap α × Nat :=
  ({ cell := fun a => if a = h.next then t else h.cell a, next := h.next + 1 }, h.next)

/-- The write `p->grad[i][j] = v`. -/
def Heap.setGrad (h : Heap α) (p i j : Nat) (v : α) : Heap α :=
  { cell := fun a => if a = p then { h.cell p with grad := (h.cell p).grad.set i j v } else h.cell a
    next := h.next }

/-- The call `clip_gradient(p->grad, p->rows, p->cols)`. -/
def Heap.clip (F : FloatOps α) (h : Heap α) (p : Nat) : Heap α :=
  { cell := fun a =>
      if a = p then
        { h.cell p with grad := clip_gradient F (h.cell p).grad (h.cell p).rows (h.cell p).cols }
      else h.cell a
    next := h.next }

/-- The operator `Tensor Tensor::operator+(const Tensor &t) const`; the result node is placed in the
heap and its address returned. -/
def Tensor.operator_add (h : Heap α) (self t : Nat) : Heap α × Nat :=
  let result : Tensor α := Tensor.new (h.cell self).rows (h.cell self).cols none ""
  h.alloc
    { result with
      left := some self
      right := some t
      name := (h.cell self).name ++ "+" ++ (h.cell t).name
      data := forRange (h.cell self).rows (fun j d => forRange (h.cell self).cols (fun k d =>
        d.set j k ((h.cell self).data j k + (h.cell t).data j k)) d) result.data
      _backward := some Rule.backadd }

/-- The operator `Tensor Tensor::operator-(const Tensor &t) const`. -/
def Tensor.operator_sub (h : Heap α) (self t : Nat) : Heap α × Nat :=
  let result : Tensor α := Tensor.new (h.cell self).rows (h.cell self).cols none ""
  h.alloc
    { result with
      left := some self
      right := some t
      name := (h.cell self).name ++ "-" ++ (h.cell t).name
      data := forRange (h.cell self).rows (fun j d => forRange (h.cell self).cols (fun k d =>
        d.set j k ((h.cell self).data j k - (h.cell t).data j k)) d) result.data
      _backward := some Rule.backsub }

/-- The operator `Tensor Tensor::operator*(const Tensor &t) const`: the heap after the call and
either the address of the result node or the message of the thrown
`std::invalid_argument`. -/
def Tensor.operator_mul (h : Heap α) (self t : Nat) : Heap α × Except String Nat :=
  if (h.cell self).cols ≠ (h.cell t).rows then
    (h, Except.error "Matrix dimensions do not match for multiplication")
  else
    let result : Tensor α := Tensor.new (h.cell self).rows (h.cell t).cols none ""
    let r := h.alloc
      { result with
        left := some self
        right := some t
        name := (h.cell self).name ++ "*" ++ (h.cell t).name
        _backward := some Rule.backmul
        data := forRange (h.cell self).rows (fun i d => forRange (h.cell t).cols (fun j d =>
          forRange (h.cell self).cols (fun k d =>
            d.set i j (d i j + (h.cell self).data i k * (h.cell t).data k j)) (d.set i j 0)) d)
          result.data }
    (r.1, Except.ok r.2)

/-- The operator `Tensor Tensor::operator^(const Tensor &t) const` (the dot product of two column
vectors). -/
def Tensor.operator_caret (h : Heap α) (self t : Nat) : Heap α × Except String Nat :=
  if (h.cell self).cols ≠ 1 ∨ (h.cell t).cols ≠ 1 ∨ (h.cell self).rows ≠ (h.cell t).rows then
    (h, Except.error "Matrix dimensions do not match for dot multiplication")
  else
    let result : Tensor α := Tensor.new (h.cell t).cols (h.cell t).cols none ""
    let r := h.alloc
      { result with
        left := some self
        right := some t
        name := (h.cell self).name ++ "^" ++ (h.cell t).name
        data := forRange (h.cell self).rows (fun i d =>
          d.set 0 0 (d 0 0 + (h.cell self).data i 0 * (h.cell t).data i 0)) result.data
        _backward := some Rule.backdot }
    (r.1, Except.ok r.2)

/-- The method `Tensor Tensor::lekyrelu(float leaky)`. -/
def Tensor.lekyrelu (h : Heap α) (self : Nat) (leaky : α) : Heap α × Nat :=
  let result : Tensor α := Tensor.new (h.cell self).rows (h.cell self).cols none ""
  h.alloc
    { result with
      left := some self
      name := (h.cell self).name ++ "leakyrelu"
      data := forRange (h.cell self).rows (fun i d => forRange (h.cell self).cols (fun j d =>
        d.set i j (if (h.cell self).data i j > 0 then (h.cell self).data i j
          else leaky * (h.cell self).data i j)) d) result.data
      _backward := some Rule.backleakyrelu }

/-- The rule `void Tensor::backadd()`. Each block reads the bounds and the operand
handle, runs the accumulation loop on the heap (so that aliased nodes are updated as in
the source) and calls `clip_gradient` on the operand. -/
def Tensor.backadd (F : FloatOps α) (h : Heap α) (self : Nat) : Heap α :=
  let h1 : Heap α := match (h.cell self).left with
    | some l =>
      Heap.clip F (forRange (h.cell self).rows (fun i s => forRange (h.cell self).cols (fun j s =>
        s.setGrad l i j ((s.cell l).grad i j + (s.cell self).grad i j)) s) h) l
    | none => h
  match (h1.cell self).right with
  | some r =>
    Heap.clip F (forRange (h1.cell self).rows (fun i s => forRange (h1.cell self).cols (fun j s =>
      s.setGrad r i j ((s.cell r).grad i j + (s.cell self).grad i j)) s) h1) r
  | none => h1

/-- The rule `void Tensor::backsub()`. -/
def Tensor.backsub (F : FloatOps α) (h : Heap α) (self : Nat) : Heap α :=
  let h1 : Heap α := match (h.cell self).left with
    | some l =>
      Heap.clip F (forRange (h.cell self).rows (fun i s => forRange (h.cell self).cols (fun j s =>
        s.setGrad l i j ((s.cell l).grad i j + (s.cell self).grad i j)) s) h) l
    | none => h
  match (h1.cell self).right with
  | some r =>
    Heap.clip F (forRange (h1.cell self).rows (fun i s => forRange (h1.cell self).cols (fun j s =>
      s.setGrad r i j ((s.cell r).grad i j - (s.cell self).grad i j)) s) h1) r
  | none => h1

/-- The rule `void Tensor::backmul()`. The first block reads `this->right->rows` and
`right->data` under the guard `this->left` only, the second reads `this->left->cols`
and `left->data` under the guard `this->right` only: with exactly one of the two handles
null the source dereferences a null handle, which is `none` here. -/
def Tensor.backmul (F : FloatOps α) (h : Heap α) (self : Nat) : Option (Heap α) :=
  match (h.cell self).left, (h.cell self).right with
  | some l, some r =>
    let h1 : Heap α :=
      Heap.clip F (forRange (h.cell self).rows (fun i s => forRange (h.cell r).rows (fun j s =>
        forRange (h.cell self).cols (fun k s =>
          s.setGrad l i j ((s.cell l).grad i j + (s.cell self).grad i k * (s.cell r).data j k))
          s) s) h) l
    some (Heap.clip F (forRange (h1.cell l).cols (fun i s => forRange (h1.cell self).cols
      (fun j s => forRange (h1.cell self).rows (fun k s =>
        s.setGrad r i j ((s.cell r).grad i j + (s.cell self).grad k j * (s.cell l).data k i))
        s) s) h1) r)
  | none, none => some h
  | _, _ => none

/-- The rule `void Tensor::backdot()`; a null handle is dereferenced exactly as in
`backmul`. -/
def Tensor.backdot (F : FloatOps α) (h : Heap α) (self : Nat) : Option (Heap α) :=
  match (h.cell self).left, (h.cell self).right with
  | some l, some r =>
    let h1 : Heap α :=
      Heap.clip F (forRange (h.cell l).rows (fun i s =>
        s.setGrad l i 0 ((s.cell l).grad i 0 + (s.cell self).grad 0 0 * (s.cell r).data i 0))
        h) l
    some (Heap.clip F (forRange (h1.cell r).rows (fun i s =>
      s.setGrad r i 0 ((s.cell r).grad i 0 + (s.cell self).grad 0 0 * (s.cell l).data i 0))
      h1) r)
  | none, none => some h
  | _, _ => none

/-- The accumulation loop of `backleakyrelu`, before `clip_gradient` is called. The
condition is on `this->data` (the output of the forward call) and the factor is the
literal `0.01`. -/
def Tensor.backleakyrelu_loop (h : Heap α) (self l : Nat) : Heap α :=
  forRange (h.cell self).rows (fun i s => forRange (h.cell self).cols (fun j s =>
    s.setGrad l i j ((s.cell l).grad i j +
      (if (s.cell self).data i j > 0 then (s.cell self).grad i j
        else (1 / 100) * (s.cell self).grad i j))) s) h

/-- The rule `void Tensor::backleakyrelu()`. -/
def Tensor.backleakyrelu (F : FloatOps α) (h : Heap α) (self : Nat) : Heap α :=
  match (h.cell self).left with
  | some l => Heap.clip F (Tensor.backleakyrelu_loop h self l) l
  | none => h

/-- The operator `Tensor Tensor::operator/(const Tensor &t) const`: the entrywise
quotient; no backward rule is installed. Division by zero, which gives an infinity or a
NaN in `float32`, is the field's `x / 0 = 0` here. -/
def Tensor.operator_div (h : Heap α) (self t : Nat) : Heap α × Nat :=
  let result : Tensor α := Tensor.new (h.cell self).rows (h.cell self).cols none ""
  h.alloc
    { result with
      left := some self
      right := some t
      name := (h.cell self).name ++ "/" ++ (h.cell t).name
      data := forRange (h.cell self).rows (fun j d => forRange (h.cell self).cols (fun k d =>
        d.set j k ((h.cell self).data j k / (h.cell t).data j k)) d) result.data }

/-- The write `p->data[i][j] = v`. -/
def Heap.setData (h : Heap α) (p i j : Nat) (v : α) : Heap α :=
  { cell := fun a => if a = p then { h.cell p with data := (h.cell p).data.set i j v } else h.cell a
    next := h.next }

/-- The method `void Tensor::update(float learning_rate)` of `matrix.h`. -/
def Tensor.update (h : Heap α) (self : Nat) (learning_rate : α) : Heap α :=
  forRange (h.cell self).rows (fun i s => forRange (h.cell self).cols (fun j s =>
    s.setData self i j ((s.cell self).data i j - learning_rate * (s.cell self).grad i j)) s) h

/-- The conversion `intrusive_ptr::operator bool`, `px != nullptr`. -/
def operator_bool (a : Option Nat) : Bool := a.isSome

/-- The ordering `std::less<minimal::intrusive_ptr<Tensor>>` that
`std::set<minimal::intrusive_ptr<Tensor>>` compares its keys with. It evaluates `x < y`;
`intrusive_ptr` declares no `operator<` (and no conversion to a pointer), so the
expression is the built-in `<` on the two operands converted by the implicit
`operator bool` and promoted to `int`. -/
def intrusive_ptr_less (x y : Option Nat) : Bool :=
  decide ((operator_bool x).toNat < (operator_bool y).toNat)

/-- The lookup `std::set::find`: an element that is equivalent to `t` under the
ordering, that is, neither less than `t` nor greater. The set is kept as the list of its
elements. -/
def set_find (visited : List (Option Nat)) (t : Option Nat) : Option (Option Nat) :=
  visited.find? (fun e => !intrusive_ptr_less e t && !intrusive_ptr_less t e)

/-- The insertion `std::set::insert`: `t` is added unless the set holds an equivalent
element. -/
def set_insert (visited : List (Option Nat)) (t : Option Nat) : List (Option Nat) :=
  match set_find visited t with
  | some _ => visited
  | none => visited ++ [t]

/-- The function `visit_tensor(t, visited, topo)`. The state is the pair of `visited`
and `topo`; the first argument bounds the depth of the recursion, and `none` says that
the bound was reached. -/
def visit_tensor (h : Heap α) :
    Nat → Option Nat → List (Option Nat) × List Nat → Option (List (Option Nat) × List Nat)
  | 0, _, _ => none
  | fuel + 1, t, (visited, topo) =>
    match t with
    | none => some (visited, topo)
    | some p =>
      match set_find visited (some p) with
      | some _ => some (visited, topo)
      | none =>
        let s0 := (set_insert visited (some p), topo)
        let r1 := match (h.cell p).left with
          | some l => visit_tensor h fuel (some l) s0
          | none => some s0
        match r1 with
        | none => none
        | some s1 =>
          let r2 := match (h.cell p).right with
            | some r => visit_tensor h fuel (some r) s1
            | none => some s1
          match r2 with
          | none => none
          | some s2 => some (s2.1, s2.2 ++ [p])

/-- The call `(t->*(t->_backward))()` of the rule that the tag `rule` names. -/
def Tensor.call_backward (F : FloatOps α) (rule : Rule) (h : Heap α) (self : Nat) :
    Option (Heap α) :=
  match rule with
  | Rule.backadd => some (Tensor.backadd F h self)
  | Rule.backsub => some (Tensor.backsub F h self)
  | Rule.backmul => Tensor.backmul F h self
  | Rule.backdot => Tensor.backdot F h self
  | Rule.backleakyrelu => some (Tensor.backleakyrelu F h self)

/-- The three writes `p->left = nullptr; p->right = nullptr; p->_backward = nullptr;`
of the last loop of `backward`. -/
def Heap.clear (h : Heap α) (p : Nat) : Heap α :=
  { cell := fun a =>
      if a = p then { h.cell p with left := none, right := none, _backward := none }
      else h.cell a
    next := h.next }

/-- The second loop of `backward`: from the last element of `topo` to the first, call
the rule of every node that has one. The argument is `topo` reversed. -/
def backward_rules (F : FloatOps α) : List Nat → Heap α → Option (Heap α)
  | [], h => some h
  | p :: rest, h =>
    match (h.cell p)._backward with
    | some rule =>
      match Tensor.call_backward F rule h p with
      | some h1 => backward_rules F rest h1
      | none => none
    | none => backward_rules F rest h

/-- The method `void Tensor::backward()`; `fuel` bounds the depth of the recursion of
`visit_tensor`. -/
def Tensor.backward (F : FloatOps α) (fuel : Nat) (h : Heap α) (self : Nat) :
    Option (Heap α) :=
  match visit_tensor h fuel (some self) ([], []) with
  | none => none
  | some s =>
    match backward_rules F s.2.reverse h with
    | none => none
    | some h1 => some (s.2.foldl (fun st p => st.clear p) h1)

/-! ### Notions used to state the theorems -/

/-- The heap `h` with the gradient buffer of node `p` replaced by `g`: what a caller
does when it overwrites `p->grad` (as `Tensor::setGrad` or the loss function do). -/
def Heap.withGrad (h : Heap α) (p : Nat) (g : Buf α) : Heap α :=
  { cell := fun a => if a = p then { h.cell p with grad := g } else h.cell a
    next := h.next }

/-- The buffer with every non-finite entry of its `r × c` part replaced by 0. -/
def sanitize (F : FloatOps α) (g : Buf α) (r c : Nat) : Buf α :=
  fun a b => if a < r ∧ b < c then (if F.isfinite (g a b) = false then 0 else g a b) else g a b

/-- The sum of the squares of the entries of the `r × c` part of a buffer. -/
def sumsq (g : Buf α) (r c : Nat) : α :=
  ∑ i in Finset.range r, ∑ j in Finset.range c, g i j * g i j

/-- The transpose of a buffer. -/
def Buf.transpose (g : Buf α) : Buf α := fun i j => g j i

/-- The matrix product of two buffers with inner dimension `k`:
entry `(i, j)` is the sum over `l < k` of `A i l * B l j`. -/
def Buf.matmul (A B : Buf α) (k : Nat) : Buf α :=
  fun i j => ∑ l in Finset.range k, A i l * B l j

/-- The heap `h` with the value buffer of node `p` replaced by `d`. -/
def Heap.withData (h : Heap α) (p : Nat) (d : Buf α) : Heap α :=
  { cell := fun a => if a = p then { h.cell p with data := d } else h.cell a
    next := h.next }

/-- The relation between a heap and a later one in which nothing but gradient buffers
was written: the allocation mark and, for every node, shape, value buffer, children,
rule tag and label are the same. -/
def Heap.gradOnly (h h' : Heap α) : Prop :=
  h'.next = h.next ∧ ∀ p, (h'.cell p).rows = (h.cell p).rows ∧
    (h'.cell p).cols = (h.cell p).cols ∧ (h'.cell p).data = (h.cell p).data ∧
    (h'.cell p).left = (h.cell p).left ∧ (h'.cell p).right = (h.cell p).right ∧
    (h'.cell p)._backward = (h.cell p)._backward ∧ (h'.cell p).name = (h.cell p).name

/-- The relation between a heap and a later one in which no shape and no value buffer
was written. -/
def Heap.sameValues (h h' : Heap α) : Prop :=
  ∀ p, (h'.cell p).rows = (h.cell p).rows ∧ (h'.cell p).cols = (h.cell p).cols ∧
    (h'.cell p).data = (h.cell p).data

/-- Every node of the heap has an all-zero gradient buffer (on the allocated part). -/
def Heap.gradZero (h : Heap α) : Prop :=
  ∀ p i j, i < (h.cell p).rows → j < (h.cell p).cols → (h.cell p).grad i j = 0

/-! ### Concrete heaps -/

/-- An empty store. -/
def Heap.empty : Heap α := { cell := fun _ => Tensor.new 0 0 none "", next := 0 }

/-- A buffer given by its rows. -/
def Buf.ofLists (l : List (List α)) : Buf α := fun i j => (l.getD i []).getD j 0

/-- A leaf created from injected data, `new Tensor(rows, cols, data, name)`. -/
def Heap.leaf (h : Heap α) (rows cols : Nat) (data : List (List α)) (name : String) : Heap α :=
  (h.alloc (Tensor.new rows cols (some (Buf.ofLists data)) name)).1

/-- Two leaves: `A` (2 x 3) at address 0 and `B` (3 x 2) at address 1. -/
def heapA23B32 (α : Type) [LinearOrderedField α] : Heap α :=
  (Heap.empty.leaf 2 3 [[1, 2, 3], [4, 5, 6]] "A").leaf 3 2 [[7, 8], [9, 10], [11, 12]] "B"

/-- Two leaves with shapes that do not compose: `A` (2 x 3) at address 0 and `B`
(4 x 2) at address 1. -/
def heapA23B42 (α : Type) [LinearOrderedField α] : Heap α :=
  (Heap.empty.leaf 2 3 [[1, 2, 3], [4, 5, 6]] "A").leaf 4 2
    [[1, 0], [0, 1], [1, 1], [2, 2]] "B"

/-- Two column vectors: `u = (1, 2)` at address 0 and `v = (3, 4)` at address 1. -/
def heapUV (α : Type) [LinearOrderedField α] : Heap α :=
  (Heap.empty.leaf 2 1 [[1], [2]] "u").leaf 2 1 [[3], [4]] "v"

/-- Two leaves of the same shape: `A` (2 x 2) at address 0 and `B` (2 x 2) at
address 1. -/
def heapA22B22 (α : Type) [LinearOrderedField α] : Heap α :=
  (Heap.empty.leaf 2 2 [[1, 2], [3, 4]] "A").leaf 2 2 [[5, 6], [7, 8]] "B"

/-- A leaf `X` (2 x 2) at address 0 with a positive, a zero and two negative entries. -/
def heapX22 (α : Type) [LinearOrderedField α] : Heap α :=
  Heap.empty.leaf 2 2 [[1, 0], [-1, -2]] "X"

/-- The node `S = A + B` over the leaves of `heapA22B22`, at address 2, after the
caller has written the gradient buffer of `S`. -/
def heapSum (α : Type) [LinearOrderedField α] : Heap α :=
  (Tensor.operator_add (heapA22B22 α) 0 1).1.withGrad 2 (Buf.ofLists [[1 / 2, 0], [0, 1 / 4]])

/-- The node `C = A * B` over the leaves of `heapA23B32`, at address 2, after the
caller has written the gradient buffer of `C`. -/
def heapProd (α : Type) [LinearOrderedField α] : Heap α :=
  (Tensor.operator_mul (heapA23B32 α) 0 1).1.withGrad 2 (Buf.ofLists [[1, 0], [0, 1]])

/-- The node `s = u ^ v` over the leaves of `heapUV`, at address 2, holding the
gradient `dS`. -/
def heapDot (α : Type) [LinearOrderedField α] (dS : α) : Heap α :=
  (Tensor.operator_caret (heapUV α) 0 1).1.withGrad 2 (Buf.ofLists [[dS]])

/-- A 1 x 1 leaf `X = (-1)` at address 0, the node `Y = X.lekyrelu(1/2)` at address 1,
and the gradient `1` written into `Y.grad`. -/
def heapLeaky (α : Type) [LinearOrderedField α] : Heap α :=
  (Tensor.lekyrelu (Heap.empty.leaf 1 1 [[-1]] "X") 0 (1 / 2)).1.withGrad 1 (Buf.ofLists [[1]])

/-- The diamond `root = (L + A) * (L + B)` over 1 x 1 leaves `L = A = B = (1/4)`:
`L`, `A`, `B` at addresses 0, 1, 2, the sums `L + A` and `L + B` at 3 and 4, `root` at
5; the caller has written the gradient `(1/2)` into `root`. -/
def heapDiamond (α : Type) [LinearOrderedField α] : Heap α :=
  (Tensor.operator_mul
    (Tensor.operator_add
      (Tensor.operator_add
        (((Heap.empty.leaf 1 1 [[1 / 4]] "L").leaf 1 1 [[1 / 4]] "A").leaf 1 1 [[1 / 4]] "B")
        0 1).1
      0 2).1
    3 4).1.withGrad 5 (Buf.ofLists [[1 / 2]])

/-! ### Handles and reference counts (`minimal_intrusive_ptr.hpp`) -/

/-- The state of the handles of `minimal_intrusive_ptr.hpp`: the field `ref_count_` of
every node, the nodes on which `delete this` has run, the handle objects whose lifetime
has begun and not ended, and the field `px` of every handle object (`none` is
`nullptr`). Nodes and handle objects are named by natural numbers. -/
structure RcState where
  ref_count_ : Nat → Nat
  deleted : Nat → Bool
  live : Finset Nat
  px : Nat → Option Nat

/-- The operations on a handle object `k`: `intrusive_ptr()`, `intrusive_ptr(T* p)`,
`intrusive_ptr(const intrusive_ptr& rhs)`, `~intrusive_ptr()`,
`operator=(const intrusive_ptr& rhs)` and `operator=(T* rhs)`. -/
inductive HandleOp where
  | ctor_default (k : Nat)
  | ctor_raw (k : Nat) (p : Option Nat)
  | ctor_copy (k rhs : Nat)
  | dtor (k : Nat)
  | assign (k rhs : Nat)
  | assign_raw (k : Nat) (rhs : Option Nat)

/-- The method `void ref_counter::add_ref()`, `++ref_count_`, on the node `p`;
`ref_count_` is a `std::size_t` of `w` bits. -/
def ref_counter.add_ref (w : Nat) (s : RcState) (p : Nat) : RcState :=
  { s with ref_count_ := fun q => if q = p then (s.ref_count_ p + 1) % 2 ^ w else s.ref_count_ q }

/-- The method `void ref_counter::release()`, `if (--ref_count_ == 0) delete this;`, on
the node `p`. -/
def ref_counter.release (w : Nat) (s : RcState) (p : Nat) : RcState :=
  { s with
    ref_count_ := fun q =>
      if q = p then (s.ref_count_ p + (2 ^ w - 1)) % 2 ^ w else s.ref_count_ q
    deleted := fun q =>
      if q = p then
        (if (s.ref_count_ p + (2 ^ w - 1)) % 2 ^ w = 0 then true else s.deleted p)
      else s.deleted q }

/-- The assignment `px = v` in the handle object `k`. -/
def RcState.setPx (s : RcState) (k : Nat) (v : Option Nat) : RcState :=
  { s with px := fun j => if j = k then v else s.px j }

/-- The private method `void intrusive_ptr::add_ref()` of the handle object `k`. -/
def intrusive_ptr.add_ref (w : Nat) (s : RcState) (k : Nat) : RcState :=
  match s.px k with
  | some p => ref_counter.add_ref w s p
  | none => s

/-- The private method `void intrusive_ptr::release()` of the handle object `k`. -/
def intrusive_ptr.release (w : Nat) (s : RcState) (k : Nat) : RcState :=
  match s.px k with
  | some p => (ref_counter.release w s p).setPx k none
  | none => s

/-- The state after one operation, as the constructors, the destructor and the two
assignment operators of `intrusive_ptr` are written. -/
def HandleOp.apply (w : Nat) (s : RcState) : HandleOp → RcState
  | HandleOp.ctor_default k => { s.setPx k none with live := insert k s.live }
  | HandleOp.ctor_raw k p =>
    intrusive_ptr.add_ref w { s.setPx k p with live := insert k s.live } k
  | HandleOp.ctor_copy k rhs =>
    intrusive_ptr.add_ref w { s.setPx k (s.px rhs) with live := insert k s.live } k
  | HandleOp.dtor k =>
    { intrusive_ptr.release w s k with live := s.live.erase k }
  | HandleOp.assign k rhs =>
    if k ≠ rhs then
      intrusive_ptr.add_ref w
        ((intrusive_ptr.release w s k).setPx k ((intrusive_ptr.release w s k).px rhs)) k
    else s
  | HandleOp.assign_raw k rhs =>
    if s.px k ≠ rhs then
      intrusive_ptr.add_ref w ((intrusive_ptr.release w s k).setPx k rhs) k
    else s

/-- The state after a sequence of operations. -/
def HandleOp.run (w : Nat) (s : RcState) (ops : List HandleOp) : RcState :=
  ops.foldl (HandleOp.apply w) s

/-- The number of live handle objects that point at the node `p`. -/
def RcState.handles_to (s : RcState) (p : Nat) : Nat :=
  (s.live.filter (fun k => s.px k = some p)).card

/-- The operation can be performed in the state `s`: a constructor runs on an object
that is not alive, the other operations on one that is; a handle operand is alive; a raw
pointer operand is null or points at a node that has not been deleted. A handle object
occupies memory, so a constructor runs only while fewer than `2 ^ w - 1` handle objects
are alive. -/
def HandleOp.valid (w : Nat) (s : RcState) : HandleOp → Prop
  | HandleOp.ctor_default k => k ∉ s.live ∧ s.live.card + 1 < 2 ^ w
  | HandleOp.ctor_raw k p =>
    k ∉ s.live ∧ s.live.card + 1 < 2 ^ w ∧ ∀ q, p = some q → s.deleted q = false
  | HandleOp.ctor_copy k rhs => k ∉ s.live ∧ s.live.card + 1 < 2 ^ w ∧ rhs ∈ s.live
  | HandleOp.dtor k => k ∈ s.live
  | HandleOp.assign k rhs => k ∈ s.live ∧ rhs ∈ s.live
  | HandleOp.assign_raw k rhs => k ∈ s.live ∧ ∀ q, rhs = some q → s.deleted q = false

/-- Every operation of the sequence can be performed in the state it is reached in. -/
def HandleOp.validSeq (w : Nat) : RcState → List HandleOp → Prop
  | _, [] => True
  | s, op :: rest => HandleOp.valid w s op ∧ HandleOp.validSeq w (HandleOp.apply w s op) rest

/-- The reference count of every node is the number of live handle objects that point
at it, no live handle object points at a deleted node, and fewer than `2 ^ w` handle
objects are alive. -/
def RcState.consistent (w : Nat) (s : RcState) : Prop :=
  s.live.card < 2 ^ w ∧
  ∀ p, s.ref_count_ p = s.handles_to p ∧ (s.deleted p = true → s.handles_to p = 0)

/-- The state before any handle object exists: every count is 0 (`ref_counter()`),
no node is deleted. -/
def RcState.init : RcState :=
  { ref_count_ := fun _ => 0, deleted := fun _ => false, live := ∅, px := fun _ => none }

/-- The pointer that the operation gives up in the state `s`: `px` of the handle
object for the destructor and for an assignment that passes its guard, null
otherwise. -/
def HandleOp.released (s : RcState) : HandleOp → Option Nat
  | HandleOp.ctor_default _ => none
  | HandleOp.ctor_raw _ _ => none
  | HandleOp.ctor_copy _ _ => none
  | HandleOp.dtor k => s.px k
  | HandleOp.assign k rhs => if k ≠ rhs then s.px k else none
  | HandleOp.assign_raw k rhs => if s.px k ≠ rhs then s.px k else none

/-- The pointer that the operation takes up in the state `s`: the operand of a
constructor and of an assignment that passes its guard, null otherwise. -/
def HandleOp.acquired (s : RcState) : HandleOp → Option Nat
  | HandleOp.ctor_default _ => none
  | HandleOp.ctor_raw _ p => p
  | HandleOp.ctor_copy _ rhs => s.px rhs
  | HandleOp.dtor _ => none
  | HandleOp.assign k rhs => if k ≠ rhs then s.px rhs else none
  | HandleOp.assign_raw k rhs => if s.px k ≠ rhs then rhs else none

/-! ### Assignment and copy of nodes -/

/-- The call `memcpy(dst[j], src[j], n * sizeof(float32))`: the first `n` entries of
row `j` of `dst` are overwritten by those of row `j` of `src`. -/
def memcpy_row (dst src : Buf α) (j n : Nat) : Buf α :=
  fun a c => if a = j ∧ c < n then src j c else dst a c

/-- The assignment operator `Tensor& Tensor::operator=(const Tensor& t)` of
`matrix.cpp`. The node `new_tensor` is built by `new Tensor(t.rows, t.cols)` (zero-filled
value and gradient buffers), receives the rows of `t.data` by `memcpy` and the label,
rule tag and child handles of `t`; then every field of `*this` is assigned from it and
it is deleted, so it is a local value here and takes no address of the heap. -/
def Tensor.operator_assign (h : Heap α) (self t : Nat) : Heap α :=
  if self = t then h
  else
    let new_tensor : Tensor α := Tensor.new (h.cell t).rows (h.cell t).cols none ""
    let new_tensor : Tensor α :=
      { new_tensor with
        data := forRange (h.cell t).rows
          (fun j d => memcpy_row d (h.cell t).data j (h.cell t).cols) new_tensor.data
        name := (h.cell t).name
        _backward := (h.cell t)._backward
        left := (h.cell t).left
        right := (h.cell t).right }
    { cell := fun a =>
        if a = self then
          { h.cell self with
            data := new_tensor.data
            grad := new_tensor.grad
            rows := new_tensor.rows
            cols := new_tensor.cols
            left := new_tensor.left
            right := new_tensor.right
            name := new_tensor.name
            _backward := new_tensor._backward }
        else h.cell a
      next := h.next }

/-- The copy constructor `Tensor(const Tensor& t)` of `matrix.h`; the node under
construction is placed at the next free address. Its rows come from
`new float32[cols]`, which does not initialise them: `junk_data` and `junk_grad` stand
for what the fresh rows hold before `memcpy`. The tests `t.data && t.data[j]` and
`t.grad && t.grad[j]` succeed, a node of the heap having both buffers. -/
def Tensor.new_copy (h : Heap α) (t : Nat) (junk_data junk_grad : Buf α) : Heap α × Nat :=
  let s := forRange (h.cell t).rows (fun j (s : Buf α × Buf α) =>
    (memcpy_row s.1 (h.cell t).data j (h.cell t).cols,
      memcpy_row s.2 (h.cell t).grad j (h.cell t).cols)) (junk_data, junk_grad)
  h.alloc
    { rows := (h.cell t).rows
      cols := (h.cell t).cols
      name := (h.cell t).name
      _backward := (h.cell t)._backward
      left := (h.cell t).left
      right := (h.cell t).right
      data := s.1
      grad := s.2 }

/-! ### The wrapper `Value` (`value.h`) -/

/-- The class `Value` of `value.h`: the handle `ptr` to the current node and the
handle `orig` to the origin node. -/
structure Value where
  ptr : Option Nat
  orig : Option Nat
  deriving DecidableEq

/-- The write `v.ptr = p` on the `Value` object at address `v`. `Value` objects live
in a store addressed by natural numbers, so that two operands of an operator may be the
same object. -/
def Value.setPtr (vs : Nat → Value) (v : Nat) (p : Option Nat) : Nat → Value :=
  fun a => if a = v then { vs v with ptr := p } else vs a

/-- The store in which every `Value` object is as the constructor `Value()` leaves
it: both handles null. -/
def Value.default : Nat → Value := fun _ => { ptr := none, orig := none }

/-- The constructor `Value(int row, int cols, float **data, std::string name)`, run
on the object at address `v`: a leaf is created and both handles point to it. -/
def Value.new (h : Heap α) (vs : Nat → Value) (v : Nat) (row cols : Nat) (data : Buf α)
    (name : String) : Heap α × (Nat → Value) :=
  let r := h.alloc (Tensor.new row cols (some data) name)
  (r.1, fun a => if a = v then { ptr := some r.2, orig := some r.2 } else vs a)

/-- The assignment `Value &Value::operator=(const Value &other)`: the handle `ptr`
is copied, the handle `orig` is kept. -/
def Value.operator_assign (vs : Nat → Value) (self other : Nat) : Nat → Value :=
  if self ≠ other then Value.setPtr vs self (vs other).ptr else vs

/-- The statement
`if (ptr->_backward == nullptr && orig != nullptr) { this->ptr = this->orig; }`
with which every operator of `Value` begins. The left operand of `&&` dereferences
`ptr`; `none` says that `ptr` was null. -/
def Value.rebind (h : Heap α) (vs : Nat → Value) (self : Nat) : Option (Nat → Value) :=
  match (vs self).ptr with
  | none => none
  | some p =>
    if (h.cell p)._backward = none ∧ (vs self).orig ≠ none then
      some (Value.setPtr vs self (vs self).orig)
    else some vs

/-- The operator `Value Value::operator+(const Value &other) const`: the store of
`Value` objects and the heap after the call, and the `Value` returned, built by
`Value(Tensor *)`, which sets `ptr` only. The operands `*ptr` and `*other.ptr` are read
after the first statement; `none` says that a null handle was dereferenced. -/
def Value.operator_add (h : Heap α) (vs : Nat → Value) (self other : Nat) :
    Option ((Nat → Value) × Heap α × Value) :=
  match Value.rebind h vs self with
  | none => none
  | some vs1 =>
    match (vs1 self).ptr, (vs1 other).ptr with
    | some l, some r =>
      let res := Tensor.operator_add h l r
      some (vs1, res.1, { ptr := some res.2, orig := none })
    | _, _ => none

/-- The operator `Value Value::operator*(const Value &other) const`; when
`Tensor::operator*` throws, no `Value` is built and the message is returned. -/
def Value.operator_mul (h : Heap α) (vs : Nat → Value) (self other : Nat) :
    Option ((Nat → Value) × Heap α × Except String Value) :=
  match Value.rebind h vs self with
  | none => none
  | some vs1 =>
    match (vs1 self).ptr, (vs1 other).ptr with
    | some l, some r =>
      let res := Tensor.operator_mul h l r
      some (vs1, res.1, match res.2 with
        | Except.ok p => Except.ok { ptr := some p, orig := none }
        | Except.error e => Except.error e)
    | _, _ => none

/-- The operator `Value Value::operator^(const Value &other) const`. -/
def Value.operator_caret (h : Heap α) (vs : Nat → Value) (self other : Nat) :
    Option ((Nat → Value) × Heap α × Except String Value) :=
  match Value.rebind h vs self with
  | none => none
  | some vs1 =>
    match (vs1 self).ptr, (vs1 other).ptr with
    | some l, some r =>
      let res := Tensor.operator_caret h l r
      some (vs1, res.1, match res.2 with
        | Except.ok p => Except.ok { ptr := some p, orig := none }
        | Except.error e => Except.error e)
    | _, _ => none

/-- The operator `Value Value::operator/(const Value &other) const`. -/
def Value.operator_div (h : Heap α) (vs : Nat → Value) (self other : Nat) :
    Option ((Nat → Value) × Heap α × Value) :=
  match Value.rebind h vs self with
  | none => none
  | some vs1 =>
    match (vs1 self).ptr, (vs1 other).ptr with
    | some l, some r =>
      let res := Tensor.operator_div h l r
      some (vs1, res.1, { ptr := some res.2, orig := none })
    | _, _ => none

/-- The operator `Value Value::operator-(const Value &other) const`. -/
def Value.operator_sub (h : Heap α) (vs : Nat → Value) (self other : Nat) :
    Option ((Nat → Value) × Heap α × Value) :=
  match Value.rebind h vs self with
  | none => none
  | some vs1 =>
    match (vs1 self).ptr, (vs1 other).ptr with
    | some l, some r =>
      let res := Tensor.operator_sub h l r
      some (vs1, res.1, { ptr := some res.2, orig := none })
    | _, _ => none

/-- The method `Value Value::leakyrelu(float leaky = 0.01)`. -/
def Value.leakyrelu (h : Heap α) (vs : Nat → Value) (self : Nat) (leaky : α) :
    Option ((Nat → Value) × Heap α × Value) :=
  match Value.rebind h vs self with
  | none => none
  | some vs1 =>
    match (vs1 self).ptr with
    | some l =>
      let res := Tensor.lekyrelu h l leaky
      some (vs1, res.1, { ptr := some res.2, orig := none })
    | none => none

/-- Two leaves `X = (1)` and `Y = (2)` (addresses 0 and 1) created by the `Value`
objects 0 and 1. -/
def heapXY (α : Type) [LinearOrderedField α] : Heap α × (Nat → Value) :=
  let s : Heap α × (Nat → Value) :=
    Value.new Heap.empty Value.default 0 1 1 (Buf.ofLists [[1]]) "X"
  Value.new s.1 s.2 1 1 1 (Buf.ofLists [[2]]) "Y"

/-- The state after `x = x + y` on the objects of `heapXY`: the sum is the node at
address 2, the temporary that `operator+` returns is the object at address 2, and the
object 0 has the sum as its current node and `X` as its origin. -/
def heapXYS (α : Type) [LinearOrderedField α] : Heap α × (Nat → Value) :=
  match Value.operator_add (heapXY α).1 (heapXY α).2 0 1 with
  | some r => (r.2.1, Value.operator_assign (fun a => if a = 2 then r.2.2 else r.1 a) 0 2)
  | none => heapXY α

end Defs

section LoopLemmas

universe v

theorem forRange_zero {σ : Type v} (f : Nat → σ → σ) (s : σ) : forRange 0 f s = s := rfl

theorem forRange_succ {σ : Type v} (n : Nat) (f : Nat → σ → σ) (s : σ) :
    forRange (n + 1) f s = f n (forRange n f s) := by
  simp [forRange, List.range_succ]

/-- A loop on a state of type `σ` that is the image under `emb` of a loop on `τ`. -/
theorem forRange_map {σ : Type v} {τ : Type v} (emb : τ → σ) (n : Nat) (f : Nat → σ → σ)
    (g : Nat → τ → τ) (hfg : ∀ i, i < n → ∀ t, f i (emb t) = emb (g i t)) (t : τ) :
    forRange n f (emb t) = emb (forRange n g t) := by
  induction n with
  | zero => rfl
  | succ n ih =>
    rw [forRange_succ, forRange_succ, ih (fun i hi => hfg i (Nat.lt_succ_of_lt hi)),
      hfg n (Nat.lt_succ_self n)]

/-- Two loops with bodies that agree below the bound are the same loop. -/
theorem forRange_congr {σ : Type v} (n : Nat) (f g : Nat → σ → σ)
    (hfg : ∀ i, i < n → ∀ s, f i s = g i s) (s : σ) : forRange n f s = forRange n g s := by
  induction n with
  | zero => rfl
  | succ n ih =>
    rw [forRange_succ, forRange_succ, ih (fun i hi => hfg i (Nat.lt_succ_of_lt hi)),
      hfg n (Nat.lt_succ_self n)]

variable {α : Type}

/-- One row of an elementwise update loop. -/
theorem forRange_set_row (φ : Nat → α → α) (i c : Nat) (g : Buf α) :
    forRange c (fun j d => d.set i j (φ j (d i j))) g =
      fun a b => if a = i ∧ b < c then φ b (g a b) else g a b := by
  induction c with
  | zero => funext a b; simp [forRange_zero]
  | succ c ih =>
    rw [forRange_succ, ih]
    funext a b
    simp only [Buf.set]
    by_cases h1 : a = i
    · subst h1
      by_cases h2 : b = c
      · subst h2; simp
      · have : b < c + 1 ↔ b < c := by omega
        simp [h2, this]
    · simp [h1]

/-- The elementwise update loop over a `rows × cols` buffer. -/
theorem forRange_set_all (φ : Nat → Nat → α → α) (r c : Nat) (g : Buf α) :
    forRange r (fun i d => forRange c (fun j d => d.set i j (φ i j (d i j))) d) g =
      fun a b => if a < r ∧ b < c then φ a b (g a b) else g a b := by
  induction r with
  | zero => funext a b; simp [forRange_zero]
  | succ r ih =>
    rw [forRange_succ, ih, forRange_set_row]
    funext a b
    by_cases h1 : a = r
    · subst h1; simp
    · have : a < r + 1 ↔ a < r := by omega
      simp [h1, this]

/-- The accumulation loop `for k < n: d[i][j] += t k`. -/
theorem forRange_accum [AddCommMonoid α] (t : Nat → α) (i j n : Nat) (g : Buf α) :
    forRange n (fun k d => d.set i j (d i j + t k)) g =
      g.set i j (g i j + ∑ k in Finset.range n, t k) := by
  induction n with
  | zero =>
    funext a b
    simp only [forRange_zero, Buf.set, Finset.range_zero, Finset.sum_empty, add_zero]
    split_ifs with h
    · rw [h.1, h.2]
    · rfl
  | succ n ih =>
    rw [forRange_succ, ih, Finset.sum_range_succ]
    funext a b
    by_cases h : a = i ∧ b = j
    · simp [Buf.set, h, add_assoc]
    · simp [Buf.set, h]

theorem Heap.withGrad_self (h : Heap α) (p : Nat) : h.withGrad p (h.cell p).grad = h := by
  cases h with
  | mk cell next =>
    simp only [Heap.withGrad, Heap.mk.injEq, and_true]
    funext a
    by_cases ha : a = p
    · subst ha; simp
    · simp [ha]

theorem Heap.setGrad_withGrad (h : Heap α) (p i j : Nat) (g : Buf α) (v : α) :
    (h.withGrad p g).setGrad p i j v = h.withGrad p (g.set i j v) := by
  simp only [Heap.setGrad, Heap.withGrad, Heap.mk.injEq, and_true]
  funext a
  by_cases ha : a = p
  · simp [ha]
  · simp [ha]

theorem Heap.withGrad_cell_ne (h : Heap α) (p q : Nat) (g : Buf α) (hq : q ≠ p) :
    (h.withGrad p g).cell q = h.cell q := by
  simp [Heap.withGrad, hq]

theorem Heap.withGrad_cell_self (h : Heap α) (p : Nat) (g : Buf α) :
    (h.withGrad p g).cell p = { h.cell p with grad := g } := by
  simp [Heap.withGrad]

theorem Heap.withGrad_withGrad (h : Heap α) (p : Nat) (g g' : Buf α) :
    (h.withGrad p g).withGrad p g' = h.withGrad p g' := by
  simp only [Heap.withGrad, Heap.mk.injEq, and_true]
  funext a
  by_cases ha : a = p
  · simp [ha]
  · simp [ha]

/-- A doubly nested loop that writes `l->grad[i][j]`, reading besides that entry only
what does not depend on `l->grad`. -/
theorem heap_loop2 (h : Heap α) (l r c : Nat) (ψ : Heap α → Nat → Nat → α)
    (φ : Nat → Nat → α → α) (hψ : ∀ g i j, ψ (h.withGrad l g) i j = φ i j (g i j)) :
    forRange r (fun i s => forRange c (fun j s => s.setGrad l i j (ψ s i j)) s) h =
      h.withGrad l (fun a b =>
        if a < r ∧ b < c then φ a b ((h.cell l).grad a b) else (h.cell l).grad a b) := by
  have hgen : ∀ g : Buf α,
      forRange r (fun i s => forRange c (fun j s => s.setGrad l i j (ψ s i j)) s)
        (h.withGrad l g) =
      h.withGrad l (forRange r (fun i d => forRange c (fun j d => d.set i j (φ i j (d i j))) d)
        g) := by
    intro g
    apply forRange_map (h.withGrad l)
    intro i _ t
    apply forRange_map (h.withGrad l)
    intro j _ t
    rw [Heap.setGrad_withGrad, hψ]
  have := hgen (h.cell l).grad
  rw [Heap.withGrad_self, forRange_set_all] at this
  exact this

/-- A loop over the rows that writes one column. -/
theorem forRange_set_col (φ : Nat → α → α) (j n : Nat) (g : Buf α) :
    forRange n (fun i d => d.set i j (φ i (d i j))) g =
      fun a b => if a < n ∧ b = j then φ a (g a b) else g a b := by
  induction n with
  | zero => funext a b; simp [forRange_zero]
  | succ n ih =>
    rw [forRange_succ, ih]
    funext a b
    simp only [Buf.set]
    by_cases h2 : b = j
    · subst h2
      by_cases h1 : a = n
      · subst h1; simp
      · have : a < n + 1 ↔ a < n := by omega
        simp [h1, this]
    · simp [h2]

/-- A single loop that writes `l->grad[i][0]`. -/
theorem heap_loop1 (h : Heap α) (l n : Nat) (ψ : Heap α → Nat → α)
    (φ : Nat → α → α) (hψ : ∀ g i, ψ (h.withGrad l g) i = φ i (g i 0)) :
    forRange n (fun i s => s.setGrad l i 0 (ψ s i)) h =
      h.withGrad l (fun a b =>
        if a < n ∧ b = 0 then φ a ((h.cell l).grad a b) else (h.cell l).grad a b) := by
  have hgen : ∀ g : Buf α,
      forRange n (fun i s => s.setGrad l i 0 (ψ s i)) (h.withGrad l g) =
      h.withGrad l (forRange n (fun i d => d.set i 0 (φ i (d i 0))) g) := by
    intro g
    apply forRange_map (h.withGrad l)
    intro i _ t
    rw [Heap.setGrad_withGrad, hψ]
  have := hgen (h.cell l).grad
  rw [Heap.withGrad_self, forRange_set_col] at this
  exact this

/-- Writing back the value buffer a node has changes nothing. -/
theorem Heap.withData_self (h : Heap α) (p : Nat) : h.withData p (h.cell p).data = h := by
  cases h with
  | mk cell next =>
    simp only [Heap.withData, Heap.mk.injEq, and_true]
    funext a
    by_cases ha : a = p
    · subst ha; simp
    · simp [ha]

theorem Heap.setData_withData (h : Heap α) (p i j : Nat) (d : Buf α) (v : α) :
    (h.withData p d).setData p i j v = h.withData p (d.set i j v) := by
  simp only [Heap.setData, Heap.withData, Heap.mk.injEq, and_true]
  funext a
  by_cases ha : a = p
  · simp [ha]
  · simp [ha]

theorem Heap.withData_cell_ne (h : Heap α) (p q : Nat) (d : Buf α) (hq : q ≠ p) :
    (h.withData p d).cell q = h.cell q := by
  simp [Heap.withData, hq]

theorem Heap.withData_cell_self (h : Heap α) (p : Nat) (d : Buf α) :
    (h.withData p d).cell p = { h.cell p with data := d } := by
  simp [Heap.withData]

/-- A doubly nested loop that writes `p->data[i][j]`, reading besides that entry only
what does not depend on `p->data`. -/
theorem heap_data_loop2 (h : Heap α) (p r c : Nat) (ψ : Heap α → Nat → Nat → α)
    (φ : Nat → Nat → α → α) (hψ : ∀ d i j, ψ (h.withData p d) i j = φ i j (d i j)) :
    forRange r (fun i s => forRange c (fun j s => s.setData p i j (ψ s i j)) s) h =
      h.withData p (fun a b =>
        if a < r ∧ b < c then φ a b ((h.cell p).data a b) else (h.cell p).data a b) := by
  have hgen : ∀ d : Buf α,
      forRange r (fun i s => forRange c (fun j s => s.setData p i j (ψ s i j)) s)
        (h.withData p d) =
      h.withData p (forRange r (fun i d => forRange c (fun j d => d.set i j (φ i j (d i j))) d)
        d) := by
    intro d
    apply forRange_map (h.withData p)
    intro i _ t
    apply forRange_map (h.withData p)
    intro j _ t
    rw [Heap.setData_withData, hψ]
  have := hgen (h.cell p).data
  rw [Heap.withData_self, forRange_set_all] at this
  exact this

/-! ### The traversal, and writes that leave shapes and values alone -/

/-- Two non-null handles are equivalent under the ordering of the set: neither is
less than the other. -/
theorem intrusive_ptr_less_some (p q : Nat) : intrusive_ptr_less (some p) (some q) = false := by
  simp [intrusive_ptr_less, operator_bool]

/-- In a set that holds one non-null handle, `find` succeeds for every non-null
handle. -/
theorem set_find_singleton (r p : Nat) : set_find [some r] (some p) = some (some r) := by
  simp [set_find, intrusive_ptr_less_some]

/-- A call of `visit_tensor` on a non-null handle, when the set already holds a non-null
handle, returns at once and leaves `visited` and `topo` as they were. -/
theorem visit_tensor_found (h : Heap α) (n r p : Nat) (topo : List Nat) :
    visit_tensor h (n + 1) (some p) ([some r], topo) = some ([some r], topo) := by
  simp [visit_tensor, set_find_singleton]

/-- A property that every iteration preserves holds after the loop. -/
theorem forRange_invariant {σ : Type} (P : σ → Prop) (n : Nat) (f : Nat → σ → σ)
    (hstep : ∀ i s, P s → P (f i s)) (s : σ) (h0 : P s) : P (forRange n f s) := by
  induction n with
  | zero => exact h0
  | succ n ih =>
    rw [forRange_succ]
    exact hstep n _ ih

/-- Nothing written is gradient buffers only. -/
theorem Heap.gradOnly_refl (h : Heap α) : Heap.gradOnly h h :=
  ⟨rfl, fun _ => ⟨rfl, rfl, rfl, rfl, rfl, rfl, rfl⟩⟩

/-- Gradient-only writes compose. -/
theorem Heap.gradOnly_trans {h1 h2 h3 : Heap α} (h12 : Heap.gradOnly h1 h2)
    (h23 : Heap.gradOnly h2 h3) : Heap.gradOnly h1 h3 := by
  refine ⟨h23.1.trans h12.1, fun p => ?_⟩
  obtain ⟨a1, a2, a3, a4, a5, a6, a7⟩ := h12.2 p
  obtain ⟨b1, b2, b3, b4, b5, b6, b7⟩ := h23.2 p
  exact ⟨b1.trans a1, b2.trans a2, b3.trans a3, b4.trans a4, b5.trans a5, b6.trans a6,
    b7.trans a7⟩

/-- The write `p->grad[i][j] = v` writes a gradient buffer only. -/
theorem Heap.gradOnly_setGrad (h : Heap α) (p i j : Nat) (v : α) :
    Heap.gradOnly h (h.setGrad p i j v) := by
  refine ⟨rfl, fun q => ?_⟩
  by_cases hq : q = p
  · subst hq; simp [Heap.setGrad]
  · simp [Heap.setGrad, hq]

/-- Gradient-only writes change no shape and no value buffer. -/
theorem Heap.sameValues_of_gradOnly {h h' : Heap α} (hg : Heap.gradOnly h h') :
    Heap.sameValues h h' :=
  fun p => ⟨(hg.2 p).1, (hg.2 p).2.1, (hg.2 p).2.2.1⟩

/-- Writes that change no shape and no value buffer compose. -/
theorem Heap.sameValues_trans {h1 h2 h3 : Heap α} (h12 : Heap.sameValues h1 h2)
    (h23 : Heap.sameValues h2 h3) : Heap.sameValues h1 h3 :=
  fun p => ⟨(h23 p).1.trans (h12 p).1, (h23 p).2.1.trans (h12 p).2.1,
    (h23 p).2.2.trans (h12 p).2.2⟩

/-- The clearing of a node writes no shape and no value buffer. -/
theorem Heap.sameValues_clear (h : Heap α) (p : Nat) : Heap.sameValues h (h.clear p) := by
  intro q
  by_cases hq : q = p
  · subst hq; simp [Heap.clear]
  · simp [Heap.clear, hq]

/-- The traversal from a root with an empty set, given a depth bound of at least 2,
returns the one-element sequence that holds the root. -/
theorem visit_tensor_root (h : Heap α) (n root : Nat) :
    visit_tensor h (n + 2) (some root) ([], []) = some ([some root], [root]) := by
  have hins : set_insert [] (some root) = [some root] := by simp [set_insert, set_find]
  rw [visit_tensor]
  simp only [set_find, List.find?_nil, hins]
  cases hl : (h.cell root).left <;> cases hr : (h.cell root).right <;>
    simp [visit_tensor_found]

/-- A doubly nested loop of gradient writes writes gradient buffers only. -/
theorem gradOnly_loop2 (h : Heap α) (p r c : Nat) (v : Heap α → Nat → Nat → α) :
    Heap.gradOnly h
      (forRange r (fun i s => forRange c (fun j s => s.setGrad p i j (v s i j)) s) h) := by
  apply forRange_invariant (fun s => Heap.gradOnly h s) _ _ _ _ (Heap.gradOnly_refl h)
  intro i s hs
  apply forRange_invariant (fun s => Heap.gradOnly h s) _ _ _ _ hs
  intro j s hs
  exact Heap.gradOnly_trans hs (Heap.gradOnly_setGrad s p i j _)

/-- A triply nested loop of gradient writes writes gradient buffers only. -/
theorem gradOnly_loop3 (h : Heap α) (p r c n : Nat) (v : Heap α → Nat → Nat → Nat → α) :
    Heap.gradOnly h
      (forRange r (fun i s => forRange c (fun j s => forRange n (fun k s =>
        s.setGrad p i j (v s i j k)) s) s) h) := by
  apply forRange_invariant (fun s => Heap.gradOnly h s) _ _ _ _ (Heap.gradOnly_refl h)
  intro i s hs
  apply forRange_invariant (fun s => Heap.gradOnly h s) _ _ _ _ hs
  intro j s hs
  apply forRange_invariant (fun s => Heap.gradOnly h s) _ _ _ _ hs
  intro k s hs
  exact Heap.gradOnly_trans hs (Heap.gradOnly_setGrad s p i j _)

/-- A single loop of gradient writes writes gradient buffers only. -/
theorem gradOnly_loop1 (h : Heap α) (p n : Nat) (v : Heap α → Nat → α) :
    Heap.gradOnly h (forRange n (fun i s => s.setGrad p i 0 (v s i)) h) := by
  apply forRange_invariant (fun s => Heap.gradOnly h s) _ _ _ _ (Heap.gradOnly_refl h)
  intro i s hs
  exact Heap.gradOnly_trans hs (Heap.gradOnly_setGrad s p i 0 _)

/-- The last loop of `backward` writes no shape and no value buffer. -/
theorem sameValues_clear_all (l : List Nat) :
    ∀ h : Heap α, Heap.sameValues h (l.foldl (fun st p => st.clear p) h) := by
  induction l with
  | nil => intro h p; exact ⟨rfl, rfl, rfl⟩
  | cons p rest ih =>
    intro h
    exact Heap.sameValues_trans (Heap.sameValues_clear h p) (ih (h.clear p))

/-! ### Row copies, the wrapper, and loops that write back what they read -/

/-- The closed form of a loop of row copies: the `r × c` part is that of the source,
the rest is as before. -/
theorem memcpy_rows (src d0 : Buf α) (r c : Nat) :
    forRange r (fun j d => memcpy_row d src j c) d0 =
      fun a b => if a < r ∧ b < c then src a b else d0 a b := by
  induction r with
  | zero => funext a b; simp [forRange_zero]
  | succ r ih =>
    rw [forRange_succ, ih]
    funext a b
    by_cases h1 : a = r
    · subst h1; simp [memcpy_row]
    · have : a < r + 1 ↔ a < r := by omega
      simp [memcpy_row, h1, this]

/-- The closed form of the loop of the copy constructor, which copies a row of the
value buffer and a row of the gradient buffer in every iteration. -/
theorem memcpy_rows_pair (src1 src2 d1 d2 : Buf α) (r c : Nat) :
    forRange r (fun j (s : Buf α × Buf α) =>
      (memcpy_row s.1 src1 j c, memcpy_row s.2 src2 j c)) (d1, d2) =
      ((fun a b => if a < r ∧ b < c then src1 a b else d1 a b),
        (fun a b => if a < r ∧ b < c then src2 a b else d2 a b)) := by
  induction r with
  | zero => simp [forRange_zero]
  | succ r ih =>
    rw [forRange_succ, ih]
    refine Prod.ext ?_ ?_ <;>
    · funext a b
      by_cases h1 : a = r
      · subst h1; simp [memcpy_row]
      · have : a < r + 1 ↔ a < r := by omega
        simp [memcpy_row, h1, this]

/-- The node that the copy constructor builds. -/
theorem new_copy_cell (h : Heap α) (t : Nat) (jd jg : Buf α) :
    (Tensor.new_copy h t jd jg).1.cell h.next =
      { rows := (h.cell t).rows
        cols := (h.cell t).cols
        left := (h.cell t).left
        right := (h.cell t).right
        data := fun a b =>
          if a < (h.cell t).rows ∧ b < (h.cell t).cols then (h.cell t).data a b else jd a b
        grad := fun a b =>
          if a < (h.cell t).rows ∧ b < (h.cell t).cols then (h.cell t).grad a b else jg a b
        _backward := (h.cell t)._backward
        name := (h.cell t).name } := by
  simp only [Tensor.new_copy, Heap.alloc, if_pos]
  rw [memcpy_rows_pair]

/-- Writing into `ptr` the handle it holds changes nothing. -/
theorem Value.setPtr_self (vs : Nat → Value) (v : Nat) (p : Option Nat)
    (hp : (vs v).ptr = p) : Value.setPtr vs v p = vs := by
  funext a
  by_cases ha : a = v
  · subst ha
    simp only [Value.setPtr, if_pos]
    rw [← hp]
  · simp [Value.setPtr, ha]

/-- The first statement of the operators, for a `Value` with a current node `p` and
an origin node `o`: afterwards `ptr` is `o` if `p` has no rule tag and `p` otherwise. -/
theorem Value.rebind_eq (h : Heap α) (vs : Nat → Value) (a p o : Nat)
    (hp : (vs a).ptr = some p) (ho : (vs a).orig = some o) :
    Value.rebind h vs a =
      some (Value.setPtr vs a (some (if (h.cell p)._backward = none then o else p))) := by
  simp only [Value.rebind, hp, ho]
  by_cases hk : (h.cell p)._backward = none
  · simp [hk]
  · simp [hk, Value.setPtr_self vs a (some p) hp]

/-- A property that every iteration with an index below the bound preserves holds
after the loop. -/
theorem forRange_invariant_lt {σ : Type} (P : σ → Prop) (n : Nat) (f : Nat → σ → σ)
    (hstep : ∀ i, i < n → ∀ s, P s → P (f i s)) (s : σ) (h0 : P s) : P (forRange n f s) := by
  induction n with
  | zero => exact h0
  | succ n ih =>
    rw [forRange_succ]
    exact hstep n (Nat.lt_succ_self n) _ (ih (fun i hi => hstep i (Nat.lt_succ_of_lt hi)))

/-- The write `p->grad[i][j] = v` leaves every other node as it is. -/
theorem Heap.setGrad_cell_ne (h : Heap α) (p q i j : Nat) (v : α) (hq : q ≠ p) :
    (h.setGrad p i j v).cell q = h.cell q := by
  simp [Heap.setGrad, hq]

/-- Writing into `p->grad[i][j]` the value it holds changes nothing. -/
theorem Heap.setGrad_self (h : Heap α) (p i j : Nat) :
    h.setGrad p i j ((h.cell p).grad i j) = h := by
  have hb : (h.cell p).grad.set i j ((h.cell p).grad i j) = (h.cell p).grad := by
    funext a c
    by_cases hac : a = i ∧ c = j
    · simp [Buf.set, hac.1, hac.2]
    · simp [Buf.set, hac]
  cases h with
  | mk cell next =>
    simp only [Heap.setGrad, Heap.mk.injEq, and_true] at hb ⊢
    funext a
    by_cases ha : a = p
    · subst ha
      simp only [if_pos, hb]
    · simp [ha]

/-- A singly nested loop of gradient writes into `p` leaves every other node as it
is. -/
theorem cell_ne_loop1 (h : Heap α) (p q n : Nat) (v : Heap α → Nat → α) (hq : q ≠ p) :
    (forRange n (fun i s => s.setGrad p i 0 (v s i)) h).cell q = h.cell q := by
  refine forRange_invariant (fun s : Heap α => s.cell q = h.cell q) _ _ ?_ _ rfl
  intro i s hs
  rw [Heap.setGrad_cell_ne s p q i 0 _ hq, hs]

/-- A doubly nested loop of gradient writes into `p` leaves every other node as it
is. -/
theorem cell_ne_loop2 (h : Heap α) (p q r c : Nat) (v : Heap α → Nat → Nat → α) (hq : q ≠ p) :
    (forRange r (fun i s => forRange c (fun j s => s.setGrad p i j (v s i j)) s) h).cell q =
      h.cell q := by
  refine forRange_invariant (fun s : Heap α => s.cell q = h.cell q) _ _ ?_ _ rfl
  intro i s hs
  refine forRange_invariant (fun s : Heap α => s.cell q = h.cell q) _ _ ?_ _ hs
  intro j s hs
  rw [Heap.setGrad_cell_ne s p q i j _ hq, hs]

/-- A triply nested loop of gradient writes into `p` leaves every other node as it
is. -/
theorem cell_ne_loop3 (h : Heap α) (p q r c n : Nat) (v : Heap α → Nat → Nat → Nat → α)
    (hq : q ≠ p) :
    (forRange r (fun i s => forRange c (fun j s => forRange n (fun k s =>
      s.setGrad p i j (v s i j k)) s) s) h).cell q = h.cell q := by
  refine forRange_invariant (fun s : Heap α => s.cell q = h.cell q) _ _ ?_ _ rfl
  intro i s hs
  refine forRange_invariant (fun s : Heap α => s.cell q = h.cell q) _ _ ?_ _ hs
  intro j s hs
  refine forRange_invariant (fun s : Heap α => s.cell q = h.cell q) _ _ ?_ _ hs
  intro k s hs
  rw [Heap.setGrad_cell_ne s p q i j _ hq, hs]

/-- A singly nested loop of gradient writes, each of which writes the value that is
there, changes nothing. -/
theorem noop_loop1 (h : Heap α) (p n : Nat) (v : Heap α → Nat → α)
    (hv : ∀ i, i < n → v h i = (h.cell p).grad i 0) :
    forRange n (fun i s => s.setGrad p i 0 (v s i)) h = h := by
  refine forRange_invariant_lt (fun s : Heap α => s = h) _ _ ?_ _ rfl
  intro i hi s hs
  subst hs
  rw [hv i hi, Heap.setGrad_self]

/-- A doubly nested loop of gradient writes, each of which writes the value that is
there, changes nothing. -/
theorem noop_loop2 (h : Heap α) (p r c : Nat) (v : Heap α → Nat → Nat → α)
    (hv : ∀ i j, i < r → j < c → v h i j = (h.cell p).grad i j) :
    forRange r (fun i s => forRange c (fun j s => s.setGrad p i j (v s i j)) s) h = h := by
  refine forRange_invariant_lt (fun s : Heap α => s = h) _ _ ?_ _ rfl
  intro i hi s hs
  refine forRange_invariant_lt (fun s : Heap α => s = h) _ _ ?_ _ hs
  intro j hj s hs
  subst hs
  rw [hv i j hi hj, Heap.setGrad_self]

/-- A triply nested loop of gradient writes, each of which writes the value that is
there, changes nothing. -/
theorem noop_loop3 (h : Heap α) (p r c n : Nat) (v : Heap α → Nat → Nat → Nat → α)
    (hv : ∀ i j k, i < r → j < c → k < n → v h i j k = (h.cell p).grad i j) :
    forRange r (fun i s => forRange c (fun j s => forRange n (fun k s =>
      s.setGrad p i j (v s i j k)) s) s) h = h := by
  refine forRange_invariant_lt (fun s : Heap α => s = h) _ _ ?_ _ rfl
  intro i hi s hs
  refine forRange_invariant_lt (fun s : Heap α => s = h) _ _ ?_ _ hs
  intro j hj s hs
  refine forRange_invariant_lt (fun s : Heap α => s = h) _ _ ?_ _ hs
  intro k hk s hs
  subst hs
  rw [hv i j k hi hj hk, Heap.setGrad_self]

/-- The clearing of a node writes no gradient buffer. -/
theorem Heap.clear_grad (h : Heap α) (p q : Nat) :
    ((h.clear p).cell q).grad = (h.cell q).grad := by
  by_cases hq : q = p
  · subst hq; simp [Heap.clear]
  · simp [Heap.clear, hq]

end LoopLemmas

section Theorems

variable {α : Type} [LinearOrderedField α]

/-! ### Constructor and forward operators -/

theorem Tensor.new_rows (r c : Nat) (inp : Option (Buf α)) (name : String) :
    (Tensor.new r c inp name).rows = r := rfl

theorem Tensor.new_cols (r c : Nat) (inp : Option (Buf α)) (name : String) :
    (Tensor.new r c inp name).cols = c := rfl

theorem Tensor.new_data_none (r c : Nat) (name : String) :
    (Tensor.new r c (none : Option (Buf α)) name).data = fun _ _ => 0 := by
  simp only [Tensor.new]
  induction r with
  | zero => rfl
  | succ r ih =>
    rw [forRange_succ, ih]
    funext a b
    simp

theorem Tensor.new_data_some (r c : Nat) (inp : Buf α) (name : String) :
    (Tensor.new r c (some inp) name).data =
      fun a b => if a < r ∧ b < c then inp a b else 0 := by
  simp only [Tensor.new]
  induction r with
  | zero => funext a b; simp [forRange_zero]
  | succ r ih =>
    rw [forRange_succ, ih]
    funext a b
    by_cases h1 : a = r
    · subst h1; simp
    · have : a < r + 1 ↔ a < r := by omega
      simp [h1, this]

theorem Tensor.new_grad (r c : Nat) (inp : Option (Buf α)) (name : String) :
    (Tensor.new r c inp name).grad = fun _ _ => 0 := by
  simp only [Tensor.new]
  induction r with
  | zero => rfl
  | succ r ih =>
    rw [forRange_succ, ih]
    funext a b
    simp

/-- The value buffer that `operator*` computes. -/
theorem matmul_loop (A B : Buf α) (m n k : Nat) (d0 : Buf α) :
    forRange m (fun i d => forRange n (fun j d =>
      forRange k (fun l d => d.set i j (d i j + A i l * B l j)) (d.set i j 0)) d) d0 =
      fun a b => if a < m ∧ b < n then ∑ l in Finset.range k, A a l * B l b else d0 a b := by
  have hinner : ∀ i j (d : Buf α),
      forRange k (fun l d => d.set i j (d i j + A i l * B l j)) (d.set i j 0) =
        d.set i j ((fun _ => ∑ l in Finset.range k, A i l * B l j) (d i j)) := by
    intro i j d
    rw [forRange_accum (fun l => A i l * B l j)]
    funext a b
    by_cases h : a = i ∧ b = j
    · simp [Buf.set, h]
    · simp [Buf.set, h]
  simp only [hinner]
  exact forRange_set_all (fun i j _ => ∑ l in Finset.range k, A i l * B l j) m n d0

/-- The value buffer that `operator^` computes. -/
theorem dot_loop (t : Nat → α) (n : Nat) :
    forRange n (fun i (d : Buf α) => d.set 0 0 (d 0 0 + t i)) (fun _ _ => 0) 0 0 =
      ∑ i in Finset.range n, t i := by
  rw [forRange_accum t 0 0 n]
  simp [Buf.set]

theorem operator_add_snd (h : Heap α) (a b : Nat) : (Tensor.operator_add h a b).2 = h.next := rfl

theorem operator_sub_snd (h : Heap α) (a b : Nat) : (Tensor.operator_sub h a b).2 = h.next := rfl

theorem operator_add_next (h : Heap α) (a b : Nat) :
    (Tensor.operator_add h a b).1.next = h.next + 1 := rfl

theorem operator_add_cell_of_ne (h : Heap α) (a b p : Nat) (hp : p ≠ h.next) :
    (Tensor.operator_add h a b).1.cell p = h.cell p := by
  simp [Tensor.operator_add, Heap.alloc, hp]

theorem operator_sub_cell_of_ne (h : Heap α) (a b p : Nat) (hp : p ≠ h.next) :
    (Tensor.operator_sub h a b).1.cell p = h.cell p := by
  simp [Tensor.operator_sub, Heap.alloc, hp]

theorem operator_add_rows (h : Heap α) (a b : Nat) :
    ((Tensor.operator_add h a b).1.cell h.next).rows = (h.cell a).rows := by
  simp [Tensor.operator_add, Heap.alloc, Tensor.new]

theorem operator_add_cols (h : Heap α) (a b : Nat) :
    ((Tensor.operator_add h a b).1.cell h.next).cols = (h.cell a).cols := by
  simp [Tensor.operator_add, Heap.alloc, Tensor.new]

theorem operator_sub_rows (h : Heap α) (a b : Nat) :
    ((Tensor.operator_sub h a b).1.cell h.next).rows = (h.cell a).rows := by
  simp [Tensor.operator_sub, Heap.alloc, Tensor.new]

theorem operator_sub_cols (h : Heap α) (a b : Nat) :
    ((Tensor.operator_sub h a b).1.cell h.next).cols = (h.cell a).cols := by
  simp [Tensor.operator_sub, Heap.alloc, Tensor.new]

/-- The value buffer that `operator+` computes. -/
theorem operator_add_data (h : Heap α) (a b : Nat) :
    ((Tensor.operator_add h a b).1.cell h.next).data = fun i j =>
      if i < (h.cell a).rows ∧ j < (h.cell a).cols then (h.cell a).data i j + (h.cell b).data i j
      else 0 := by
  simp only [Tensor.operator_add, Heap.alloc, if_pos, Tensor.new_data_none]
  exact forRange_set_all (fun i j _ => (h.cell a).data i j + (h.cell b).data i j) _ _ _

/-- The value buffer that `operator-` computes. -/
theorem operator_sub_data (h : Heap α) (a b : Nat) :
    ((Tensor.operator_sub h a b).1.cell h.next).data = fun i j =>
      if i < (h.cell a).rows ∧ j < (h.cell a).cols then (h.cell a).data i j - (h.cell b).data i j
      else 0 := by
  simp only [Tensor.operator_sub, Heap.alloc, if_pos, Tensor.new_data_none]
  exact forRange_set_all (fun i j _ => (h.cell a).data i j - (h.cell b).data i j) _ _ _

/-- The value buffer that `lekyrelu` computes. -/
theorem lekyrelu_data (h : Heap α) (x : Nat) (leaky : α) :
    ((Tensor.lekyrelu h x leaky).1.cell h.next).data = fun i j =>
      if i < (h.cell x).rows ∧ j < (h.cell x).cols then
        (if (h.cell x).data i j > 0 then (h.cell x).data i j else leaky * (h.cell x).data i j)
      else 0 := by
  simp only [Tensor.lekyrelu, Heap.alloc, if_pos, Tensor.new_data_none]
  exact forRange_set_all (fun i j _ => if (h.cell x).data i j > 0 then (h.cell x).data i j
    else leaky * (h.cell x).data i j) _ _ _

/-! ### The gradient stabiliser -/

theorem Heap.clip_withGrad (F : FloatOps α) (h : Heap α) (p : Nat) (g : Buf α) :
    Heap.clip F (h.withGrad p g) p =
      h.withGrad p (clip_gradient F g (h.cell p).rows (h.cell p).cols) := by
  simp only [Heap.clip, Heap.withGrad, Heap.mk.injEq, and_true]
  funext a
  by_cases ha : a = p
  · simp [ha]
  · simp [ha]

/-- The closed form of the scaling loops of `clip_gradient`. -/
theorem scale_loop_eq (g : Buf α) (r c : Nat) (scale : α) :
    scale_loop g r c scale = fun a b => if a < r ∧ b < c then g a b * scale else g a b :=
  forRange_set_all (fun _ _ x => x * scale) r c g

/-- One row of the first loop of `clip_gradient`. -/
theorem sanitize_row (F : FloatOps α) (i c : Nat) (d : Buf α) (n : α) :
    forRange c (fun j (s : Buf α × α) =>
      let g : Buf α := if F.isfinite (s.1 i j) = false then s.1.set i j 0 else s.1
      (g, s.2 + g i j * g i j)) (d, n) =
    (fun a b => if a = i ∧ b < c then (if F.isfinite (d a b) = false then 0 else d a b)
        else d a b,
      n + ∑ j in Finset.range c,
        (if F.isfinite (d i j) = false then 0 else d i j) *
        (if F.isfinite (d i j) = false then 0 else d i j)) := by
  induction c with
  | zero =>
    simp [forRange_zero]
  | succ c ih =>
    rw [forRange_succ, ih, Finset.sum_range_succ]
    simp only [lt_self_iff_false, and_false, if_false]
    refine Prod.ext ?_ ?_
    · funext a b
      by_cases hf : F.isfinite (d i c) = false
      · simp only [hf, if_true, Buf.set]
        by_cases h1 : a = i
        · subst h1
          by_cases h2 : b = c
          · subst h2; simp [hf]
          · have : b < c + 1 ↔ b < c := by omega
            simp [h2, this]
        · simp [h1]
      · simp only [hf, if_false]
        by_cases h1 : a = i
        · subst h1
          by_cases h2 : b = c
          · subst h2; simp [hf]
          · have : b < c + 1 ↔ b < c := by omega
            simp [h2, this]
        · simp [h1]
    · by_cases hf : F.isfinite (d i c) = false
      · simp [hf, Buf.set, add_assoc]
      · simp [hf, add_assoc]

/-- The closed form of the first loop of `clip_gradient`: the sanitised buffer and the
sum of its squares. -/
theorem sanitize_loop_eq (F : FloatOps α) (g : Buf α) (r c : Nat) :
    sanitize_loop F g r c = (sanitize F g r c, sumsq (sanitize F g r c) r c) := by
  unfold sanitize_loop
  induction r with
  | zero =>
    refine Prod.ext ?_ ?_
    · funext a b; simp [forRange_zero, sanitize]
    · simp [forRange_zero, sumsq]
  | succ r ih =>
    rw [forRange_succ, ih, sanitize_row]
    refine Prod.ext ?_ ?_
    · funext a b
      simp only [sanitize]
      by_cases h1 : a = r
      · subst h1
        by_cases h2 : b < c
        · simp [h2]
        · simp [h2]
      · have : a < r + 1 ↔ a < r := by omega
        simp [h1, this]
    · simp only [sumsq, Finset.sum_range_succ]
      congr 1
      · apply Finset.sum_congr rfl
        intro i hi
        apply Finset.sum_congr rfl
        intro j hj
        have hi' : i < r := Finset.mem_range.mp hi
        have hj' : j < c := Finset.mem_range.mp hj
        have : i < r + 1 := by omega
        simp [sanitize, hi', hj', this]
      · apply Finset.sum_congr rfl
        intro j hj
        have hj' : j < c := Finset.mem_range.mp hj
        simp [sanitize, hj']

/-- The closed form of `clip_gradient`. -/
theorem clip_gradient_eq (F : FloatOps α) (g : Buf α) (r c : Nat) :
    clip_gradient F g r c =
      if F.sqrt (sumsq (sanitize F g r c) r c + EPSILON) > CLIP_NORM then
        fun a b => if a < r ∧ b < c then
          sanitize F g r c a b * (CLIP_NORM / F.sqrt (sumsq (sanitize F g r c) r c + EPSILON))
          else sanitize F g r c a b
      else if F.sqrt (sumsq (sanitize F g r c) r c + EPSILON) < MIN_GRAD_NORM then
        fun a b => if a < r ∧ b < c then
          sanitize F g r c a b *
            (MIN_GRAD_NORM / (F.sqrt (sumsq (sanitize F g r c) r c + EPSILON) + EPSILON))
          else sanitize F g r c a b
      else sanitize F g r c := by
  simp only [clip_gradient, sanitize_loop_eq, scale_loop_eq]

/-- Buffers that agree on the `r × c` part have sanitised buffers that agree there. -/
theorem sanitize_congr (F : FloatOps α) (g g' : Buf α) (r c : Nat)
    (hg : ∀ i j, i < r → j < c → g i j = g' i j) :
    ∀ i j, i < r → j < c → sanitize F g r c i j = sanitize F g' r c i j := by
  intro i j hi hj
  simp [sanitize, hi, hj, hg i j hi hj]

/-- The sum of squares looks at the `r × c` part only. -/
theorem sumsq_congr (g g' : Buf α) (r c : Nat)
    (hg : ∀ i j, i < r → j < c → g i j = g' i j) : sumsq g r c = sumsq g' r c := by
  unfold sumsq
  apply Finset.sum_congr rfl
  intro i hi
  apply Finset.sum_congr rfl
  intro j hj
  rw [hg i j (Finset.mem_range.mp hi) (Finset.mem_range.mp hj)]

/-- The entries that `clip_gradient` leaves in the `r × c` part depend on the entries
of that part only. -/
theorem clip_gradient_congr (F : FloatOps α) (g g' : Buf α) (r c : Nat)
    (hg : ∀ i j, i < r → j < c → g i j = g' i j) :
    ∀ i j, i < r → j < c → clip_gradient F g r c i j = clip_gradient F g' r c i j := by
  intro i j hi hj
  have hs := sanitize_congr F g g' r c hg
  have hq : sumsq (sanitize F g r c) r c = sumsq (sanitize F g' r c) r c :=
    sumsq_congr _ _ r c hs
  rw [clip_gradient_eq, clip_gradient_eq, hq]
  split_ifs
  · simp [hi, hj, hs i j hi hj]
  · simp [hi, hj, hs i j hi hj]
  · exact hs i j hi hj

/-- A buffer of finite entries is its own sanitised buffer on the `r × c` part. -/
theorem sanitize_of_finite (F : FloatOps α) (g : Buf α) (r c : Nat)
    (hfin : ∀ i j, i < r → j < c → F.isfinite (g i j) = true) :
    sanitize F g r c = g := by
  funext a b
  by_cases hab : a < r ∧ b < c
  · simp [sanitize, hab, hfin a b hab.1 hab.2]
  · simp [sanitize, hab]

/-- When every entry is finite and the norm lies between the two thresholds,
`clip_gradient` returns the buffer it was given. -/
theorem clip_gradient_in_band (F : FloatOps α) (g : Buf α) (r c : Nat)
    (hfin : ∀ i j, i < r → j < c → F.isfinite (g i j) = true)
    (hup : ¬ F.sqrt (sumsq g r c + EPSILON) > CLIP_NORM)
    (hlo : ¬ F.sqrt (sumsq g r c + EPSILON) < MIN_GRAD_NORM) :
    clip_gradient F g r c = g := by
  rw [clip_gradient_eq, sanitize_of_finite F g r c hfin, if_neg hup, if_neg hlo]

/-! ### Backward rules in closed form -/

/-- A triply nested loop that accumulates into `l->grad[i][j]` terms that do not
depend on `l->grad`. -/
theorem heap_loop3 (h : Heap α) (l r c n : Nat) (ψ : Heap α → Nat → Nat → Nat → α)
    (t : Nat → Nat → Nat → α) (hψ : ∀ g i j k, ψ (h.withGrad l g) i j k = t i j k) :
    forRange r (fun i s => forRange c (fun j s => forRange n (fun k s =>
        s.setGrad l i j ((s.cell l).grad i j + ψ s i j k)) s) s) h =
      h.withGrad l (fun a b =>
        if a < r ∧ b < c then (h.cell l).grad a b + ∑ k in Finset.range n, t a b k
        else (h.cell l).grad a b) := by
  have hgen : ∀ g : Buf α,
      forRange r (fun i s => forRange c (fun j s => forRange n (fun k s =>
        s.setGrad l i j ((s.cell l).grad i j + ψ s i j k)) s) s) (h.withGrad l g) =
      h.withGrad l (forRange r (fun i d => forRange c (fun j d =>
        d.set i j ((fun i j x => x + ∑ k in Finset.range n, t i j k) i j (d i j))) d) g) := by
    intro g
    apply forRange_map (h.withGrad l)
    intro i _ d
    apply forRange_map (h.withGrad l)
    intro j _ d
    rw [← forRange_accum (fun k => t i j k)]
    apply forRange_map (h.withGrad l)
    intro k _ d
    rw [Heap.setGrad_withGrad, hψ, Heap.withGrad_cell_self]
  have := hgen (h.cell l).grad
  rw [Heap.withGrad_self,
    forRange_set_all (fun i j x => x + ∑ k in Finset.range n, t i j k)] at this
  exact this

/-- One block of `backadd` / `backsub`: the accumulation loop into `l->grad` followed by
`clip_gradient`, for an operand `l` that is not the node itself. -/
theorem grad_block2 (F : FloatOps α) (h : Heap α) (s l nr nc : Nat) (op : α → α → α)
    (hls : l ≠ s) :
    Heap.clip F (forRange nr (fun i st => forRange nc (fun j st =>
      st.setGrad l i j (op ((st.cell l).grad i j) ((st.cell s).grad i j))) st) h) l =
    h.withGrad l (clip_gradient F (fun a b =>
      if a < nr ∧ b < nc then op ((h.cell l).grad a b) ((h.cell s).grad a b)
      else (h.cell l).grad a b) (h.cell l).rows (h.cell l).cols) := by
  rw [heap_loop2 h l nr nc
    (fun st i j => op ((st.cell l).grad i j) ((st.cell s).grad i j))
    (fun i j x => op x ((h.cell s).grad i j))
    (by intro g i j; simp [Heap.withGrad_cell_self, Heap.withGrad_cell_ne h l s g hls.symm])]
  rw [Heap.clip_withGrad]

/-- One block of `backmul`: the triple accumulation loop into `l->grad` followed by
`clip_gradient`; `t` is the term added, which does not depend on `l->grad`. -/
theorem grad_block3 (F : FloatOps α) (h : Heap α) (l nr nc nk : Nat)
    (ψ : Heap α → Nat → Nat → Nat → α) (t : Nat → Nat → Nat → α)
    (hψ : ∀ g i j k, ψ (h.withGrad l g) i j k = t i j k) :
    Heap.clip F (forRange nr (fun i st => forRange nc (fun j st => forRange nk (fun k st =>
      st.setGrad l i j ((st.cell l).grad i j + ψ st i j k)) st) st) h) l =
    h.withGrad l (clip_gradient F (fun a b =>
      if a < nr ∧ b < nc then (h.cell l).grad a b + ∑ k in Finset.range nk, t a b k
      else (h.cell l).grad a b) (h.cell l).rows (h.cell l).cols) := by
  rw [heap_loop3 h l nr nc nk ψ t hψ, Heap.clip_withGrad]

/-- One block of `backdot`: the accumulation loop into column 0 of `l->grad` followed
by `clip_gradient`. -/
theorem grad_block1 (F : FloatOps α) (h : Heap α) (l n : Nat)
    (ψ : Heap α → Nat → α) (t : Nat → α) (hψ : ∀ g i, ψ (h.withGrad l g) i = t i) :
    Heap.clip F (forRange n (fun i st =>
      st.setGrad l i 0 ((st.cell l).grad i 0 + ψ st i)) h) l =
    h.withGrad l (clip_gradient F (fun a b =>
      if a < n ∧ b = 0 then (h.cell l).grad a b + t a else (h.cell l).grad a b)
      (h.cell l).rows (h.cell l).cols) := by
  rw [heap_loop1 h l n (fun st i => (st.cell l).grad i 0 + ψ st i) (fun i x => x + t i)
    (by intro g i; simp [Heap.withGrad_cell_self, hψ]), Heap.clip_withGrad]

/-- The heap that `backadd` leaves when the two operands and the node are three
different nodes. -/
theorem backadd_eq (F : FloatOps α) (h : Heap α) (s l r : Nat)
    (hl : (h.cell s).left = some l) (hr : (h.cell s).right = some r)
    (hlr : l ≠ r) (hls : l ≠ s) (hrs : r ≠ s) :
    Tensor.backadd F h s =
      (h.withGrad l (clip_gradient F (fun a b =>
        if a < (h.cell s).rows ∧ b < (h.cell s).cols then
          (h.cell l).grad a b + (h.cell s).grad a b
        else (h.cell l).grad a b) (h.cell l).rows (h.cell l).cols)).withGrad r
        (clip_gradient F (fun a b =>
          if a < (h.cell s).rows ∧ b < (h.cell s).cols then
            (h.cell r).grad a b + (h.cell s).grad a b
          else (h.cell r).grad a b) (h.cell r).rows (h.cell r).cols) := by
  unfold Tensor.backadd
  simp only [hl]
  rw [grad_block2 F h s l _ _ (fun x y => x + y) hls]
  simp only [Heap.withGrad_cell_ne h l s _ hls.symm, hr]
  rw [grad_block2 F _ s r _ _ (fun x y => x + y) hrs]
  simp only [Heap.withGrad_cell_ne h l s _ hls.symm, Heap.withGrad_cell_ne h l r _ hlr.symm]

/-- The heap that `backsub` leaves when the two operands and the node are three
different nodes. -/
theorem backsub_eq (F : FloatOps α) (h : Heap α) (s l r : Nat)
    (hl : (h.cell s).left = some l) (hr : (h.cell s).right = some r)
    (hlr : l ≠ r) (hls : l ≠ s) (hrs : r ≠ s) :
    Tensor.backsub F h s =
      (h.withGrad l (clip_gradient F (fun a b =>
        if a < (h.cell s).rows ∧ b < (h.cell s).cols then
          (h.cell l).grad a b + (h.cell s).grad a b
        else (h.cell l).grad a b) (h.cell l).rows (h.cell l).cols)).withGrad r
        (clip_gradient F (fun a b =>
          if a < (h.cell s).rows ∧ b < (h.cell s).cols then
            (h.cell r).grad a b - (h.cell s).grad a b
          else (h.cell r).grad a b) (h.cell r).rows (h.cell r).cols) := by
  unfold Tensor.backsub
  simp only [hl]
  rw [grad_block2 F h s l _ _ (fun x y => x + y) hls]
  simp only [Heap.withGrad_cell_ne h l s _ hls.symm, hr]
  rw [grad_block2 F _ s r _ _ (fun x y => x - y) hrs]
  simp only [Heap.withGrad_cell_ne h l s _ hls.symm, Heap.withGrad_cell_ne h l r _ hlr.symm]

/-- The heap that `backmul` leaves when the two operands and the node are three
different nodes. -/
theorem backmul_eq (F : FloatOps α) (h : Heap α) (s l r : Nat)
    (hl : (h.cell s).left = some l) (hr : (h.cell s).right = some r)
    (hlr : l ≠ r) (hls : l ≠ s) (hrs : r ≠ s) :
    Tensor.backmul F h s = some
      ((h.withGrad l (clip_gradient F (fun a b =>
        if a < (h.cell s).rows ∧ b < (h.cell r).rows then
          (h.cell l).grad a b +
            ∑ k in Finset.range (h.cell s).cols, (h.cell s).grad a k * (h.cell r).data b k
        else (h.cell l).grad a b) (h.cell l).rows (h.cell l).cols)).withGrad r
        (clip_gradient F (fun a b =>
          if a < (h.cell l).cols ∧ b < (h.cell s).cols then
            (h.cell r).grad a b +
              ∑ k in Finset.range (h.cell s).rows, (h.cell s).grad k b * (h.cell l).data k a
          else (h.cell r).grad a b) (h.cell r).rows (h.cell r).cols)) := by
  unfold Tensor.backmul
  simp only [hl, hr]
  rw [grad_block3 F h l _ _ _ (fun st i j k => (st.cell s).grad i k * (st.cell r).data j k)
    (fun i j k => (h.cell s).grad i k * (h.cell r).data j k)
    (by intro g i j k
        simp [Heap.withGrad_cell_ne h l s g hls.symm, Heap.withGrad_cell_ne h l r g hlr.symm])]
  simp only [Heap.withGrad_cell_ne h l s _ hls.symm, Heap.withGrad_cell_self]
  rw [grad_block3 F _ r _ _ _ (fun st i j k => (st.cell s).grad k j * (st.cell l).data k i)
    (fun i j k => (h.cell s).grad k j * (h.cell l).data k i)
    (by intro g i j k
        simp [Heap.withGrad_cell_ne _ r s g hrs.symm, Heap.withGrad_cell_ne _ r l g hlr,
          Heap.withGrad_cell_ne h l s _ hls.symm, Heap.withGrad_cell_self])]
  simp only [Heap.withGrad_cell_ne h l r _ hlr.symm]

/-- The heap that `backdot` leaves when the two operands and the node are three
different nodes. -/
theorem backdot_eq (F : FloatOps α) (h : Heap α) (s l r : Nat)
    (hl : (h.cell s).left = some l) (hr : (h.cell s).right = some r)
    (hlr : l ≠ r) (hls : l ≠ s) (hrs : r ≠ s) :
    Tensor.backdot F h s = some
      ((h.withGrad l (clip_gradient F (fun a b =>
        if a < (h.cell l).rows ∧ b = 0 then
          (h.cell l).grad a b + (h.cell s).grad 0 0 * (h.cell r).data a 0
        else (h.cell l).grad a b) (h.cell l).rows (h.cell l).cols)).withGrad r
        (clip_gradient F (fun a b =>
          if a < (h.cell r).rows ∧ b = 0 then
            (h.cell r).grad a b + (h.cell s).grad 0 0 * (h.cell l).data a 0
          else (h.cell r).grad a b) (h.cell r).rows (h.cell r).cols)) := by
  unfold Tensor.backdot
  simp only [hl, hr]
  rw [grad_block1 F h l _ (fun st i => (st.cell s).grad 0 0 * (st.cell r).data i 0)
    (fun i => (h.cell s).grad 0 0 * (h.cell r).data i 0)
    (by intro g i
        simp [Heap.withGrad_cell_ne h l s g hls.symm, Heap.withGrad_cell_ne h l r g hlr.symm])]
  simp only [Heap.withGrad_cell_ne h l r _ hlr.symm]
  rw [grad_block1 F _ r _ (fun st i => (st.cell s).grad 0 0 * (st.cell l).data i 0)
    (fun i => (h.cell s).grad 0 0 * (h.cell l).data i 0)
    (by intro g i
        simp [Heap.withGrad_cell_ne _ r s g hrs.symm, Heap.withGrad_cell_ne _ r l g hlr,
          Heap.withGrad_cell_ne h l s _ hls.symm, Heap.withGrad_cell_self])]
  simp only [Heap.withGrad_cell_ne h l r _ hlr.symm]

/-- The heap that the accumulation loop of `backleakyrelu` leaves when the operand is
not the node itself. -/
theorem backleakyrelu_loop_eq (h : Heap α) (y x : Nat) (hxy : x ≠ y) :
    Tensor.backleakyrelu_loop h y x =
      h.withGrad x (fun a b =>
        if a < (h.cell y).rows ∧ b < (h.cell y).cols then
          (h.cell x).grad a b +
            (if (h.cell y).data a b > 0 then (h.cell y).grad a b
              else (1 / 100) * (h.cell y).grad a b)
        else (h.cell x).grad a b) := by
  unfold Tensor.backleakyrelu_loop
  exact heap_loop2 h x (h.cell y).rows (h.cell y).cols
    (fun st i j => (st.cell x).grad i j +
      (if (st.cell y).data i j > 0 then (st.cell y).grad i j
        else (1 / 100) * (st.cell y).grad i j))
    (fun i j v => v + (if (h.cell y).data i j > 0 then (h.cell y).grad i j
        else (1 / 100) * (h.cell y).grad i j))
    (by intro g i j; simp [Heap.withGrad_cell_self, Heap.withGrad_cell_ne h x y g hxy.symm])

/-- What `backdot` leaves in the gradient buffers of two single-column operands of one
length that held zero gradients: the stabilised products `dS * v` and `dS * u`. -/
theorem backdot_stabilized (F : FloatOps α) (h : Heap α) (s u v : Nat)
    (hl : (h.cell s).left = some u) (hr : (h.cell s).right = some v)
    (huv : u ≠ v) (hus : u ≠ s) (hvs : v ≠ s)
    (hUc : (h.cell u).cols = 1) (hVc : (h.cell v).cols = 1)
    (hrows : (h.cell u).rows = (h.cell v).rows)
    (hUg : ∀ i, i < (h.cell u).rows → (h.cell u).grad i 0 = 0)
    (hVg : ∀ i, i < (h.cell v).rows → (h.cell v).grad i 0 = 0) :
    ∃ h', Tensor.backdot F h s = some h' ∧
      ∀ i, i < (h.cell u).rows →
        (h'.cell u).grad i 0 =
          clip_gradient F (fun a _ => (h.cell s).grad 0 0 * (h.cell v).data a 0)
            (h.cell u).rows 1 i 0 ∧
        (h'.cell v).grad i 0 =
          clip_gradient F (fun a _ => (h.cell s).grad 0 0 * (h.cell u).data a 0)
            (h.cell u).rows 1 i 0 := by
  refine ⟨_, backdot_eq F h s u v hl hr huv hus hvs, ?_⟩
  intro i hi
  constructor
  · rw [Heap.withGrad_cell_ne _ v u _ huv, Heap.withGrad_cell_self, hUc]
    apply clip_gradient_congr _ _ _ _ _ _ i 0 hi (by decide)
    intro a b ha hb
    have hb0 : b = 0 := by omega
    subst hb0
    simp [ha, hUg a ha]
  · rw [Heap.withGrad_cell_self, hVc, ← hrows]
    apply clip_gradient_congr _ _ _ _ _ _ i 0 hi (by decide)
    intro a b ha hb
    have hb0 : b = 0 := by omega
    subst hb0
    simp [ha, hVg a (hrows ▸ ha)]

/-! ### C1 - C6: forward operators -/

/-- C1. For `A` of shape m x k and `B` of shape k x n (`A.cols = B.rows`),
`operator*` returns a node, placed at the next free address, of shape m x n whose
entry `(i, j)` is the sum over `l < k` of `A[i][l] * B[l][j]`. -/
theorem matmul_shape_and_entries (h : Heap α) (a b : Nat)
    (hk : (h.cell a).cols = (h.cell b).rows) :
    (Tensor.operator_mul h a b).2 = Except.ok h.next ∧
    ((Tensor.operator_mul h a b).1.cell h.next).rows = (h.cell a).rows ∧
    ((Tensor.operator_mul h a b).1.cell h.next).cols = (h.cell b).cols ∧
    ∀ i j, i < (h.cell a).rows → j < (h.cell b).cols →
      ((Tensor.operator_mul h a b).1.cell h.next).data i j =
        ∑ l in Finset.range (h.cell a).cols, (h.cell a).data i l * (h.cell b).data l j := by
  have hne : ¬ (h.cell a).cols ≠ (h.cell b).rows := fun hn => hn hk
  simp only [Tensor.operator_mul, if_neg hne, Heap.alloc, if_pos, matmul_loop,
    Tensor.new_data_none, true_and]
  refine ⟨rfl, rfl, ?_⟩
  intro i j hi hj
  simp [hi, hj]

/-- C1, at a concrete input: a 2 x 3 leaf times a 3 x 2 leaf. -/
theorem matmul_shape_and_entries_witness :
    ((heapA23B32 ℚ).cell 0).cols = ((heapA23B32 ℚ).cell 1).rows ∧
    ((Tensor.operator_mul (heapA23B32 ℚ) 0 1).2 = Except.ok (heapA23B32 ℚ).next ∧
    ((Tensor.operator_mul (heapA23B32 ℚ) 0 1).1.cell (heapA23B32 ℚ).next).rows
      = ((heapA23B32 ℚ).cell 0).rows ∧
    ((Tensor.operator_mul (heapA23B32 ℚ) 0 1).1.cell (heapA23B32 ℚ).next).cols
      = ((heapA23B32 ℚ).cell 1).cols ∧
    ∀ i j, i < ((heapA23B32 ℚ).cell 0).rows → j < ((heapA23B32 ℚ).cell 1).cols →
      ((Tensor.operator_mul (heapA23B32 ℚ) 0 1).1.cell (heapA23B32 ℚ).next).data i j =
        ∑ l in Finset.range ((heapA23B32 ℚ).cell 0).cols,
          ((heapA23B32 ℚ).cell 0).data i l * ((heapA23B32 ℚ).cell 1).data l j) :=
  ⟨by decide, matmul_shape_and_entries (heapA23B32 ℚ) 0 1 (by decide)⟩

/-- C2. `operator*` throws exactly when `A.cols != B.rows`, and then the heap is
the heap before the call: no node was created and every field of every node, the two
operands included, is what it was. -/
theorem matmul_fails_iff (h : Heap α) (a b : Nat) :
    ((∃ msg, (Tensor.operator_mul h a b).2 = Except.error msg) ↔
      (h.cell a).cols ≠ (h.cell b).rows) ∧
    ((h.cell a).cols ≠ (h.cell b).rows →
      (Tensor.operator_mul h a b).2 =
        Except.error "Matrix dimensions do not match for multiplication" ∧
      (Tensor.operator_mul h a b).1 = h) := by
  by_cases hk : (h.cell a).cols ≠ (h.cell b).rows
  · simp [Tensor.operator_mul, hk]
  · simp [Tensor.operator_mul, hk]

/-- C2, at a concrete input: a 2 x 3 node times a 4 x 2 node throws and leaves the
heap as it was. -/
theorem matmul_fails_iff_witness :
    ((heapA23B42 ℚ).cell 0).cols ≠ ((heapA23B42 ℚ).cell 1).rows ∧
    (Tensor.operator_mul (heapA23B42 ℚ) 0 1).2 =
      Except.error "Matrix dimensions do not match for multiplication" ∧
    (Tensor.operator_mul (heapA23B42 ℚ) 0 1).1 = (heapA23B42 ℚ) :=
  ⟨by decide, (matmul_fails_iff (heapA23B42 ℚ) 0 1).2 (by decide)⟩

/-- C3. `operator^` succeeds exactly when both operands have one column and the same
number of rows; the result is then a 1 x 1 node holding the inner product; otherwise
the call throws and leaves the heap as it was. -/
theorem dot_succeeds_iff (h : Heap α) (u v : Nat) :
    ((∃ s, (Tensor.operator_caret h u v).2 = Except.ok s) ↔
      ((h.cell u).cols = 1 ∧ (h.cell v).cols = 1 ∧ (h.cell u).rows = (h.cell v).rows)) ∧
    (((h.cell u).cols = 1 ∧ (h.cell v).cols = 1 ∧ (h.cell u).rows = (h.cell v).rows) →
      (Tensor.operator_caret h u v).2 = Except.ok h.next ∧
      ((Tensor.operator_caret h u v).1.cell h.next).rows = 1 ∧
      ((Tensor.operator_caret h u v).1.cell h.next).cols = 1 ∧
      ((Tensor.operator_caret h u v).1.cell h.next).data 0 0 =
        ∑ i in Finset.range (h.cell u).rows, (h.cell u).data i 0 * (h.cell v).data i 0) ∧
    (¬ ((h.cell u).cols = 1 ∧ (h.cell v).cols = 1 ∧ (h.cell u).rows = (h.cell v).rows) →
      (Tensor.operator_caret h u v).2 =
        Except.error "Matrix dimensions do not match for dot multiplication" ∧
      (Tensor.operator_caret h u v).1 = h) := by
  by_cases hk : (h.cell u).cols = 1 ∧ (h.cell v).cols = 1 ∧ (h.cell u).rows = (h.cell v).rows
  · have hg : ¬ ((h.cell u).cols ≠ 1 ∨ (h.cell v).cols ≠ 1 ∨
        (h.cell u).rows ≠ (h.cell v).rows) := by
      rcases hk with ⟨h1, h2, h3⟩
      simp [h1, h2, h3]
    refine ⟨⟨fun _ => hk, fun _ => ⟨h.next, ?_⟩⟩, fun _ => ⟨?_, ?_, ?_, ?_⟩, fun hn => absurd hk hn⟩
    · simp [Tensor.operator_caret, hg, Heap.alloc]
    · simp [Tensor.operator_caret, hg, Heap.alloc]
    · simp only [Tensor.operator_caret, if_neg hg, Heap.alloc, if_pos, Tensor.new]
      exact hk.2.1
    · simp only [Tensor.operator_caret, if_neg hg, Heap.alloc, if_pos, Tensor.new]
      exact hk.2.1
    · simp only [Tensor.operator_caret, if_neg hg, Heap.alloc, if_pos, Tensor.new_data_none]
      exact dot_loop (fun i => (h.cell u).data i 0 * (h.cell v).data i 0) _
  · have hg : (h.cell u).cols ≠ 1 ∨ (h.cell v).cols ≠ 1 ∨
        (h.cell u).rows ≠ (h.cell v).rows := by
      by_contra hc
      push_neg at hc
      exact hk hc
    refine ⟨⟨?_, fun hc => absurd hc hk⟩, fun hc => absurd hc hk, fun _ => ?_⟩
    · rintro ⟨s, hs⟩
      simp [Tensor.operator_caret, hg] at hs
    · simp [Tensor.operator_caret, hg]

/-- C3, at a concrete input: `u = (1, 2)` and `v = (3, 4)`. -/
theorem dot_succeeds_iff_witness :
    (((heapUV ℚ).cell 0).cols = 1 ∧ ((heapUV ℚ).cell 1).cols = 1 ∧
      ((heapUV ℚ).cell 0).rows = ((heapUV ℚ).cell 1).rows) ∧
    ((Tensor.operator_caret (heapUV ℚ) 0 1).2 = Except.ok (heapUV ℚ).next ∧
      ((Tensor.operator_caret (heapUV ℚ) 0 1).1.cell (heapUV ℚ).next).rows = 1 ∧
      ((Tensor.operator_caret (heapUV ℚ) 0 1).1.cell (heapUV ℚ).next).cols = 1 ∧
      ((Tensor.operator_caret (heapUV ℚ) 0 1).1.cell (heapUV ℚ).next).data 0 0 =
        ∑ i in Finset.range ((heapUV ℚ).cell 0).rows,
          ((heapUV ℚ).cell 0).data i 0 * ((heapUV ℚ).cell 1).data i 0) :=
  ⟨by decide, (dot_succeeds_iff (heapUV ℚ) 0 1).2.1 (by decide)⟩

/-- C4. For operands of one shape, `operator+` and `operator-` return a node of
that shape holding the entrywise sum, respectively difference, and leave the value and
gradient buffers of both operands as they were. -/
theorem add_sub_entries (h : Heap α) (a b : Nat) (ha : a < h.next) (hb : b < h.next)
    (_hrows : (h.cell a).rows = (h.cell b).rows) (_hcols : (h.cell a).cols = (h.cell b).cols) :
    (((Tensor.operator_add h a b).1.cell (Tensor.operator_add h a b).2).rows = (h.cell a).rows ∧
     ((Tensor.operator_add h a b).1.cell (Tensor.operator_add h a b).2).cols = (h.cell a).cols ∧
     (∀ i j, i < (h.cell a).rows → j < (h.cell a).cols →
       ((Tensor.operator_add h a b).1.cell (Tensor.operator_add h a b).2).data i j =
         (h.cell a).data i j + (h.cell b).data i j) ∧
     ((Tensor.operator_add h a b).1.cell a).data = (h.cell a).data ∧
     ((Tensor.operator_add h a b).1.cell a).grad = (h.cell a).grad ∧
     ((Tensor.operator_add h a b).1.cell b).data = (h.cell b).data ∧
     ((Tensor.operator_add h a b).1.cell b).grad = (h.cell b).grad) ∧
    (((Tensor.operator_sub h a b).1.cell (Tensor.operator_sub h a b).2).rows = (h.cell a).rows ∧
     ((Tensor.operator_sub h a b).1.cell (Tensor.operator_sub h a b).2).cols = (h.cell a).cols ∧
     (∀ i j, i < (h.cell a).rows → j < (h.cell a).cols →
       ((Tensor.operator_sub h a b).1.cell (Tensor.operator_sub h a b).2).data i j =
         (h.cell a).data i j - (h.cell b).data i j) ∧
     ((Tensor.operator_sub h a b).1.cell a).data = (h.cell a).data ∧
     ((Tensor.operator_sub h a b).1.cell a).grad = (h.cell a).grad ∧
     ((Tensor.operator_sub h a b).1.cell b).data = (h.cell b).data ∧
     ((Tensor.operator_sub h a b).1.cell b).grad = (h.cell b).grad) := by
  have ha' : a ≠ h.next := Nat.ne_of_lt ha
  have hb' : b ≠ h.next := Nat.ne_of_lt hb
  simp only [operator_add_snd, operator_sub_snd, operator_add_rows, operator_add_cols,
    operator_sub_rows, operator_sub_cols, operator_add_data, operator_sub_data,
    operator_add_cell_of_ne h a b a ha', operator_add_cell_of_ne h a b b hb',
    operator_sub_cell_of_ne h a b a ha', operator_sub_cell_of_ne h a b b hb', true_and, and_true]
  constructor
  · intro i j hi hj
    simp [hi, hj]
  · intro i j hi hj
    simp [hi, hj]

/-- C4, at a concrete input: two 2 x 2 leaves. -/
theorem add_sub_entries_witness :
    (0 < (heapA22B22 ℚ).next ∧ 1 < (heapA22B22 ℚ).next ∧
      ((heapA22B22 ℚ).cell 0).rows = ((heapA22B22 ℚ).cell 1).rows ∧
      ((heapA22B22 ℚ).cell 0).cols = ((heapA22B22 ℚ).cell 1).cols) ∧
    ((Tensor.operator_add (heapA22B22 ℚ) 0 1).1.cell (Tensor.operator_add (heapA22B22 ℚ) 0 1).2).data 1 0
      = ((heapA22B22 ℚ).cell 0).data 1 0 + ((heapA22B22 ℚ).cell 1).data 1 0 ∧
    ((Tensor.operator_sub (heapA22B22 ℚ) 0 1).1.cell (Tensor.operator_sub (heapA22B22 ℚ) 0 1).2).data 1 0
      = ((heapA22B22 ℚ).cell 0).data 1 0 - ((heapA22B22 ℚ).cell 1).data 1 0 ∧
    ((Tensor.operator_add (heapA22B22 ℚ) 0 1).1.cell 1).grad = ((heapA22B22 ℚ).cell 1).grad :=
  ⟨by decide,
    (add_sub_entries (heapA22B22 ℚ) 0 1 (by decide) (by decide) (by decide) (by decide)).1.2.2.1
      1 0 (by decide) (by decide),
    (add_sub_entries (heapA22B22 ℚ) 0 1 (by decide) (by decide) (by decide) (by decide)).2.2.2.1
      1 0 (by decide) (by decide),
    (add_sub_entries (heapA22B22 ℚ) 0 1 (by decide) (by decide) (by decide)
      (by decide)).1.2.2.2.2.2.2⟩

/-- C5. For operands of one shape the node `(A + B) - B` has the shape of `A` and
its value buffer is that of `A`, entry for entry. -/
theorem add_then_sub_values (h : Heap α) (a b : Nat) (hb : b < h.next)
    (_hrows : (h.cell a).rows = (h.cell b).rows) (_hcols : (h.cell a).cols = (h.cell b).cols) :
    ((Tensor.operator_sub (Tensor.operator_add h a b).1 (Tensor.operator_add h a b).2 b).1.cell
      (Tensor.operator_sub (Tensor.operator_add h a b).1 (Tensor.operator_add h a b).2 b).2).rows
      = (h.cell a).rows ∧
    ((Tensor.operator_sub (Tensor.operator_add h a b).1 (Tensor.operator_add h a b).2 b).1.cell
      (Tensor.operator_sub (Tensor.operator_add h a b).1 (Tensor.operator_add h a b).2 b).2).cols
      = (h.cell a).cols ∧
    ∀ i j, i < (h.cell a).rows → j < (h.cell a).cols →
      ((Tensor.operator_sub (Tensor.operator_add h a b).1 (Tensor.operator_add h a b).2 b).1.cell
        (Tensor.operator_sub (Tensor.operator_add h a b).1 (Tensor.operator_add h a b).2 b).2).data
        i j = (h.cell a).data i j := by
  have hb' : b ≠ h.next := Nat.ne_of_lt hb
  have hb2 : (Tensor.operator_add h a b).1.cell b = h.cell b :=
    operator_add_cell_of_ne h a b b hb'
  simp only [operator_sub_snd, operator_sub_rows, operator_sub_cols, operator_sub_data, hb2]
  simp only [operator_add_snd, operator_add_next, operator_add_rows, operator_add_cols,
    operator_add_data, true_and]
  intro i j hi hj
  simp [hi, hj]

/-- C5, at a concrete input: two 2 x 2 leaves. -/
theorem add_then_sub_values_witness :
    (1 < (heapA22B22 ℚ).next ∧ ((heapA22B22 ℚ).cell 0).rows = ((heapA22B22 ℚ).cell 1).rows ∧
      ((heapA22B22 ℚ).cell 0).cols = ((heapA22B22 ℚ).cell 1).cols) ∧
    ((Tensor.operator_sub (Tensor.operator_add (heapA22B22 ℚ) 0 1).1
        (Tensor.operator_add (heapA22B22 ℚ) 0 1).2 1).1.cell
      (Tensor.operator_sub (Tensor.operator_add (heapA22B22 ℚ) 0 1).1
        (Tensor.operator_add (heapA22B22 ℚ) 0 1).2 1).2).data 1 1 = ((heapA22B22 ℚ).cell 0).data 1 1 :=
  ⟨by decide,
    (add_then_sub_values (heapA22B22 ℚ) 0 1 (by decide) (by decide) (by decide)).2.2
      1 1 (by decide) (by decide)⟩

/-- C6. `lekyrelu` returns a node of the shape of its operand whose entry is the
operand's entry where that is positive and `leaky` times it otherwise; a zero entry
takes the second branch. -/
theorem lekyrelu_entries (h : Heap α) (x : Nat) (leaky : α) :
    ((Tensor.lekyrelu h x leaky).1.cell (Tensor.lekyrelu h x leaky).2).rows = (h.cell x).rows ∧
    ((Tensor.lekyrelu h x leaky).1.cell (Tensor.lekyrelu h x leaky).2).cols = (h.cell x).cols ∧
    (∀ i j, i < (h.cell x).rows → j < (h.cell x).cols →
      ((Tensor.lekyrelu h x leaky).1.cell (Tensor.lekyrelu h x leaky).2).data i j =
        if (h.cell x).data i j > 0 then (h.cell x).data i j else leaky * (h.cell x).data i j) ∧
    (∀ i j, i < (h.cell x).rows → j < (h.cell x).cols → (h.cell x).data i j = 0 →
      ((Tensor.lekyrelu h x leaky).1.cell (Tensor.lekyrelu h x leaky).2).data i j = leaky * 0) := by
  have key : ∀ i j, i < (h.cell x).rows → j < (h.cell x).cols →
      ((Tensor.lekyrelu h x leaky).1.cell (Tensor.lekyrelu h x leaky).2).data i j =
        if (h.cell x).data i j > 0 then (h.cell x).data i j
        else leaky * (h.cell x).data i j := by
    intro i j hi hj
    simp only [Tensor.lekyrelu, Heap.alloc, if_pos]
    rw [forRange_set_all (fun i j _ => if (h.cell x).data i j > 0 then (h.cell x).data i j
        else leaky * (h.cell x).data i j)]
    simp [hi, hj]
  refine ⟨?_, ?_, key, ?_⟩
  · simp [Tensor.lekyrelu, Heap.alloc, Tensor.new]
  · simp [Tensor.lekyrelu, Heap.alloc, Tensor.new]
  · intro i j hi hj h0
    rw [key i j hi hj, h0]
    simp

/-- C6, at a concrete input: the leaf with rows `(1, 0)` and `(-1, -2)` and slope
`1/2`; the positive entry passes, the zero entry yields `1/2 * 0`, the negative entry is
scaled. -/
theorem lekyrelu_entries_witness :
    ((heapX22 ℚ).cell 0).data 0 0 = 1 ∧ ((heapX22 ℚ).cell 0).data 0 1 = 0 ∧
    ((heapX22 ℚ).cell 0).data 1 0 = -1 ∧
    ((Tensor.lekyrelu (heapX22 ℚ) 0 (1 / 2)).1.cell
      (Tensor.lekyrelu (heapX22 ℚ) 0 (1 / 2)).2).data 0 0 = 1 ∧
    ((Tensor.lekyrelu (heapX22 ℚ) 0 (1 / 2)).1.cell
      (Tensor.lekyrelu (heapX22 ℚ) 0 (1 / 2)).2).data 0 1 = 1 / 2 * 0 ∧
    ((Tensor.lekyrelu (heapX22 ℚ) 0 (1 / 2)).1.cell
      (Tensor.lekyrelu (heapX22 ℚ) 0 (1 / 2)).2).data 1 0 = 1 / 2 * -1 := by
  have h00 : ((heapX22 ℚ).cell 0).data 0 0 = 1 := by
    simp [heapX22, Heap.leaf, Heap.alloc, Heap.empty, Tensor.new_data_some, Buf.ofLists]
  have h01 : ((heapX22 ℚ).cell 0).data 0 1 = 0 := by
    simp [heapX22, Heap.leaf, Heap.alloc, Heap.empty, Tensor.new_data_some, Buf.ofLists]
  have h10 : ((heapX22 ℚ).cell 0).data 1 0 = -1 := by
    simp [heapX22, Heap.leaf, Heap.alloc, Heap.empty, Tensor.new_data_some, Buf.ofLists]
  refine ⟨h00, h01, h10, ?_, ?_, ?_⟩
  · rw [(lekyrelu_entries (heapX22 ℚ) 0 (1 / 2)).2.2.1 0 0 (by decide) (by decide), h00]
    norm_num
  · exact (lekyrelu_entries (heapX22 ℚ) 0 (1 / 2)).2.2.2 0 1 (by decide) (by decide) h01
  · rw [(lekyrelu_entries (heapX22 ℚ) 0 (1 / 2)).2.2.1 1 0 (by decide) (by decide), h10]
    norm_num

/-! ### C7 - C10: backward rules -/

/-- C7. Let `S` be a node with left operand `L` and right operand `R`, the three
being different nodes of one shape (as `operator+` and `operator-` produce them from
operands of one shape). Then `backadd` leaves in `L.grad` the stabilised sum
`clip_gradient (L.grad + S.grad)` and in `R.grad` the stabilised sum
`clip_gradient (R.grad + S.grad)`; `backsub` leaves the same in `L.grad` and
`clip_gradient (R.grad - S.grad)` in `R.grad`; neither changes `S.grad`. -/
theorem backadd_backsub_grads (F : FloatOps α) (h : Heap α) (s l r : Nat)
    (hl : (h.cell s).left = some l) (hr : (h.cell s).right = some r)
    (hlr : l ≠ r) (hls : l ≠ s) (hrs : r ≠ s)
    (hLr : (h.cell l).rows = (h.cell s).rows) (hLc : (h.cell l).cols = (h.cell s).cols)
    (hRr : (h.cell r).rows = (h.cell s).rows) (hRc : (h.cell r).cols = (h.cell s).cols) :
    (∀ i j, i < (h.cell s).rows → j < (h.cell s).cols →
      ((Tensor.backadd F h s).cell l).grad i j =
        clip_gradient F (fun a b => (h.cell l).grad a b + (h.cell s).grad a b)
          (h.cell s).rows (h.cell s).cols i j ∧
      ((Tensor.backadd F h s).cell r).grad i j =
        clip_gradient F (fun a b => (h.cell r).grad a b + (h.cell s).grad a b)
          (h.cell s).rows (h.cell s).cols i j ∧
      ((Tensor.backsub F h s).cell l).grad i j =
        clip_gradient F (fun a b => (h.cell l).grad a b + (h.cell s).grad a b)
          (h.cell s).rows (h.cell s).cols i j ∧
      ((Tensor.backsub F h s).cell r).grad i j =
        clip_gradient F (fun a b => (h.cell r).grad a b - (h.cell s).grad a b)
          (h.cell s).rows (h.cell s).cols i j) ∧
    ((Tensor.backadd F h s).cell s).grad = (h.cell s).grad ∧
    ((Tensor.backsub F h s).cell s).grad = (h.cell s).grad := by
  rw [backadd_eq F h s l r hl hr hlr hls hrs, backsub_eq F h s l r hl hr hlr hls hrs]
  refine ⟨?_, ?_, ?_⟩
  · intro i j hi hj
    simp only [Heap.withGrad_cell_ne _ r l _ hlr, Heap.withGrad_cell_self, hLr, hLc, hRr, hRc]
    refine ⟨?_, ?_, ?_, ?_⟩ <;>
    · apply clip_gradient_congr _ _ _ _ _ _ i j hi hj
      intro a b ha hb
      simp [ha, hb]
  · rw [Heap.withGrad_cell_ne _ r s _ hrs.symm, Heap.withGrad_cell_ne _ l s _ hls.symm]
  · rw [Heap.withGrad_cell_ne _ r s _ hrs.symm, Heap.withGrad_cell_ne _ l s _ hls.symm]

/-- C7, at a concrete input: the sum of two 2 x 2 leaves, real arithmetic. -/
theorem backadd_backsub_grads_witness :
    (((heapSum ℝ).cell 2)._backward = some Rule.backadd ∧
      ((heapSum ℝ).cell 2).left = some 0 ∧ ((heapSum ℝ).cell 2).right = some 1 ∧
      ((heapSum ℝ).cell 0).rows = ((heapSum ℝ).cell 2).rows ∧
      ((heapSum ℝ).cell 0).cols = ((heapSum ℝ).cell 2).cols ∧
      ((heapSum ℝ).cell 1).rows = ((heapSum ℝ).cell 2).rows ∧
      ((heapSum ℝ).cell 1).cols = ((heapSum ℝ).cell 2).cols) ∧
    ((Tensor.backadd ⟨fun _ => true, Real.sqrt⟩ (heapSum ℝ) 2).cell 0).grad 0 0 =
      clip_gradient ⟨fun _ => true, Real.sqrt⟩
        (fun a b => ((heapSum ℝ).cell 0).grad a b + ((heapSum ℝ).cell 2).grad a b)
        ((heapSum ℝ).cell 2).rows ((heapSum ℝ).cell 2).cols 0 0 :=
  ⟨by decide,
    ((backadd_backsub_grads ⟨fun _ => true, Real.sqrt⟩ (heapSum ℝ) 2 0 1 (by decide) (by decide)
      (by decide) (by decide) (by decide) (by decide) (by decide) (by decide) (by decide)).1 0 0
      (by decide) (by decide)).1⟩

/-- C8. Let `C` be a node with left operand `A` (m x k) and right operand `B`
(k x n), the three being different nodes and `C` of shape m x n (as `operator*`
produces it). Then `backmul` returns, and it leaves in `A.grad` the stabilised buffer
`clip_gradient (A.grad + C.grad * transpose B.data)` and in `B.grad` the stabilised
buffer `clip_gradient (B.grad + transpose A.data * C.grad)`. -/
theorem backmul_grads (F : FloatOps α) (h : Heap α) (c a b : Nat)
    (hl : (h.cell c).left = some a) (hr : (h.cell c).right = some b)
    (hab : a ≠ b) (hac : a ≠ c) (hbc : b ≠ c)
    (hm : (h.cell c).rows = (h.cell a).rows) (hk : (h.cell a).cols = (h.cell b).rows)
    (hn : (h.cell c).cols = (h.cell b).cols) :
    ∃ h', Tensor.backmul F h c = some h' ∧
      (∀ i j, i < (h.cell a).rows → j < (h.cell a).cols →
        (h'.cell a).grad i j =
          clip_gradient F (fun x y => (h.cell a).grad x y +
            Buf.matmul (h.cell c).grad (Buf.transpose (h.cell b).data) (h.cell b).cols x y)
            (h.cell a).rows (h.cell a).cols i j) ∧
      (∀ i j, i < (h.cell b).rows → j < (h.cell b).cols →
        (h'.cell b).grad i j =
          clip_gradient F (fun x y => (h.cell b).grad x y +
            Buf.matmul (Buf.transpose (h.cell a).data) (h.cell c).grad (h.cell a).rows x y)
            (h.cell b).rows (h.cell b).cols i j) := by
  refine ⟨_, backmul_eq F h c a b hl hr hab hac hbc, ?_, ?_⟩
  · intro i j hi hj
    rw [Heap.withGrad_cell_ne _ b a _ hab, Heap.withGrad_cell_self]
    apply clip_gradient_congr _ _ _ _ _ _ i j hi hj
    intro x y hx hy
    have hx' : x < (h.cell c).rows := by omega
    have hy' : y < (h.cell b).rows := by omega
    simp [hx', hy', Buf.matmul, Buf.transpose, hn]
  · intro i j hi hj
    rw [Heap.withGrad_cell_self]
    apply clip_gradient_congr _ _ _ _ _ _ i j hi hj
    intro x y hx hy
    have hx' : x < (h.cell a).cols := by omega
    have hy' : y < (h.cell c).cols := by omega
    simp only [hx', hy', and_self, if_true, Buf.matmul, Buf.transpose, hm]
    congr 1
    apply Finset.sum_congr rfl
    intro l _
    exact mul_comm _ _

/-- C8, at a concrete input: the product of a 2 x 3 and a 3 x 2 leaf, real
arithmetic. -/
theorem backmul_grads_witness :
    (((heapProd ℝ).cell 2)._backward = some Rule.backmul ∧
      ((heapProd ℝ).cell 2).left = some 0 ∧ ((heapProd ℝ).cell 2).right = some 1 ∧
      ((heapProd ℝ).cell 2).rows = ((heapProd ℝ).cell 0).rows ∧
      ((heapProd ℝ).cell 0).cols = ((heapProd ℝ).cell 1).rows ∧
      ((heapProd ℝ).cell 2).cols = ((heapProd ℝ).cell 1).cols) ∧
    ∃ h', Tensor.backmul ⟨fun _ => true, Real.sqrt⟩ (heapProd ℝ) 2 = some h' ∧
      (h'.cell 0).grad 1 2 =
        clip_gradient ⟨fun _ => true, Real.sqrt⟩ (fun x y => ((heapProd ℝ).cell 0).grad x y +
          Buf.matmul ((heapProd ℝ).cell 2).grad (Buf.transpose ((heapProd ℝ).cell 1).data)
            ((heapProd ℝ).cell 1).cols x y)
          ((heapProd ℝ).cell 0).rows ((heapProd ℝ).cell 0).cols 1 2 :=
  ⟨by decide,
    (backmul_grads ⟨fun _ => true, Real.sqrt⟩ (heapProd ℝ) 2 0 1 (by decide) (by decide)
      (by decide) (by decide) (by decide) (by decide) (by decide) (by decide)).imp
      (fun _ hh => ⟨hh.1, hh.2.1 1 2 (by decide) (by decide)⟩)⟩

/-- C9 (amended). Let `s` be a node with left operand `u` and right operand `v`,
three different nodes, `u` and `v` single columns of one length `n` with all-zero
gradient buffers, and let `dS = s.grad[0][0]`. Then `backdot` returns and leaves
`u.grad = clip_gradient (dS * v)` and `v.grad = clip_gradient (dS * u)`; the entries are
exactly `dS * v[i]` and `dS * u[i]` whenever the accumulated buffer has finite entries
and a norm that `clip_gradient` finds between its two thresholds. -/
theorem backdot_grads (F : FloatOps α) (h : Heap α) (s u v : Nat)
    (hl : (h.cell s).left = some u) (hr : (h.cell s).right = some v)
    (huv : u ≠ v) (hus : u ≠ s) (hvs : v ≠ s)
    (hUc : (h.cell u).cols = 1) (hVc : (h.cell v).cols = 1)
    (hrows : (h.cell u).rows = (h.cell v).rows)
    (hUg : ∀ i, i < (h.cell u).rows → (h.cell u).grad i 0 = 0)
    (hVg : ∀ i, i < (h.cell v).rows → (h.cell v).grad i 0 = 0) :
    ∃ h', Tensor.backdot F h s = some h' ∧
      (∀ i, i < (h.cell u).rows →
        (h'.cell u).grad i 0 =
          clip_gradient F (fun a _ => (h.cell s).grad 0 0 * (h.cell v).data a 0)
            (h.cell u).rows 1 i 0 ∧
        (h'.cell v).grad i 0 =
          clip_gradient F (fun a _ => (h.cell s).grad 0 0 * (h.cell u).data a 0)
            (h.cell u).rows 1 i 0) ∧
      ((∀ i, i < (h.cell u).rows →
          F.isfinite ((h.cell s).grad 0 0 * (h.cell v).data i 0) = true) →
        ¬ F.sqrt (sumsq (fun a _ => (h.cell s).grad 0 0 * (h.cell v).data a 0)
            (h.cell u).rows 1 + EPSILON) > CLIP_NORM →
        ¬ F.sqrt (sumsq (fun a _ => (h.cell s).grad 0 0 * (h.cell v).data a 0)
            (h.cell u).rows 1 + EPSILON) < MIN_GRAD_NORM →
        ∀ i, i < (h.cell u).rows →
          (h'.cell u).grad i 0 = (h.cell s).grad 0 0 * (h.cell v).data i 0) ∧
      ((∀ i, i < (h.cell u).rows →
          F.isfinite ((h.cell s).grad 0 0 * (h.cell u).data i 0) = true) →
        ¬ F.sqrt (sumsq (fun a _ => (h.cell s).grad 0 0 * (h.cell u).data a 0)
            (h.cell u).rows 1 + EPSILON) > CLIP_NORM →
        ¬ F.sqrt (sumsq (fun a _ => (h.cell s).grad 0 0 * (h.cell u).data a 0)
            (h.cell u).rows 1 + EPSILON) < MIN_GRAD_NORM →
        ∀ i, i < (h.cell u).rows →
          (h'.cell v).grad i 0 = (h.cell s).grad 0 0 * (h.cell u).data i 0) := by
  obtain ⟨h', hrun, key⟩ :=
    backdot_stabilized F h s u v hl hr huv hus hvs hUc hVc hrows hUg hVg
  refine ⟨h', hrun, key, ?_, ?_⟩
  · intro hfin hup hlo i hi
    rw [(key i hi).1, clip_gradient_in_band F _ _ _ (fun a b ha _ => hfin a ha) hup hlo]
  · intro hfin hup hlo i hi
    rw [(key i hi).2, clip_gradient_in_band F _ _ _ (fun a b ha _ => hfin a ha) hup hlo]

/-- C9 (amended), at a concrete input: `u = (1, 2)`, `v = (3, 4)`, `dS = 1/10`, real
arithmetic; the accumulated buffer `(3/10, 4/10)` has norm between the thresholds and
is left exact. -/
theorem backdot_grads_witness :
    (((heapDot ℝ (1 / 10)).cell 2)._backward = some Rule.backdot ∧
      ((heapDot ℝ (1 / 10)).cell 2).left = some 0 ∧
      ((heapDot ℝ (1 / 10)).cell 2).right = some 1 ∧
      ((heapDot ℝ (1 / 10)).cell 0).cols = 1 ∧ ((heapDot ℝ (1 / 10)).cell 1).cols = 1 ∧
      ((heapDot ℝ (1 / 10)).cell 0).rows = ((heapDot ℝ (1 / 10)).cell 1).rows) ∧
    ∃ h', Tensor.backdot ⟨fun _ => true, Real.sqrt⟩ (heapDot ℝ (1 / 10)) 2 = some h' ∧
      (h'.cell 0).grad 0 0 = 3 / 10 ∧ (h'.cell 0).grad 1 0 = 4 / 10 := by
  refine ⟨by decide, ?_⟩
  obtain ⟨h', hrun, _, hexact, _⟩ :=
    backdot_grads ⟨fun _ => true, Real.sqrt⟩ (heapDot ℝ (1 / 10)) 2 0 1 (by decide) (by decide)
      (by decide) (by decide) (by decide) (by decide) (by decide) (by decide)
      (by
        intro i _
        simp [heapDot, heapUV, Heap.leaf, Heap.alloc, Heap.withGrad, Tensor.operator_caret,
          Tensor.new_grad, Heap.empty, Tensor.new_rows, Tensor.new_cols])
      (by
        intro i _
        simp [heapDot, heapUV, Heap.leaf, Heap.alloc, Heap.withGrad, Tensor.operator_caret,
          Tensor.new_grad, Heap.empty, Tensor.new_rows, Tensor.new_cols])
  have hsum : sumsq (fun a _ => ((heapDot ℝ (1 / 10)).cell 2).grad 0 0 *
      ((heapDot ℝ (1 / 10)).cell 1).data a 0) ((heapDot ℝ (1 / 10)).cell 0).rows 1 + EPSILON
      = 250001 / 1000000 := by
    simp [heapDot, heapUV, Heap.leaf, Heap.alloc, Heap.withGrad, Tensor.operator_caret,
      Tensor.new_data_some, Heap.empty, Tensor.new_rows, Tensor.new_cols, Buf.ofLists, sumsq,
      Finset.sum_range_succ, EPSILON]
    norm_num
  have hex := hexact (fun _ _ => rfl)
    (by
      rw [hsum, not_lt]
      exact (Real.sqrt_le_left (by norm_num [CLIP_NORM])).2 (by norm_num [CLIP_NORM]))
    (by
      rw [hsum, not_lt]
      exact Real.le_sqrt_of_sq_le (by norm_num [MIN_GRAD_NORM]))
  refine ⟨h', hrun, ?_, ?_⟩
  · rw [hex 0 (by decide)]
    simp [heapDot, heapUV, Heap.leaf, Heap.alloc, Heap.withGrad, Tensor.operator_caret,
      Tensor.new_data_some, Heap.empty, Tensor.new_rows, Tensor.new_cols, Buf.ofLists]
    norm_num
  · rw [hex 1 (by decide)]
    simp [heapDot, heapUV, Heap.leaf, Heap.alloc, Heap.withGrad, Tensor.operator_caret,
      Tensor.new_data_some, Heap.empty, Tensor.new_rows, Tensor.new_cols, Buf.ofLists]
    norm_num

/-- C9 (counterexample). With `u = (1, 2)`, `v = (3, 4)`, zero gradient buffers and
`dS = 1`, `backdot` returns, and `u.grad[0]` is not `dS * v[0] = 3`: the accumulated
buffer `(3, 4)` has norm above `CLIP_NORM` and `clip_gradient` rescales it. -/
theorem backdot_exact_counterexample :
    (((heapDot ℝ 1).cell 2)._backward = some Rule.backdot ∧
      ((heapDot ℝ 1).cell 0).cols = 1 ∧ ((heapDot ℝ 1).cell 1).cols = 1 ∧
      ((heapDot ℝ 1).cell 0).rows = 2 ∧ ((heapDot ℝ 1).cell 1).rows = 2 ∧
      ((heapDot ℝ 1).cell 2).left = some 0 ∧ ((heapDot ℝ 1).cell 2).right = some 1 ∧
      ((heapDot ℝ 1).cell 0).grad = (fun _ _ => 0) ∧
      ((heapDot ℝ 1).cell 1).grad = (fun _ _ => 0) ∧
      ((heapDot ℝ 1).cell 2).grad 0 0 = 1 ∧ ((heapDot ℝ 1).cell 1).data 0 0 = 3) ∧
    ∃ h', Tensor.backdot ⟨fun _ => true, Real.sqrt⟩ (heapDot ℝ 1) 2 = some h' ∧
      (h'.cell 0).grad 0 0 ≠
        ((heapDot ℝ 1).cell 2).grad 0 0 * ((heapDot ℝ 1).cell 1).data 0 0 := by
  have hg0 : ((heapDot ℝ 1).cell 0).grad = (fun _ _ => 0) := by
    simp [heapDot, heapUV, Heap.leaf, Heap.alloc, Heap.withGrad, Tensor.operator_caret,
      Tensor.new_grad, Heap.empty, Tensor.new_rows, Tensor.new_cols]
  have hg1 : ((heapDot ℝ 1).cell 1).grad = (fun _ _ => 0) := by
    simp [heapDot, heapUV, Heap.leaf, Heap.alloc, Heap.withGrad, Tensor.operator_caret,
      Tensor.new_grad, Heap.empty, Tensor.new_rows, Tensor.new_cols]
  have hdS : ((heapDot ℝ 1).cell 2).grad 0 0 = 1 := by
    simp [heapDot, Heap.withGrad, Buf.ofLists]
  have hv : ∀ a, ((heapDot ℝ 1).cell 1).data a 0 = if a = 0 then 3 else if a = 1 then 4 else 0 := by
    intro a
    simp [heapDot, heapUV, Heap.leaf, Heap.alloc, Heap.withGrad, Tensor.operator_caret,
      Tensor.new_data_some, Heap.empty, Tensor.new_rows, Tensor.new_cols, Buf.ofLists]
    rcases a with _ | _ | a <;> simp
  refine ⟨⟨by decide, by decide, by decide, by decide, by decide, by decide, by decide, hg0, hg1,
    hdS,
    by rw [hv]; simp⟩, ?_⟩
  obtain ⟨h', hrun, hclip⟩ :=
    backdot_stabilized ⟨fun _ => true, Real.sqrt⟩ (heapDot ℝ 1) 2 0 1 (by decide) (by decide)
      (by decide) (by decide) (by decide) (by decide) (by decide) (by decide)
      (by intro i _; rw [hg0]) (by intro i _; rw [hg1])
  refine ⟨h', hrun, ?_⟩
  have hrows : ((heapDot ℝ 1).cell 0).rows = 2 := by decide
  have hsum : sumsq (fun a _ => ((heapDot ℝ 1).cell 2).grad 0 0 *
      ((heapDot ℝ 1).cell 1).data a 0) 2 1 + EPSILON = 25000001 / 1000000 := by
    simp [sumsq, Finset.sum_range_succ, hdS, hv, EPSILON]
    norm_num
  have hbig : (1 : ℝ) < Real.sqrt (25000001 / 1000000) :=
    Real.lt_sqrt_of_sq_lt (by norm_num)
  rw [(hclip 0 (by decide)).1, hrows, clip_gradient_eq,
    sanitize_of_finite _ _ _ _ (fun _ _ _ _ => rfl), hsum, if_pos (by simpa [CLIP_NORM] using hbig)]
  simp only [hdS, hv, CLIP_NORM]
  norm_num
  intro hcontra
  have hpos : (0 : ℝ) < Real.sqrt (25000001 / 1000000) := lt_trans one_pos hbig
  have : Real.sqrt (25000001 / 1000000) = 1 := by
    field_simp at hcontra
    linarith
  linarith

/-- C10 (the code at the failing input). For `X = (-1)`, slope `1/2` and
`Y.grad = (1)`: the forward value is `1/2 * (-1)`, yet the loop of `backleakyrelu` adds
`1/100` to `X.grad[0][0]`, not `1/2 * Y.grad[0][0]`; the full rule, stabiliser
included, leaves `1/100` as well. -/
theorem backleakyrelu_ignores_slope :
    ((heapLeaky ℝ).cell 1)._backward = some Rule.backleakyrelu ∧
    ((heapLeaky ℝ).cell 1).left = some 0 ∧
    ((heapLeaky ℝ).cell 0).data 0 0 = -1 ∧
    ((heapLeaky ℝ).cell 1).data 0 0 = 1 / 2 * -1 ∧
    ((heapLeaky ℝ).cell 1).grad 0 0 = 1 ∧
    ((heapLeaky ℝ).cell 0).grad 0 0 = 0 ∧
    ((Tensor.backleakyrelu_loop (heapLeaky ℝ) 1 0).cell 0).grad 0 0 = 1 / 100 ∧
    ((Tensor.backleakyrelu ⟨fun _ => true, Real.sqrt⟩ (heapLeaky ℝ) 1).cell 0).grad 0 0
      = 1 / 100 ∧
    (1 / 100 : ℝ) ≠ 1 / 2 * ((heapLeaky ℝ).cell 1).grad 0 0 := by
  have hleft : ((heapLeaky ℝ).cell 1).left = some 0 := by decide
  have hx : ((heapLeaky ℝ).cell 0).data 0 0 = -1 := by
    simp [heapLeaky, Heap.leaf, Heap.alloc, Heap.withGrad, Tensor.lekyrelu,
      Tensor.new_data_some, Heap.empty, Buf.ofLists]
  have hy : ((heapLeaky ℝ).cell 1).data 0 0 = 1 / 2 * -1 := by
    have hd := lekyrelu_data (Heap.empty.leaf 1 1 [[-1]] "X" : Heap ℝ) 0 (1 / 2)
    have hn : (Heap.empty.leaf 1 1 [[-1]] "X" : Heap ℝ).next = 1 := rfl
    rw [hn] at hd
    simp only [heapLeaky, Heap.withGrad, if_pos, hd]
    simp [Heap.leaf, Heap.alloc, Tensor.new_data_some, Heap.empty, Buf.ofLists, Tensor.new_rows,
      Tensor.new_cols]
  have hgy : ((heapLeaky ℝ).cell 1).grad 0 0 = 1 := by
    simp [heapLeaky, Heap.withGrad, Buf.ofLists]
  have hgx : ((heapLeaky ℝ).cell 0).grad 0 0 = 0 := by
    simp [heapLeaky, Heap.leaf, Heap.alloc, Heap.withGrad, Tensor.lekyrelu, Tensor.new_grad,
      Heap.empty]
  have hloop : ((Tensor.backleakyrelu_loop (heapLeaky ℝ) 1 0).cell 0).grad 0 0 = 1 / 100 := by
    rw [backleakyrelu_loop_eq _ 1 0 (by decide), Heap.withGrad_cell_self]
    have hr : ((heapLeaky ℝ).cell 1).rows = 1 := by decide
    have hc : ((heapLeaky ℝ).cell 1).cols = 1 := by decide
    simp only [hr, hc, hy, hgy, hgx]
    norm_num
  refine ⟨by decide, hleft, hx, hy, hgy, hgx, hloop, ?_, by rw [hgy]; norm_num⟩
  have hr : ((heapLeaky ℝ).cell 1).rows = 1 := by decide
  have hc : ((heapLeaky ℝ).cell 1).cols = 1 := by decide
  have hr0 : ((heapLeaky ℝ).cell 0).rows = 1 := by decide
  have hc0 : ((heapLeaky ℝ).cell 0).cols = 1 := by decide
  unfold Tensor.backleakyrelu
  simp only [hleft]
  rw [backleakyrelu_loop_eq _ 1 0 (by decide), Heap.clip_withGrad, Heap.withGrad_cell_self,
    hr, hc, hr0, hc0]
  have hsum : sumsq (fun a b => if a < 1 ∧ b < 1 then
      ((heapLeaky ℝ).cell 0).grad a b +
        (if ((heapLeaky ℝ).cell 1).data a b > 0 then ((heapLeaky ℝ).cell 1).grad a b
          else (1 / 100) * ((heapLeaky ℝ).cell 1).grad a b)
      else ((heapLeaky ℝ).cell 0).grad a b) 1 1 + EPSILON = 101 / 1000000 := by
    simp only [sumsq, Finset.sum_range_one, hy, hgy, hgx, EPSILON]
    norm_num
  rw [clip_gradient_in_band _ _ _ _ (fun _ _ _ _ => rfl)
    (by
      rw [hsum, not_lt]
      exact (Real.sqrt_le_left (by norm_num [CLIP_NORM])).2 (by norm_num [CLIP_NORM]))
    (by
      rw [hsum, not_lt]
      exact Real.le_sqrt_of_sq_le (by norm_num [MIN_GRAD_NORM]))]
  simp only [hy, hgy, hgx]
  norm_num

/-! ### C11 - C13: the gradient stabiliser -/

/-- The sum of squares is not negative. -/
theorem sumsq_nonneg (g : Buf α) (r c : Nat) : 0 ≤ sumsq g r c := by
  unfold sumsq
  apply Finset.sum_nonneg
  intro i _
  apply Finset.sum_nonneg
  intro j _
  exact mul_self_nonneg _

/-- The sum of squares of a buffer whose `r × c` part was multiplied by `s`. -/
theorem sumsq_scaled (g : Buf α) (r c : Nat) (s : α) :
    sumsq (fun a b => if a < r ∧ b < c then g a b * s else g a b) r c = s * s * sumsq g r c := by
  unfold sumsq
  rw [Finset.mul_sum]
  apply Finset.sum_congr rfl
  intro i hi
  rw [Finset.mul_sum]
  apply Finset.sum_congr rfl
  intro j hj
  have hi' : i < r := Finset.mem_range.mp hi
  have hj' : j < c := Finset.mem_range.mp hj
  simp only [hi', hj', and_self, if_true]
  ring

/-- What `clip_gradient` returns for a buffer of finite entries whose norm exceeds
`CLIP_NORM`: every entry of the `r × c` part multiplied by `CLIP_NORM / norm`. -/
theorem clip_gradient_of_big (F : FloatOps α) (g : Buf α) (r c : Nat)
    (hfin : ∀ i j, i < r → j < c → F.isfinite (g i j) = true)
    (hbig : F.sqrt (sumsq g r c + EPSILON) > CLIP_NORM) :
    clip_gradient F g r c = fun a b =>
      if a < r ∧ b < c then g a b * (CLIP_NORM / F.sqrt (sumsq g r c + EPSILON)) else g a b := by
  rw [clip_gradient_eq, sanitize_of_finite F g r c hfin, if_pos hbig]

/-- With the real square root the norm that `clip_gradient` computes never falls below
`MIN_GRAD_NORM`: the square root of `EPSILON` is `MIN_GRAD_NORM`. -/
theorem real_norm_ge_min (g : Buf ℝ) (r c : Nat) :
    ¬ Real.sqrt (sumsq g r c + EPSILON) < MIN_GRAD_NORM := by
  rw [not_lt]
  apply Real.le_sqrt_of_sq_le
  have := sumsq_nonneg g r c
  simp only [MIN_GRAD_NORM, EPSILON]
  norm_num
  linarith

/-- The sum of squares that `clip_gradient` leaves, with the real square root, when the
norm exceeds `CLIP_NORM`. -/
theorem real_clip_sumsq_of_big (F : FloatOps ℝ) (hsqrt : F.sqrt = Real.sqrt) (g : Buf ℝ)
    (r c : Nat) (hfin : ∀ i j, i < r → j < c → F.isfinite (g i j) = true)
    (hbig : Real.sqrt (sumsq g r c + EPSILON) > CLIP_NORM) :
    sumsq (clip_gradient F g r c) r c = sumsq g r c / (sumsq g r c + EPSILON) := by
  have hS := sumsq_nonneg g r c
  have hpos : (0 : ℝ) < sumsq g r c + EPSILON := by
    have : (0 : ℝ) < EPSILON := by norm_num [EPSILON]
    linarith
  rw [clip_gradient_of_big F g r c hfin (by rw [hsqrt]; exact hbig), sumsq_scaled, hsqrt]
  have hsq : Real.sqrt (sumsq g r c + EPSILON) * Real.sqrt (sumsq g r c + EPSILON) =
      sumsq g r c + EPSILON := Real.mul_self_sqrt hpos.le
  have hne : Real.sqrt (sumsq g r c + EPSILON) ≠ 0 := by
    intro h0
    rw [h0] at hsq
    linarith
  simp only [CLIP_NORM]
  field_simp

/-- With the real square root and a norm above `CLIP_NORM`, the buffer that
`clip_gradient` leaves has a sum of squares below 1 which, with `EPSILON` added, is
above 1. -/
theorem real_clip_norm_of_big (F : FloatOps ℝ) (hsqrt : F.sqrt = Real.sqrt) (g : Buf ℝ)
    (r c : Nat) (hfin : ∀ i j, i < r → j < c → F.isfinite (g i j) = true)
    (hbig : Real.sqrt (sumsq g r c + EPSILON) > CLIP_NORM) :
    sumsq (clip_gradient F g r c) r c < 1 ∧ sumsq (clip_gradient F g r c) r c + EPSILON > 1 := by
  have hS := sumsq_nonneg g r c
  have heps : (0 : ℝ) < EPSILON := by norm_num [EPSILON]
  have hpos : (0 : ℝ) < sumsq g r c + EPSILON := by linarith
  have hgt : 1 < sumsq g r c + EPSILON := by
    have := (Real.lt_sqrt (by norm_num : (0 : ℝ) ≤ 1)).1 (by simpa [CLIP_NORM] using hbig)
    simpa using this
  rw [real_clip_sumsq_of_big F hsqrt g r c hfin hbig]
  constructor
  · rw [div_lt_one hpos]
    linarith
  · have : sumsq g r c / (sumsq g r c + EPSILON) + EPSILON - 1 =
        EPSILON * (sumsq g r c + EPSILON - 1) / (sumsq g r c + EPSILON) := by
      field_simp
      ring
    have hnum : 0 < EPSILON * (sumsq g r c + EPSILON - 1) / (sumsq g r c + EPSILON) :=
      div_pos (mul_pos heps (by linarith)) hpos
    linarith

/-- C11 (amended). For a buffer of finite entries whose norm
`N = sqrt (S + EPSILON)` (`S` the sum of squares, real square root) exceeds `CLIP_NORM`,
`clip_gradient` multiplies every entry by `CLIP_NORM / N`; the result has sum of squares
`S / (S + EPSILON)`, so its L2 norm is strictly below `CLIP_NORM` and its norm with
`EPSILON` added under the root is strictly above `CLIP_NORM`. -/
theorem clip_gradient_upper (F : FloatOps ℝ) (hsqrt : F.sqrt = Real.sqrt) (g : Buf ℝ)
    (r c : Nat) (hfin : ∀ i j, i < r → j < c → F.isfinite (g i j) = true)
    (hbig : Real.sqrt (sumsq g r c + EPSILON) > CLIP_NORM) :
    (∀ i j, i < r → j < c →
      clip_gradient F g r c i j = g i j * (CLIP_NORM / Real.sqrt (sumsq g r c + EPSILON))) ∧
    sumsq (clip_gradient F g r c) r c = sumsq g r c / (sumsq g r c + EPSILON) ∧
    Real.sqrt (sumsq (clip_gradient F g r c) r c) < CLIP_NORM ∧
    Real.sqrt (sumsq (clip_gradient F g r c) r c + EPSILON) > CLIP_NORM := by
  obtain ⟨hlt, hgt⟩ := real_clip_norm_of_big F hsqrt g r c hfin hbig
  refine ⟨?_, real_clip_sumsq_of_big F hsqrt g r c hfin hbig, ?_, ?_⟩
  · intro i j hi hj
    rw [clip_gradient_of_big F g r c hfin (by rw [hsqrt]; exact hbig), hsqrt]
    simp [hi, hj]
  · simp only [CLIP_NORM]
    rw [Real.sqrt_lt' one_pos]
    simpa using hlt
  · simp only [CLIP_NORM, gt_iff_lt]
    rw [Real.lt_sqrt (by norm_num)]
    simpa using hgt

/-- C11 (amended), at a concrete input: the column `(3, 4)`, of norm
`sqrt (25 + EPSILON)`, ends with sum of squares `25 / (25 + EPSILON)`. -/
theorem clip_gradient_upper_witness :
    Real.sqrt (sumsq (Buf.ofLists [[3], [4]] : Buf ℝ) 2 1 + EPSILON) > CLIP_NORM ∧
    sumsq (clip_gradient ⟨fun _ => true, Real.sqrt⟩ (Buf.ofLists [[3], [4]] : Buf ℝ) 2 1) 2 1 =
      sumsq (Buf.ofLists [[3], [4]] : Buf ℝ) 2 1 /
        (sumsq (Buf.ofLists [[3], [4]] : Buf ℝ) 2 1 + EPSILON) ∧
    sumsq (Buf.ofLists [[3], [4]] : Buf ℝ) 2 1 = 25 := by
  have hsum : sumsq (Buf.ofLists [[3], [4]] : Buf ℝ) 2 1 = 25 := by
    simp [sumsq, Finset.sum_range_succ, Buf.ofLists]
    norm_num
  have hbig : Real.sqrt (sumsq (Buf.ofLists [[3], [4]] : Buf ℝ) 2 1 + EPSILON) > CLIP_NORM := by
    rw [hsum]
    exact Real.lt_sqrt_of_sq_lt (by norm_num [CLIP_NORM, EPSILON])
  exact ⟨hbig,
    (clip_gradient_upper ⟨fun _ => true, Real.sqrt⟩ rfl (Buf.ofLists [[3], [4]]) 2 1
      (fun _ _ _ _ => rfl) hbig).2.1, hsum⟩

/-- C11 (counterexample). The column `(3, 4)` has finite entries and a norm above
`CLIP_NORM`, and the norm of what `clip_gradient` returns is not 1, neither as the L2
norm nor with `EPSILON` added under the root. -/
theorem clip_gradient_upper_counterexample :
    Real.sqrt (sumsq (Buf.ofLists [[3], [4]] : Buf ℝ) 2 1 + EPSILON) > CLIP_NORM ∧
    Real.sqrt (sumsq (clip_gradient ⟨fun _ => true, Real.sqrt⟩
      (Buf.ofLists [[3], [4]] : Buf ℝ) 2 1) 2 1) ≠ 1 ∧
    Real.sqrt (sumsq (clip_gradient ⟨fun _ => true, Real.sqrt⟩
      (Buf.ofLists [[3], [4]] : Buf ℝ) 2 1) 2 1 + EPSILON) ≠ 1 := by
  have hsum : sumsq (Buf.ofLists [[3], [4]] : Buf ℝ) 2 1 = 25 := by
    simp [sumsq, Finset.sum_range_succ, Buf.ofLists]
    norm_num
  have hbig : Real.sqrt (sumsq (Buf.ofLists [[3], [4]] : Buf ℝ) 2 1 + EPSILON) > CLIP_NORM := by
    rw [hsum]
    exact Real.lt_sqrt_of_sq_lt (by norm_num [CLIP_NORM, EPSILON])
  obtain ⟨hlt, hgt⟩ := real_clip_norm_of_big ⟨fun _ => true, Real.sqrt⟩ rfl
    (Buf.ofLists [[3], [4]]) 2 1 (fun _ _ _ _ => rfl) hbig
  refine ⟨hbig, ?_, ?_⟩
  · intro h1
    rw [Real.sqrt_eq_one] at h1
    linarith
  · intro h1
    rw [Real.sqrt_eq_one] at h1
    linarith

/-- C12 (the code at the failing input). The 1 x 1 buffer `(1/100000)` has L2 norm
below `MIN_GRAD_NORM`, and `clip_gradient` returns it unchanged: the norm it computes,
`sqrt (1/10^10 + EPSILON)`, is not below `MIN_GRAD_NORM`, so the second branch is not
taken, and the L2 norm of the result is not `MIN_GRAD_NORM`. -/
theorem clip_gradient_lower_not_taken :
    Real.sqrt (sumsq (Buf.ofLists [[1 / 100000]] : Buf ℝ) 1 1) < MIN_GRAD_NORM ∧
    ¬ Real.sqrt (sumsq (Buf.ofLists [[1 / 100000]] : Buf ℝ) 1 1 + EPSILON) < MIN_GRAD_NORM ∧
    clip_gradient ⟨fun _ => true, Real.sqrt⟩ (Buf.ofLists [[1 / 100000]] : Buf ℝ) 1 1 =
      Buf.ofLists [[1 / 100000]] ∧
    Real.sqrt (sumsq (clip_gradient ⟨fun _ => true, Real.sqrt⟩
      (Buf.ofLists [[1 / 100000]] : Buf ℝ) 1 1) 1 1) ≠ MIN_GRAD_NORM := by
  have hsum : sumsq (Buf.ofLists [[1 / 100000]] : Buf ℝ) 1 1 = 1 / 10000000000 := by
    simp [sumsq, Buf.ofLists]
    norm_num
  have hsmall : Real.sqrt (sumsq (Buf.ofLists [[1 / 100000]] : Buf ℝ) 1 1) < MIN_GRAD_NORM := by
    rw [hsum, Real.sqrt_lt' (by norm_num [MIN_GRAD_NORM])]
    norm_num [MIN_GRAD_NORM]
  have hclip : clip_gradient ⟨fun _ => true, Real.sqrt⟩
      (Buf.ofLists [[1 / 100000]] : Buf ℝ) 1 1 = Buf.ofLists [[1 / 100000]] :=
    clip_gradient_in_band _ _ _ _ (fun _ _ _ _ => rfl)
      (by
        rw [hsum, not_lt]
        exact (Real.sqrt_le_left (by norm_num [CLIP_NORM])).2 (by norm_num [CLIP_NORM, EPSILON]))
      (real_norm_ge_min _ 1 1)
  refine ⟨hsmall, real_norm_ge_min _ 1 1, hclip, ?_⟩
  rw [hclip]
  exact ne_of_lt hsmall

/-- The sanitised buffer holds 0 wherever the buffer held a non-finite entry and the
entry itself elsewhere. -/
theorem sanitize_apply (F : FloatOps α) (g : Buf α) (r c i j : Nat) (hi : i < r) (hj : j < c) :
    sanitize F g r c i j = if F.isfinite (g i j) = false then 0 else g i j := by
  simp [sanitize, hi, hj]

/-- Every entry that `clip_gradient` leaves in the `r × c` part is the sanitised entry
times a factor; the factor is 1 or `CLIP_NORM / norm` with `norm > CLIP_NORM` unless the
norm is below `MIN_GRAD_NORM`. -/
theorem clip_gradient_entry (F : FloatOps α) (g : Buf α) (r c i j : Nat) (hi : i < r)
    (hj : j < c) (hlo : ¬ F.sqrt (sumsq (sanitize F g r c) r c + EPSILON) < MIN_GRAD_NORM) :
    ∃ s : α, 0 ≤ s ∧ s ≤ 1 ∧ clip_gradient F g r c i j = sanitize F g r c i j * s := by
  rw [clip_gradient_eq]
  by_cases hbig : F.sqrt (sumsq (sanitize F g r c) r c + EPSILON) > CLIP_NORM
  · rw [if_pos hbig]
    have h1 : (1 : α) < F.sqrt (sumsq (sanitize F g r c) r c + EPSILON) := by
      simpa [CLIP_NORM] using hbig
    have hpos : (0 : α) < F.sqrt (sumsq (sanitize F g r c) r c + EPSILON) :=
      lt_trans one_pos h1
    refine ⟨CLIP_NORM / F.sqrt (sumsq (sanitize F g r c) r c + EPSILON), ?_, ?_, ?_⟩
    · simp only [CLIP_NORM]
      exact div_nonneg zero_le_one hpos.le
    · simp only [CLIP_NORM]
      rw [div_le_one hpos]
      exact h1.le
    · simp [hi, hj]
  · rw [if_neg hbig, if_neg hlo]
    exact ⟨1, zero_le_one, le_refl 1, (mul_one _).symm⟩

/-- C13. The first loop of `clip_gradient` returns the sanitised buffer together with
the sum of squares of the sanitised buffer (so the norm is computed after the non-finite
entries were replaced by 0); every position of the `r × c` part that held a non-finite
entry holds 0 in the sanitised buffer and in the output; and the output has no
non-finite entry in the `r × c` part, for every finiteness test that accepts 0 and every
number of smaller magnitude than one it accepts, and every square root that is at least
`MIN_GRAD_NORM` from `EPSILON` on. -/
theorem clip_gradient_sanitizes (F : FloatOps α) (g : Buf α) (r c : Nat) :
    sanitize_loop F g r c = (sanitize F g r c, sumsq (sanitize F g r c) r c) ∧
    (∀ i j, i < r → j < c → F.isfinite (g i j) = false →
      sanitize F g r c i j = 0 ∧ clip_gradient F g r c i j = 0) ∧
    (F.isfinite 0 = true →
      (∀ x y : α, |y| ≤ |x| → F.isfinite x = true → F.isfinite y = true) →
      (∀ x : α, EPSILON ≤ x → MIN_GRAD_NORM ≤ F.sqrt x) →
      ∀ i j, i < r → j < c → F.isfinite (clip_gradient F g r c i j) = true) := by
  refine ⟨sanitize_loop_eq F g r c, ?_, ?_⟩
  · intro i j hi hj hnf
    have hs : sanitize F g r c i j = 0 := by
      rw [sanitize_apply F g r c i j hi hj, if_pos hnf]
    refine ⟨hs, ?_⟩
    rw [clip_gradient_eq]
    split_ifs <;> simp [hi, hj, hs]
  · intro h0 hmono hsqrt i j hi hj
    have hlo : ¬ F.sqrt (sumsq (sanitize F g r c) r c + EPSILON) < MIN_GRAD_NORM := by
      rw [not_lt]
      apply hsqrt
      have := sumsq_nonneg (sanitize F g r c) r c
      linarith
    obtain ⟨s, hs0, hs1, hout⟩ := clip_gradient_entry F g r c i j hi hj hlo
    have hsan : F.isfinite (sanitize F g r c i j) = true := by
      rw [sanitize_apply F g r c i j hi hj]
      by_cases hnf : F.isfinite (g i j) = false
      · rw [if_pos hnf]; exact h0
      · rw [if_neg hnf]; simpa using hnf
    rw [hout]
    apply hmono (sanitize F g r c i j) _ _ hsan
    rw [abs_mul, abs_of_nonneg hs0]
    exact mul_le_of_le_one_right (abs_nonneg _) hs1

/-- C13, at a concrete input over the reals, where the finiteness test accepts the
numbers of magnitude at most 1000: in the row `(3, 5000, -4)` the middle entry is
replaced by 0, the norm is computed from `(3, 0, -4)`, and every entry of the output
passes the test. -/
theorem clip_gradient_sanitizes_witness :
    (⟨fun x => decide (|x| ≤ 1000), Real.sqrt⟩ : FloatOps ℝ).isfinite
      ((Buf.ofLists [[3, 5000, -4]] : Buf ℝ) 0 1) = false ∧
    (sanitize_loop ⟨fun x => decide (|x| ≤ 1000), Real.sqrt⟩
      (Buf.ofLists [[3, 5000, -4]] : Buf ℝ) 1 3).2 = 25 ∧
    clip_gradient ⟨fun x => decide (|x| ≤ 1000), Real.sqrt⟩
      (Buf.ofLists [[3, 5000, -4]] : Buf ℝ) 1 3 0 1 = 0 ∧
    ∀ j, j < 3 → (⟨fun x => decide (|x| ≤ 1000), Real.sqrt⟩ : FloatOps ℝ).isfinite
      (clip_gradient ⟨fun x => decide (|x| ≤ 1000), Real.sqrt⟩
        (Buf.ofLists [[3, 5000, -4]] : Buf ℝ) 1 3 0 j) = true := by
  have hnf : (⟨fun x => decide (|x| ≤ 1000), Real.sqrt⟩ : FloatOps ℝ).isfinite
      ((Buf.ofLists [[3, 5000, -4]] : Buf ℝ) 0 1) = false := by
    simp [Buf.ofLists]
    norm_num
  obtain ⟨hloop, hzero, hfin⟩ := clip_gradient_sanitizes
    (⟨fun x => decide (|x| ≤ 1000), Real.sqrt⟩ : FloatOps ℝ) (Buf.ofLists [[3, 5000, -4]]) 1 3
  refine ⟨hnf, ?_, (hzero 0 1 (by decide) (by decide) hnf).2, ?_⟩
  · rw [hloop]
    simp [sumsq, sanitize, Finset.sum_range_succ, Buf.ofLists]
    norm_num
  · intro j hj
    refine hfin (by simp) ?_ ?_ 0 j (by decide) hj
    · intro x y hxy hx
      simp only [decide_eq_true_eq] at hx ⊢
      exact le_trans hxy hx
    · intro x hx
      apply Real.le_sqrt_of_sq_le
      simp only [MIN_GRAD_NORM, EPSILON] at hx ⊢
      norm_num
      linarith

/-! ### C18, C19: update and the edges the operators install -/

/-- The heap that `update` leaves. -/
theorem update_eq (h : Heap α) (p : Nat) (rate : α) :
    Tensor.update h p rate = h.withData p (fun a b =>
      if a < (h.cell p).rows ∧ b < (h.cell p).cols then
        (h.cell p).data a b - rate * (h.cell p).grad a b
      else (h.cell p).data a b) := by
  unfold Tensor.update
  exact heap_data_loop2 h p _ _
    (fun s i j => (s.cell p).data i j - rate * (s.cell p).grad i j)
    (fun i j x => x - rate * (h.cell p).grad i j)
    (by intro d i j; simp [Heap.withData_cell_self])

/-- C18. The call `update(rate)` on node `p` sets every in-range value entry
`(i, j)` to `data[i][j] - rate * grad[i][j]` and leaves the gradient buffer, the shape,
the child references and the rule tag of `p`, every other node and the allocation mark
as they were. -/
theorem update_entries (h : Heap α) (p : Nat) (rate : α) :
    (∀ i j, i < (h.cell p).rows → j < (h.cell p).cols →
      ((Tensor.update h p rate).cell p).data i j =
        (h.cell p).data i j - rate * (h.cell p).grad i j) ∧
    ((Tensor.update h p rate).cell p).grad = (h.cell p).grad ∧
    ((Tensor.update h p rate).cell p).rows = (h.cell p).rows ∧
    ((Tensor.update h p rate).cell p).cols = (h.cell p).cols ∧
    ((Tensor.update h p rate).cell p).left = (h.cell p).left ∧
    ((Tensor.update h p rate).cell p).right = (h.cell p).right ∧
    ((Tensor.update h p rate).cell p)._backward = (h.cell p)._backward ∧
    (∀ q, q ≠ p → (Tensor.update h p rate).cell q = h.cell q) ∧
    (Tensor.update h p rate).next = h.next := by
  rw [update_eq]
  refine ⟨?_, ?_, ?_, ?_, ?_, ?_, ?_, ?_, rfl⟩
  · intro i j hi hj
    simp [Heap.withData_cell_self, hi, hj]
  · simp [Heap.withData_cell_self]
  · simp [Heap.withData_cell_self]
  · simp [Heap.withData_cell_self]
  · simp [Heap.withData_cell_self]
  · simp [Heap.withData_cell_self]
  · simp [Heap.withData_cell_self]
  · intro q hq
    exact Heap.withData_cell_ne h p q _ hq

/-- C18, at a concrete input: the node `A + B` of `heapSum` holds the value 6 and
the gradient 1/2 at `(0, 0)`; after `update(2)` it holds 5. -/
theorem update_entries_witness :
    ((heapSum ℚ).cell 2).data 0 0 = 6 ∧ ((heapSum ℚ).cell 2).grad 0 0 = 1 / 2 ∧
    ((Tensor.update (heapSum ℚ) 2 2).cell 2).data 0 0 = 5 := by
  have hd : ((heapSum ℚ).cell 2).data 0 0 = 6 := by
    have := operator_add_data (heapA22B22 ℚ) 0 1
    rw [show (heapA22B22 ℚ).next = 2 from rfl] at this
    simp only [heapSum, Heap.withGrad, if_pos, this]
    simp [heapA22B22, Heap.leaf, Heap.alloc, Heap.empty, Tensor.new_data_some, Buf.ofLists,
      Tensor.new_rows, Tensor.new_cols]
    norm_num
  have hg : ((heapSum ℚ).cell 2).grad 0 0 = 1 / 2 := by
    simp [heapSum, Heap.withGrad, Buf.ofLists]
  refine ⟨hd, hg, ?_⟩
  rw [(update_entries (heapSum ℚ) 2 2).1 0 0 (by decide) (by decide), hd, hg]
  norm_num

/-- C19. Every forward operator returns a node whose left child is the first
operand, whose right child is the second operand (none for `lekyrelu`), whose gradient
buffer is all zero and whose rule tag is the rule of the operator: `backadd` for
`operator+`, `backsub` for `operator-`, `backmul` for `operator*`, `backdot` for
`operator^`, `backleakyrelu` for `lekyrelu`, and none for `operator/`. A leaf built by
the constructor from injected data has no child, no rule and an all-zero gradient
buffer. -/
theorem operator_result_edges (h : Heap α) (a b : Nat) (leaky : α) :
    (((Tensor.operator_add h a b).1.cell (Tensor.operator_add h a b).2).left = some a ∧
     ((Tensor.operator_add h a b).1.cell (Tensor.operator_add h a b).2).right = some b ∧
     ((Tensor.operator_add h a b).1.cell (Tensor.operator_add h a b).2).grad = (fun _ _ => 0) ∧
     ((Tensor.operator_add h a b).1.cell (Tensor.operator_add h a b).2)._backward
       = some Rule.backadd) ∧
    (((Tensor.operator_sub h a b).1.cell (Tensor.operator_sub h a b).2).left = some a ∧
     ((Tensor.operator_sub h a b).1.cell (Tensor.operator_sub h a b).2).right = some b ∧
     ((Tensor.operator_sub h a b).1.cell (Tensor.operator_sub h a b).2).grad = (fun _ _ => 0) ∧
     ((Tensor.operator_sub h a b).1.cell (Tensor.operator_sub h a b).2)._backward
       = some Rule.backsub) ∧
    (((Tensor.operator_div h a b).1.cell (Tensor.operator_div h a b).2).left = some a ∧
     ((Tensor.operator_div h a b).1.cell (Tensor.operator_div h a b).2).right = some b ∧
     ((Tensor.operator_div h a b).1.cell (Tensor.operator_div h a b).2).grad = (fun _ _ => 0) ∧
     ((Tensor.operator_div h a b).1.cell (Tensor.operator_div h a b).2)._backward = none) ∧
    ((h.cell a).cols = (h.cell b).rows →
     (Tensor.operator_mul h a b).2 = Except.ok h.next ∧
     ((Tensor.operator_mul h a b).1.cell h.next).left = some a ∧
     ((Tensor.operator_mul h a b).1.cell h.next).right = some b ∧
     ((Tensor.operator_mul h a b).1.cell h.next).grad = (fun _ _ => 0) ∧
     ((Tensor.operator_mul h a b).1.cell h.next)._backward = some Rule.backmul) ∧
    (((h.cell a).cols = 1 ∧ (h.cell b).cols = 1 ∧ (h.cell a).rows = (h.cell b).rows) →
     (Tensor.operator_caret h a b).2 = Except.ok h.next ∧
     ((Tensor.operator_caret h a b).1.cell h.next).left = some a ∧
     ((Tensor.operator_caret h a b).1.cell h.next).right = some b ∧
     ((Tensor.operator_caret h a b).1.cell h.next).grad = (fun _ _ => 0) ∧
     ((Tensor.operator_caret h a b).1.cell h.next)._backward = some Rule.backdot) ∧
    (((Tensor.lekyrelu h a leaky).1.cell (Tensor.lekyrelu h a leaky).2).left = some a ∧
     ((Tensor.lekyrelu h a leaky).1.cell (Tensor.lekyrelu h a leaky).2).right = none ∧
     ((Tensor.lekyrelu h a leaky).1.cell (Tensor.lekyrelu h a leaky).2).grad = (fun _ _ => 0) ∧
     ((Tensor.lekyrelu h a leaky).1.cell (Tensor.lekyrelu h a leaky).2)._backward
       = some Rule.backleakyrelu) ∧
    (∀ (rows cols : Nat) (input_data : Buf α) (name : String),
     (Tensor.new rows cols (some input_data) name).left = none ∧
     (Tensor.new rows cols (some input_data) name).right = none ∧
     (Tensor.new rows cols (some input_data) name).grad = (fun _ _ => 0) ∧
     (Tensor.new rows cols (some input_data) name)._backward = none) := by
  refine ⟨⟨?_, ?_, ?_, ?_⟩, ⟨?_, ?_, ?_, ?_⟩, ⟨?_, ?_, ?_, ?_⟩, ?_, ?_, ⟨?_, ?_, ?_, ?_⟩, ?_⟩
  · simp [Tensor.operator_add, Heap.alloc]
  · simp [Tensor.operator_add, Heap.alloc]
  · simp only [Tensor.operator_add, Heap.alloc, if_pos, Tensor.new_grad]
  · simp [Tensor.operator_add, Heap.alloc]
  · simp [Tensor.operator_sub, Heap.alloc]
  · simp [Tensor.operator_sub, Heap.alloc]
  · simp only [Tensor.operator_sub, Heap.alloc, if_pos, Tensor.new_grad]
  · simp [Tensor.operator_sub, Heap.alloc]
  · simp [Tensor.operator_div, Heap.alloc]
  · simp [Tensor.operator_div, Heap.alloc]
  · simp only [Tensor.operator_div, Heap.alloc, if_pos, Tensor.new_grad]
  · simp [Tensor.operator_div, Heap.alloc, Tensor.new]
  · intro hk
    have hne : ¬ (h.cell a).cols ≠ (h.cell b).rows := fun hn => hn hk
    refine ⟨?_, ?_, ?_, ?_, ?_⟩
    · simp [Tensor.operator_mul, hk, Heap.alloc]
    · simp [Tensor.operator_mul, hk, Heap.alloc]
    · simp [Tensor.operator_mul, hk, Heap.alloc]
    · simp only [Tensor.operator_mul, if_neg hne, Heap.alloc, if_pos, Tensor.new_grad]
    · simp [Tensor.operator_mul, hk, Heap.alloc]
  · intro hk
    have hg : ¬ ((h.cell a).cols ≠ 1 ∨ (h.cell b).cols ≠ 1 ∨
        (h.cell a).rows ≠ (h.cell b).rows) := by
      rcases hk with ⟨h1, h2, h3⟩
      simp [h1, h2, h3]
    refine ⟨?_, ?_, ?_, ?_, ?_⟩
    · simp only [Tensor.operator_caret, if_neg hg, Heap.alloc]
    · simp only [Tensor.operator_caret, if_neg hg, Heap.alloc, if_pos]
    · simp only [Tensor.operator_caret, if_neg hg, Heap.alloc, if_pos]
    · simp only [Tensor.operator_caret, if_neg hg, Heap.alloc, if_pos, Tensor.new_grad]
    · simp only [Tensor.operator_caret, if_neg hg, Heap.alloc, if_pos]
  · simp [Tensor.lekyrelu, Heap.alloc]
  · simp [Tensor.lekyrelu, Heap.alloc, Tensor.new]
  · simp only [Tensor.lekyrelu, Heap.alloc, if_pos, Tensor.new_grad]
  · simp [Tensor.lekyrelu, Heap.alloc]
  · intro rows cols input_data name
    exact ⟨rfl, rfl, Tensor.new_grad rows cols _ name, rfl⟩

/-- C19, at a concrete input: the product of the 2 x 3 and the 3 x 2 leaf of
`heapA23B32` and the dot product of the two columns of `heapUV`. -/
theorem operator_result_edges_witness :
    ((heapA23B32 ℚ).cell 0).cols = ((heapA23B32 ℚ).cell 1).rows ∧
    ((Tensor.operator_mul (heapA23B32 ℚ) 0 1).1.cell (heapA23B32 ℚ).next).left = some 0 ∧
    ((Tensor.operator_mul (heapA23B32 ℚ) 0 1).1.cell (heapA23B32 ℚ).next).right = some 1 ∧
    ((Tensor.operator_mul (heapA23B32 ℚ) 0 1).1.cell (heapA23B32 ℚ).next)._backward
      = some Rule.backmul ∧
    ((Tensor.operator_caret (heapUV ℚ) 0 1).1.cell (heapUV ℚ).next)._backward
      = some Rule.backdot :=
  ⟨by decide,
    ((operator_result_edges (heapA23B32 ℚ) 0 1 0).2.2.2.1 (by decide)).2.1,
    ((operator_result_edges (heapA23B32 ℚ) 0 1 0).2.2.2.1 (by decide)).2.2.1,
    ((operator_result_edges (heapA23B32 ℚ) 0 1 0).2.2.2.1 (by decide)).2.2.2.2,
    ((operator_result_edges (heapUV ℚ) 0 1 0).2.2.2.2.1 (by decide)).2.2.2.2⟩

/-! ### C14 - C17: the traversal and the backward pass -/

/-- The method `backward`, given a depth bound of at least 2: the rule of the root, if
it has one, then the clearing of the root. -/
theorem backward_eq_root (F : FloatOps α) (h : Heap α) (n root : Nat) :
    Tensor.backward F (n + 2) h root =
      match (h.cell root)._backward with
      | some rule => (Tensor.call_backward F rule h root).map (fun h1 => h1.clear root)
      | none => some (h.clear root) := by
  simp only [Tensor.backward, visit_tensor_root, List.reverse_cons, List.reverse_nil,
    List.nil_append, backward_rules]
  cases hb : (h.cell root)._backward with
  | none => simp [backward_rules]
  | some rule =>
    cases hc : Tensor.call_backward F rule h root with
    | none => simp [hc]
    | some h1 => simp [hc]

/-- The call `clip_gradient(p->grad, ...)` writes a gradient buffer only. -/
theorem Heap.gradOnly_clip (F : FloatOps α) (h : Heap α) (p : Nat) :
    Heap.gradOnly h (Heap.clip F h p) := by
  refine ⟨rfl, fun q => ?_⟩
  by_cases hq : q = p
  · subst hq; simp [Heap.clip]
  · simp [Heap.clip, hq]

/-- The rule `backadd` writes gradient buffers only, whatever the node and its
children are. -/
theorem backadd_gradOnly (F : FloatOps α) (h : Heap α) (s : Nat) :
    Heap.gradOnly h (Tensor.backadd F h s) := by
  unfold Tensor.backadd
  have h1 : Heap.gradOnly h (match (h.cell s).left with
      | some l =>
        Heap.clip F (forRange (h.cell s).rows (fun i st => forRange (h.cell s).cols
          (fun j st => st.setGrad l i j ((st.cell l).grad i j + (st.cell s).grad i j)) st) h) l
      | none => h) := by
    cases (h.cell s).left with
    | none => exact Heap.gradOnly_refl h
    | some l =>
      exact Heap.gradOnly_trans (gradOnly_loop2 h l _ _ _) (Heap.gradOnly_clip F _ l)
  simp only
  split
  · exact Heap.gradOnly_trans h1
      (Heap.gradOnly_trans (gradOnly_loop2 _ _ _ _ _) (Heap.gradOnly_clip F _ _))
  · exact h1

/-- The rule `backsub` writes gradient buffers only. -/
theorem backsub_gradOnly (F : FloatOps α) (h : Heap α) (s : Nat) :
    Heap.gradOnly h (Tensor.backsub F h s) := by
  unfold Tensor.backsub
  have h1 : Heap.gradOnly h (match (h.cell s).left with
      | some l =>
        Heap.clip F (forRange (h.cell s).rows (fun i st => forRange (h.cell s).cols
          (fun j st => st.setGrad l i j ((st.cell l).grad i j + (st.cell s).grad i j)) st) h) l
      | none => h) := by
    cases (h.cell s).left with
    | none => exact Heap.gradOnly_refl h
    | some l =>
      exact Heap.gradOnly_trans (gradOnly_loop2 h l _ _ _) (Heap.gradOnly_clip F _ l)
  simp only
  split
  · exact Heap.gradOnly_trans h1
      (Heap.gradOnly_trans (gradOnly_loop2 _ _ _ _ _) (Heap.gradOnly_clip F _ _))
  · exact h1

/-- The rule `backmul`, when it returns, has written gradient buffers only. -/
theorem backmul_gradOnly (F : FloatOps α) (h h' : Heap α) (s : Nat)
    (hrun : Tensor.backmul F h s = some h') : Heap.gradOnly h h' := by
  unfold Tensor.backmul at hrun
  split at hrun
  · simp only [Option.some.injEq] at hrun
    subst hrun
    exact Heap.gradOnly_trans
      (Heap.gradOnly_trans (gradOnly_loop3 h _ _ _ _ _) (Heap.gradOnly_clip F _ _))
      (Heap.gradOnly_trans (gradOnly_loop3 _ _ _ _ _ _) (Heap.gradOnly_clip F _ _))
  · simp only [Option.some.injEq] at hrun
    subst hrun
    exact Heap.gradOnly_refl h
  · exact absurd hrun (by simp)

/-- The rule `backdot`, when it returns, has written gradient buffers only. -/
theorem backdot_gradOnly (F : FloatOps α) (h h' : Heap α) (s : Nat)
    (hrun : Tensor.backdot F h s = some h') : Heap.gradOnly h h' := by
  unfold Tensor.backdot at hrun
  split at hrun
  · simp only [Option.some.injEq] at hrun
    subst hrun
    exact Heap.gradOnly_trans
      (Heap.gradOnly_trans (gradOnly_loop1 h _ _ _) (Heap.gradOnly_clip F _ _))
      (Heap.gradOnly_trans (gradOnly_loop1 _ _ _ _) (Heap.gradOnly_clip F _ _))
  · simp only [Option.some.injEq] at hrun
    subst hrun
    exact Heap.gradOnly_refl h
  · exact absurd hrun (by simp)

/-- The rule `backleakyrelu` writes gradient buffers only. -/
theorem backleakyrelu_gradOnly (F : FloatOps α) (h : Heap α) (s : Nat) :
    Heap.gradOnly h (Tensor.backleakyrelu F h s) := by
  unfold Tensor.backleakyrelu
  split
  · unfold Tensor.backleakyrelu_loop
    exact Heap.gradOnly_trans (gradOnly_loop2 h _ _ _ _) (Heap.gradOnly_clip F _ _)
  · exact Heap.gradOnly_refl h

/-- Every rule, when it returns, has written gradient buffers only. -/
theorem call_backward_gradOnly (F : FloatOps α) (rule : Rule) (h h' : Heap α) (p : Nat)
    (hrun : Tensor.call_backward F rule h p = some h') : Heap.gradOnly h h' := by
  cases rule with
  | backadd =>
    simp only [Tensor.call_backward, Option.some.injEq] at hrun
    subst hrun; exact backadd_gradOnly F h p
  | backsub =>
    simp only [Tensor.call_backward, Option.some.injEq] at hrun
    subst hrun; exact backsub_gradOnly F h p
  | backmul => exact backmul_gradOnly F h h' p hrun
  | backdot => exact backdot_gradOnly F h h' p hrun
  | backleakyrelu =>
    simp only [Tensor.call_backward, Option.some.injEq] at hrun
    subst hrun; exact backleakyrelu_gradOnly F h p

/-- The loop of `backward` that calls the rules, when it returns, has written gradient
buffers only. -/
theorem backward_rules_gradOnly (F : FloatOps α) (l : List Nat) :
    ∀ h h' : Heap α, backward_rules F l h = some h' → Heap.gradOnly h h' := by
  induction l with
  | nil =>
    intro h h' hrun
    simp only [backward_rules, Option.some.injEq] at hrun
    subst hrun
    exact Heap.gradOnly_refl h
  | cons p rest ih =>
    intro h h' hrun
    rw [backward_rules] at hrun
    split at hrun
    · split at hrun
      · rename_i h1 hc
        exact Heap.gradOnly_trans (call_backward_gradOnly F _ h h1 p hc) (ih h1 h' hrun)
      · exact absurd hrun (by simp)
    · exact ih h h' hrun

/-- The method `backward`, when it returns, has written no shape and no value buffer. -/
theorem backward_sameValues (F : FloatOps α) (fuel : Nat) (h h' : Heap α) (root : Nat)
    (hrun : Tensor.backward F fuel h root = some h') : Heap.sameValues h h' := by
  unfold Tensor.backward at hrun
  split at hrun
  · exact absurd hrun (by simp)
  · split at hrun
    · exact absurd hrun (by simp)
    · rename_i s _ h1 hr
      simp only [Option.some.injEq] at hrun
      subst hrun
      exact Heap.sameValues_trans
        (Heap.sameValues_of_gradOnly (backward_rules_gradOnly F _ h h1 hr))
        (sameValues_clear_all _ h1)

/-- The rules `backmul` and `backdot` return when the two child handles of the node are
both null or both non-null. -/
theorem call_backward_returns (F : FloatOps α) (rule : Rule) (h : Heap α) (p : Nat)
    (hsafe : rule = Rule.backmul ∨ rule = Rule.backdot →
      (h.cell p).left.isSome = (h.cell p).right.isSome) :
    ∃ h', Tensor.call_backward F rule h p = some h' := by
  cases rule with
  | backadd => exact ⟨_, rfl⟩
  | backsub => exact ⟨_, rfl⟩
  | backleakyrelu => exact ⟨_, rfl⟩
  | backmul =>
    have hs := hsafe (Or.inl rfl)
    simp only [Tensor.call_backward, Tensor.backmul]
    cases hl : (h.cell p).left <;> cases hr : (h.cell p).right <;> simp [hl, hr] at hs ⊢
  | backdot =>
    have hs := hsafe (Or.inr rfl)
    simp only [Tensor.call_backward, Tensor.backdot]
    cases hl : (h.cell p).left <;> cases hr : (h.cell p).right <;> simp [hl, hr] at hs ⊢

/-- C17. Every backward rule, when it returns, has written gradient buffers only
(shape, value buffer, children, rule tag and label of every node are as before); the
clearing of a node writes no shape and no value buffer; hence after `backward` every
node, every leaf included, has the shape and the value buffer it had before. The method
does return, given a depth bound of at least 2, unless the rule of the root is `backmul`
or `backdot` and exactly one child handle of the root is null. -/
theorem backward_frame (F : FloatOps α) (h : Heap α) (root : Nat) :
    (∀ rule p h', Tensor.call_backward F rule h p = some h' →
      h'.next = h.next ∧ ∀ q, (h'.cell q).rows = (h.cell q).rows ∧
        (h'.cell q).cols = (h.cell q).cols ∧ (h'.cell q).data = (h.cell q).data ∧
        (h'.cell q).left = (h.cell q).left ∧ (h'.cell q).right = (h.cell q).right ∧
        (h'.cell q)._backward = (h.cell q)._backward ∧ (h'.cell q).name = (h.cell q).name) ∧
    (∀ p q, ((h.clear p).cell q).rows = (h.cell q).rows ∧
      ((h.clear p).cell q).cols = (h.cell q).cols ∧
      ((h.clear p).cell q).data = (h.cell q).data) ∧
    (∀ fuel h', Tensor.backward F fuel h root = some h' →
      ∀ q, (h'.cell q).rows = (h.cell q).rows ∧ (h'.cell q).cols = (h.cell q).cols ∧
        (h'.cell q).data = (h.cell q).data) ∧
    (∀ n, ((h.cell root)._backward = some Rule.backmul ∨
        (h.cell root)._backward = some Rule.backdot →
        (h.cell root).left.isSome = (h.cell root).right.isSome) →
      ∃ h', Tensor.backward F (n + 2) h root = some h') := by
  refine ⟨fun rule p h' hrun => call_backward_gradOnly F rule h h' p hrun,
    fun p q => Heap.sameValues_clear h p q,
    fun fuel h' hrun => backward_sameValues F fuel h h' root hrun, ?_⟩
  intro n hsafe
  rw [backward_eq_root]
  cases hb : (h.cell root)._backward with
  | none => exact ⟨_, rfl⟩
  | some rule =>
    obtain ⟨h1, h1run⟩ := call_backward_returns F rule h root (by
      intro hr
      apply hsafe
      rcases hr with hr | hr
      · left; rw [hb, hr]
      · right; rw [hb, hr])
    exact ⟨h1.clear root, by simp [h1run]⟩

/-- C17, at a concrete input: `backward` on the root of the diamond returns, and the
leaf `L` holds the value 1/4 before and after. -/
theorem backward_frame_witness :
    ((heapDiamond ℝ).cell 5)._backward = some Rule.backmul ∧
    ((heapDiamond ℝ).cell 5).left.isSome = ((heapDiamond ℝ).cell 5).right.isSome ∧
    ((heapDiamond ℝ).cell 0).data 0 0 = 1 / 4 ∧
    ∃ h', Tensor.backward ⟨fun _ => true, Real.sqrt⟩ 2 (heapDiamond ℝ) 5 = some h' ∧
      (h'.cell 0).data 0 0 = 1 / 4 := by
  have hd : ((heapDiamond ℝ).cell 0).data 0 0 = 1 / 4 := by
    simp [heapDiamond, Heap.withGrad, Tensor.operator_mul, Tensor.operator_add, Heap.leaf,
      Heap.alloc, Heap.empty, Tensor.new_data_some, Buf.ofLists, Tensor.new_rows,
      Tensor.new_cols]
  obtain ⟨h', hrun⟩ := (backward_frame ⟨fun _ => true, Real.sqrt⟩ (heapDiamond ℝ) 5).2.2.2 0
    (fun _ => by decide)
  refine ⟨by decide, by decide, hd, h', hrun, ?_⟩
  rw [((backward_frame ⟨fun _ => true, Real.sqrt⟩ (heapDiamond ℝ) 5).2.2.1 2 h' hrun 0).2.2, hd]

/-- C14 (the code at the failing input). In the diamond `root = (L + A) * (L + B)`
the leaf `L` (address 0) is reachable from `root` (address 5) through both sums
(addresses 3 and 4), yet the traversal of `backward` returns the sequence that holds
`root` alone: once `root` is in `visited`, `find` succeeds for every non-null handle. -/
theorem visit_tensor_diamond :
    ((heapDiamond ℚ).cell 5).left = some 3 ∧ ((heapDiamond ℚ).cell 5).right = some 4 ∧
    ((heapDiamond ℚ).cell 3).left = some 0 ∧ ((heapDiamond ℚ).cell 3).right = some 1 ∧
    ((heapDiamond ℚ).cell 4).left = some 0 ∧ ((heapDiamond ℚ).cell 4).right = some 2 ∧
    set_find [some 5] (some 3) = some (some 5) ∧
    visit_tensor (heapDiamond ℚ) 6 (some 5) ([], []) = some ([some 5], [5]) :=
  ⟨by decide, by decide, by decide, by decide, by decide, by decide, set_find_singleton 5 3,
    visit_tensor_root (heapDiamond ℚ) 4 5⟩

/-- The heap that `backward` leaves on the diamond, given the heap that `backmul`
leaves. -/
theorem backward_diamond (F : FloatOps α) :
    ∃ h1, Tensor.backmul F (heapDiamond α) 5 = some h1 ∧
      Tensor.backward F 6 (heapDiamond α) 5 = some (h1.clear 5) := by
  have hb : ((heapDiamond α).cell 5)._backward = some Rule.backmul := by
    simp [heapDiamond, Heap.withGrad, Tensor.operator_mul, Tensor.operator_add, Heap.leaf,
      Heap.alloc, Heap.empty, Tensor.new_rows, Tensor.new_cols]
  obtain ⟨h1, h1run⟩ := call_backward_returns F Rule.backmul (heapDiamond α) 5 (by
    intro _
    simp [heapDiamond, Heap.withGrad, Tensor.operator_mul, Tensor.operator_add, Heap.leaf,
      Heap.alloc, Heap.empty, Tensor.new_rows, Tensor.new_cols])
  refine ⟨h1, h1run, ?_⟩
  rw [show (6 : Nat) = 4 + 2 from rfl, backward_eq_root, hb]
  simp only [Tensor.call_backward] at h1run ⊢
  rw [h1run]
  rfl

/-- C16 (the code at the failing input). After `backward` on the root of the
diamond, `root` (address 5) has no children and no rule, but the internal nodes `L + A`
(address 3) and `L + B` (address 4), both reachable from `root`, still have their
children and the rule `backadd`. -/
theorem backward_clears_root_only :
    ∃ h', Tensor.backward ⟨fun _ => true, Real.sqrt⟩ 6 (heapDiamond ℝ) 5 = some h' ∧
      (h'.cell 5).left = none ∧ (h'.cell 5).right = none ∧ (h'.cell 5)._backward = none ∧
      (h'.cell 3).left = some 0 ∧ (h'.cell 3).right = some 1 ∧
      (h'.cell 3)._backward = some Rule.backadd ∧
      (h'.cell 4).left = some 0 ∧ (h'.cell 4).right = some 2 ∧
      (h'.cell 4)._backward = some Rule.backadd := by
  obtain ⟨h1, h1run, hback⟩ := backward_diamond (⟨fun _ => true, Real.sqrt⟩ : FloatOps ℝ)
  have hg := backmul_gradOnly _ _ _ _ h1run
  refine ⟨_, hback, ?_, ?_, ?_, ?_, ?_, ?_, ?_, ?_, ?_⟩
  · simp [Heap.clear]
  · simp [Heap.clear]
  · simp [Heap.clear]
  · rw [show (h1.clear 5).cell 3 = h1.cell 3 from by simp [Heap.clear], (hg.2 3).2.2.2.1]
    decide
  · rw [show (h1.clear 5).cell 3 = h1.cell 3 from by simp [Heap.clear], (hg.2 3).2.2.2.2.1]
    decide
  · rw [show (h1.clear 5).cell 3 = h1.cell 3 from by simp [Heap.clear], (hg.2 3).2.2.2.2.2.1]
    decide
  · rw [show (h1.clear 5).cell 4 = h1.cell 4 from by simp [Heap.clear], (hg.2 4).2.2.2.1]
    decide
  · rw [show (h1.clear 5).cell 4 = h1.cell 4 from by simp [Heap.clear], (hg.2 4).2.2.2.2.1]
    decide
  · rw [show (h1.clear 5).cell 4 = h1.cell 4 from by simp [Heap.clear], (hg.2 4).2.2.2.2.2.1]
    decide

/-- The value of `L + A` in the diamond. -/
theorem diamond_data3 : ((heapDiamond α).cell 3).data 0 0 = 1 / 2 := by
  simp [heapDiamond, Heap.withGrad, Tensor.operator_mul, Tensor.operator_add, Heap.leaf,
    Heap.alloc, Heap.empty, Tensor.new, forRange, List.range_succ, Buf.set, Buf.ofLists]
  norm_num

/-- The value of `L + B` in the diamond. -/
theorem diamond_data4 : ((heapDiamond α).cell 4).data 0 0 = 1 / 2 := by
  simp [heapDiamond, Heap.withGrad, Tensor.operator_mul, Tensor.operator_add, Heap.leaf,
    Heap.alloc, Heap.empty, Tensor.new, forRange, List.range_succ, Buf.set, Buf.ofLists]
  norm_num

/-- The gradient that the caller wrote into the root of the diamond. -/
theorem diamond_grad5 : ((heapDiamond α).cell 5).grad 0 0 = 1 / 2 := by
  simp [heapDiamond, Heap.withGrad, Buf.ofLists]

/-- Every node of the diamond but the root has an all-zero gradient buffer. -/
theorem diamond_grad_zero (p : Nat) (hp : p < 5) :
    ((heapDiamond α).cell p).grad = fun _ _ => 0 := by
  have h5 : p ≠ 5 := by omega
  interval_cases p <;>
    simp [heapDiamond, Heap.withGrad, Tensor.operator_mul, Tensor.operator_add, Heap.leaf,
      Heap.alloc, Heap.empty, Tensor.new_grad, Tensor.new_rows, Tensor.new_cols]

/-- With the real square root, `clip_gradient` leaves the entry of a 1 x 1 buffer as
it is when its square plus `EPSILON` does not exceed 1. -/
theorem real_clip_one_by_one (g : Buf ℝ) (v : ℝ) (hv : g 0 0 = v)
    (hsmall : v * v + EPSILON ≤ 1) :
    clip_gradient ⟨fun _ => true, Real.sqrt⟩ g 1 1 0 0 = v := by
  have hcongr := clip_gradient_congr ⟨fun _ => true, Real.sqrt⟩ g (fun _ _ => v) 1 1
    (by
      intro i j hi hj
      have hi0 : i = 0 := by omega
      have hj0 : j = 0 := by omega
      rw [hi0, hj0, hv]) 0 0 (by decide) (by decide)
  rw [hcongr]
  have hsum : sumsq (fun _ _ => v : Buf ℝ) 1 1 = v * v := by
    simp [sumsq]
  rw [clip_gradient_in_band _ _ _ _ (fun _ _ _ _ => rfl)
    (by
      rw [hsum, not_lt]
      exact (Real.sqrt_le_left (by norm_num [CLIP_NORM])).2 (by simpa [CLIP_NORM] using hsmall))
    (real_norm_ge_min _ 1 1)]

/-- C15 (the code at the failing input). On the diamond over 1 x 1 leaves
`L = A = B = (1/4)` with root gradient `(1/2)`, all other gradient buffers zero,
`backward` returns and leaves `D1 = (1/4)` on `L + A` and `D2 = (1/4)` on `L + B`, but
the gradient of `L` is still 0, while `clip_gradient (clip_gradient D2 + D1)` is
`(1/2)`. -/
theorem backward_diamond_fan_in :
    ∃ h', Tensor.backward ⟨fun _ => true, Real.sqrt⟩ 6 (heapDiamond ℝ) 5 = some h' ∧
      (h'.cell 0).grad 0 0 = 0 ∧
      (h'.cell 3).grad 0 0 = 1 / 4 ∧ (h'.cell 4).grad 0 0 = 1 / 4 ∧
      clip_gradient ⟨fun _ => true, Real.sqrt⟩
        (fun i j => clip_gradient ⟨fun _ => true, Real.sqrt⟩ (h'.cell 4).grad 1 1 i j +
          (h'.cell 3).grad i j) 1 1 0 0 = 1 / 2 := by
  obtain ⟨h1, h1run, hback⟩ := backward_diamond (⟨fun _ => true, Real.sqrt⟩ : FloatOps ℝ)
  rw [backmul_eq _ (heapDiamond ℝ) 5 3 4 (by decide) (by decide) (by decide) (by decide)
    (by decide)] at h1run
  simp only [Option.some.injEq] at h1run
  have hc0 : (h1.clear 5).cell 0 = (heapDiamond ℝ).cell 0 := by
    rw [← h1run]
    simp [Heap.clear, Heap.withGrad]
  have hr5 : ((heapDiamond ℝ).cell 5).rows = 1 := by decide
  have hc5 : ((heapDiamond ℝ).cell 5).cols = 1 := by decide
  have hr3 : ((heapDiamond ℝ).cell 3).rows = 1 := by decide
  have hc3 : ((heapDiamond ℝ).cell 3).cols = 1 := by decide
  have hr4 : ((heapDiamond ℝ).cell 4).rows = 1 := by decide
  have hc4 : ((heapDiamond ℝ).cell 4).cols = 1 := by decide
  have hg3 : ((h1.clear 5).cell 3).grad 0 0 = 1 / 4 := by
    rw [← h1run]
    simp only [Heap.clear, Heap.withGrad, hr5, hc5, hr3, hc3, hr4, hc4]
    simp only [show (3 : Nat) ≠ 5 from by decide, show (3 : Nat) ≠ 4 from by decide, if_false,
      if_true]
    apply real_clip_one_by_one
    · simp [diamond_grad_zero 3 (by decide), diamond_grad5, diamond_data4]
      norm_num
    · norm_num [EPSILON]
  have hg4 : ((h1.clear 5).cell 4).grad 0 0 = 1 / 4 := by
    rw [← h1run]
    simp only [Heap.clear, Heap.withGrad, hr5, hc5, hr3, hc3, hr4, hc4]
    simp only [show (4 : Nat) ≠ 5 from by decide, show (4 : Nat) ≠ 3 from by decide, if_false,
      if_true]
    apply real_clip_one_by_one
    · simp [diamond_grad_zero 4 (by decide), diamond_grad5, diamond_data3]
      norm_num
    · norm_num [EPSILON]
  refine ⟨_, hback, ?_, hg3, hg4, ?_⟩
  · rw [hc0, diamond_grad_zero 0 (by decide)]
  · apply real_clip_one_by_one
    · rw [real_clip_one_by_one _ (1 / 4) hg4 (by norm_num [EPSILON]), hg3]
      norm_num
    · norm_num [EPSILON]

/-! ### C21: assignment and copy of nodes -/

/-- The node that the assignment `*self = t` leaves at `self`, for distinct nodes. -/
theorem operator_assign_cell (h : Heap α) (self t : Nat) (hne : self ≠ t) :
    (Tensor.operator_assign h self t).cell self =
      { rows := (h.cell t).rows
        cols := (h.cell t).cols
        left := (h.cell t).left
        right := (h.cell t).right
        data := fun a b =>
          if a < (h.cell t).rows ∧ b < (h.cell t).cols then (h.cell t).data a b else 0
        grad := fun _ _ => 0
        _backward := (h.cell t)._backward
        name := (h.cell t).name } := by
  simp only [Tensor.operator_assign, if_neg hne, if_pos, Tensor.new_rows, Tensor.new_cols,
    Tensor.new_grad, Tensor.new_data_none]
  rw [memcpy_rows]

/-- C21. For distinct nodes `a` and `b`, after `a = b` (`Tensor::operator=`) the node
`a` has the shape of `b`, the value entries of `b`, the child handles of `b` (the same
addresses, so the children are shared), the rule tag and the label of `b`, and an
all-zero gradient buffer; every other node, `b` included, is as before. The copy
constructor builds a new node with the shape, value entries, child handles, rule tag and
label of `b` and with the gradient entries of `b`; every other node, `b` included, is as
before. -/
theorem assign_and_copy (h : Heap α) (a b : Nat) (hab : a ≠ b) (hb : b < h.next)
    (junk_data junk_grad : Buf α) :
    ((Tensor.operator_assign h a b).cell a).rows = (h.cell b).rows ∧
    ((Tensor.operator_assign h a b).cell a).cols = (h.cell b).cols ∧
    (∀ i j, i < (h.cell b).rows → j < (h.cell b).cols →
      ((Tensor.operator_assign h a b).cell a).data i j = (h.cell b).data i j) ∧
    ((Tensor.operator_assign h a b).cell a).left = (h.cell b).left ∧
    ((Tensor.operator_assign h a b).cell a).right = (h.cell b).right ∧
    ((Tensor.operator_assign h a b).cell a)._backward = (h.cell b)._backward ∧
    ((Tensor.operator_assign h a b).cell a).name = (h.cell b).name ∧
    (∀ i j, ((Tensor.operator_assign h a b).cell a).grad i j = 0) ∧
    (∀ q, q ≠ a → (Tensor.operator_assign h a b).cell q = h.cell q) ∧
    (Tensor.operator_assign h a b).cell b = h.cell b ∧
    (Tensor.operator_assign h a b).next = h.next ∧
    (Tensor.new_copy h b junk_data junk_grad).2 = h.next ∧
    ((Tensor.new_copy h b junk_data junk_grad).1.cell h.next).rows = (h.cell b).rows ∧
    ((Tensor.new_copy h b junk_data junk_grad).1.cell h.next).cols = (h.cell b).cols ∧
    (∀ i j, i < (h.cell b).rows → j < (h.cell b).cols →
      ((Tensor.new_copy h b junk_data junk_grad).1.cell h.next).data i j =
        (h.cell b).data i j) ∧
    ((Tensor.new_copy h b junk_data junk_grad).1.cell h.next).left = (h.cell b).left ∧
    ((Tensor.new_copy h b junk_data junk_grad).1.cell h.next).right = (h.cell b).right ∧
    ((Tensor.new_copy h b junk_data junk_grad).1.cell h.next)._backward =
      (h.cell b)._backward ∧
    ((Tensor.new_copy h b junk_data junk_grad).1.cell h.next).name = (h.cell b).name ∧
    (∀ i j, i < (h.cell b).rows → j < (h.cell b).cols →
      ((Tensor.new_copy h b junk_data junk_grad).1.cell h.next).grad i j =
        (h.cell b).grad i j) ∧
    (∀ q, q ≠ h.next → (Tensor.new_copy h b junk_data junk_grad).1.cell q = h.cell q) ∧
    (Tensor.new_copy h b junk_data junk_grad).1.cell b = h.cell b := by
  have hother : ∀ q, q ≠ a → (Tensor.operator_assign h a b).cell q = h.cell q := by
    intro q hq
    simp [Tensor.operator_assign, hab, hq]
  have hcopy : ∀ q, q ≠ h.next →
      (Tensor.new_copy h b junk_data junk_grad).1.cell q = h.cell q := by
    intro q hq
    simp [Tensor.new_copy, Heap.alloc, hq]
  rw [operator_assign_cell h a b hab, new_copy_cell]
  refine ⟨rfl, rfl, ?_, rfl, rfl, rfl, rfl, fun _ _ => rfl, hother, hother b (Ne.symm hab), ?_,
    rfl, rfl, rfl, ?_, rfl, rfl, rfl, rfl, ?_, hcopy, hcopy b (by omega)⟩
  · intro i j hi hj
    simp [hi, hj]
  · simp [Tensor.operator_assign, hab]
  · intro i j hi hj
    simp [hi, hj]
  · intro i j hi hj
    simp [hi, hj]

/-- C21, at a concrete input: in `heapSum` the node `S = A + B` (address 2) has the
children `A` and `B` (addresses 0 and 1), the rule `backadd`, the value 6 and the
gradient 1/2 at `(0, 0)`. After `A = S` the node `A` has the children `A` and `B`, the
rule `backadd`, the value 6 and the gradient 0; the copy of `S` has the gradient 1/2;
`S` is as before. -/
theorem assign_and_copy_witness :
    ((heapSum ℚ).cell 2).left = some 0 ∧ ((heapSum ℚ).cell 2).right = some 1 ∧
    ((heapSum ℚ).cell 2)._backward = some Rule.backadd ∧
    ((heapSum ℚ).cell 2).data 0 0 = 6 ∧ ((heapSum ℚ).cell 2).grad 0 0 = 1 / 2 ∧
    ((Tensor.operator_assign (heapSum ℚ) 0 2).cell 0).left = some 0 ∧
    ((Tensor.operator_assign (heapSum ℚ) 0 2).cell 0).right = some 1 ∧
    ((Tensor.operator_assign (heapSum ℚ) 0 2).cell 0)._backward = some Rule.backadd ∧
    ((Tensor.operator_assign (heapSum ℚ) 0 2).cell 0).data 0 0 = 6 ∧
    ((Tensor.operator_assign (heapSum ℚ) 0 2).cell 0).grad 0 0 = 0 ∧
    (Tensor.operator_assign (heapSum ℚ) 0 2).cell 2 = (heapSum ℚ).cell 2 ∧
    ((Tensor.new_copy (heapSum ℚ) 2 (fun _ _ => 7) (fun _ _ => 7)).1.cell 3).data 0 0 = 6 ∧
    ((Tensor.new_copy (heapSum ℚ) 2 (fun _ _ => 7) (fun _ _ => 7)).1.cell 3).grad 0 0
      = 1 / 2 ∧
    (Tensor.new_copy (heapSum ℚ) 2 (fun _ _ => 7) (fun _ _ => 7)).1.cell 2
      = (heapSum ℚ).cell 2 := by
  have hd : ((heapSum ℚ).cell 2).data 0 0 = 6 := by
    have := operator_add_data (heapA22B22 ℚ) 0 1
    rw [show (heapA22B22 ℚ).next = 2 from rfl] at this
    simp only [heapSum, Heap.withGrad, if_pos, this]
    simp [heapA22B22, Heap.leaf, Heap.alloc, Heap.empty, Tensor.new_data_some, Buf.ofLists,
      Tensor.new_rows, Tensor.new_cols]
    norm_num
  have hg : ((heapSum ℚ).cell 2).grad 0 0 = 1 / 2 := by
    simp [heapSum, Heap.withGrad, Buf.ofLists]
  have hl : ((heapSum ℚ).cell 2).left = some 0 := by decide
  have hr : ((heapSum ℚ).cell 2).right = some 1 := by decide
  have hk : ((heapSum ℚ).cell 2)._backward = some Rule.backadd := by decide
  have hrows : (0 : Nat) < ((heapSum ℚ).cell 2).rows := by decide
  have hcols : (0 : Nat) < ((heapSum ℚ).cell 2).cols := by decide
  have hnext : (heapSum ℚ).next = 3 := rfl
  have T := assign_and_copy (heapSum ℚ) 0 2 (by decide) (by decide) (fun _ _ => 7)
    (fun _ _ => 7)
  rw [hnext] at T
  obtain ⟨-, -, t3, t4, t5, t6, -, t8, -, t10, -, -, -, -, t15, -, -, -, -, t20, -, t22⟩ := T
  exact ⟨hl, hr, hk, hd, hg, t4.trans hl, t5.trans hr, t6.trans hk,
    (t3 0 0 hrows hcols).trans hd, t8 0 0, t10, (t15 0 0 hrows hcols).trans hd,
    (t20 0 0 hrows hcols).trans hg, t22⟩

/-! ### C22: the operators of the wrapper `Value` -/

/-- The handles that the operators of `Value` read after the first statement, for
distinct objects `a` and `b`. -/
theorem Value.operands (vs : Nat → Value) (a b : Nat) (x y : Option Nat) (hab : a ≠ b)
    (hy : (vs b).ptr = y) :
    (Value.setPtr vs a x a).ptr = x ∧ (Value.setPtr vs a x b).ptr = y := by
  constructor
  · simp [Value.setPtr]
  · simp [Value.setPtr, Ne.symm hab, hy]

/-- C22 (amended). Let `a` and `b` be distinct `Value` objects, `a` with a current
node `p` and an origin node `o`, `b` with a current node `q`, and let `L` be `o` if `p`
has no rule tag and `p` otherwise. The first statement of every operator leaves `L` in
`a.ptr` (so `a` is rebound to its origin exactly when `p` has no rule tag, and is as
before otherwise), keeps `a.orig` and changes no other object, `b` included. Each of
`+`, `-`, `*`, `/`, `^` then returns what the operator of `Tensor` returns for the nodes
`L` and `q`, and `leakyrelu` what `lekyrelu` returns for `L`; the node built by `+`, `-`
and `/` has the left child `L` and the right child `q`, the node built by `leakyrelu`
the left child `L`. A node built by `/` has no rule tag, as a leaf has none. -/
theorem value_operand_selection (h : Heap α) (vs : Nat → Value) (a b p o q : Nat)
    (hab : a ≠ b) (hp : (vs a).ptr = some p) (ho : (vs a).orig = some o)
    (hq : (vs b).ptr = some q) (leaky : α) :
    ((h.cell p)._backward = none →
      Value.rebind h vs a = some (Value.setPtr vs a (some o))) ∧
    ((h.cell p)._backward ≠ none → Value.rebind h vs a = some vs) ∧
    (∀ L, L = (if (h.cell p)._backward = none then o else p) →
      Value.rebind h vs a = some (Value.setPtr vs a (some L)) ∧
      (Value.setPtr vs a (some L) a).ptr = some L ∧
      (Value.setPtr vs a (some L) a).orig = some o ∧
      (∀ c, c ≠ a → Value.setPtr vs a (some L) c = vs c) ∧
      Value.setPtr vs a (some L) b = vs b ∧
      Value.operator_add h vs a b = some (Value.setPtr vs a (some L),
        (Tensor.operator_add h L q).1,
        { ptr := some (Tensor.operator_add h L q).2, orig := none }) ∧
      Value.operator_sub h vs a b = some (Value.setPtr vs a (some L),
        (Tensor.operator_sub h L q).1,
        { ptr := some (Tensor.operator_sub h L q).2, orig := none }) ∧
      Value.operator_div h vs a b = some (Value.setPtr vs a (some L),
        (Tensor.operator_div h L q).1,
        { ptr := some (Tensor.operator_div h L q).2, orig := none }) ∧
      Value.operator_mul h vs a b = some (Value.setPtr vs a (some L),
        (Tensor.operator_mul h L q).1,
        match (Tensor.operator_mul h L q).2 with
        | Except.ok r => Except.ok { ptr := some r, orig := none }
        | Except.error e => Except.error e) ∧
      Value.operator_caret h vs a b = some (Value.setPtr vs a (some L),
        (Tensor.operator_caret h L q).1,
        match (Tensor.operator_caret h L q).2 with
        | Except.ok r => Except.ok { ptr := some r, orig := none }
        | Except.error e => Except.error e) ∧
      Value.leakyrelu h vs a leaky = some (Value.setPtr vs a (some L),
        (Tensor.lekyrelu h L leaky).1,
        { ptr := some (Tensor.lekyrelu h L leaky).2, orig := none }) ∧
      ((Tensor.operator_add h L q).1.cell (Tensor.operator_add h L q).2).left = some L ∧
      ((Tensor.operator_add h L q).1.cell (Tensor.operator_add h L q).2).right = some q ∧
      ((Tensor.operator_sub h L q).1.cell (Tensor.operator_sub h L q).2).left = some L ∧
      ((Tensor.operator_sub h L q).1.cell (Tensor.operator_sub h L q).2).right = some q ∧
      ((Tensor.operator_div h L q).1.cell (Tensor.operator_div h L q).2).left = some L ∧
      ((Tensor.operator_div h L q).1.cell (Tensor.operator_div h L q).2).right = some q ∧
      ((Tensor.lekyrelu h L leaky).1.cell (Tensor.lekyrelu h L leaky).2).left = some L ∧
      ((Tensor.operator_div h L q).1.cell (Tensor.operator_div h L q).2)._backward = none) := by
  have hre := Value.rebind_eq h vs a p o hp ho
  refine ⟨fun hk => by rw [hre, if_pos hk], fun hk => by
    rw [hre, if_neg hk, Value.setPtr_self vs a (some p) hp], ?_⟩
  intro L hL
  rw [← hL] at hre
  obtain ⟨ha1, hb1⟩ := Value.operands vs a b (some L) (some q) hab hq
  have hother : ∀ c, c ≠ a → Value.setPtr vs a (some L) c = vs c := by
    intro c hc
    simp [Value.setPtr, hc]
  refine ⟨hre, ha1, ?_, hother, hother b (Ne.symm hab), ?_, ?_, ?_, ?_, ?_, ?_, ?_, ?_, ?_,
    ?_, ?_, ?_, ?_, ?_⟩
  · simp [Value.setPtr, ho]
  · simp only [Value.operator_add, hre, ha1, hb1]
  · simp only [Value.operator_sub, hre, ha1, hb1]
  · simp only [Value.operator_div, hre, ha1, hb1]
  · simp only [Value.operator_mul, hre, ha1, hb1]
  · simp only [Value.operator_caret, hre, ha1, hb1]
  · simp only [Value.leakyrelu, hre, ha1]
  · simp [Tensor.operator_add, Heap.alloc]
  · simp [Tensor.operator_add, Heap.alloc]
  · simp [Tensor.operator_sub, Heap.alloc]
  · simp [Tensor.operator_sub, Heap.alloc]
  · simp [Tensor.operator_div, Heap.alloc]
  · simp [Tensor.operator_div, Heap.alloc]
  · simp [Tensor.lekyrelu, Heap.alloc]
  · simp [Tensor.operator_div, Heap.alloc, Tensor.new]

/-- C22, at a concrete input: after `x = x + y` the object `x` (address 0) has the sum
(node 2, rule `backadd`) as its current node and `X` (node 0) as its origin, and `x + y`
takes the left operand from node 2 and the right operand from `Y` (node 1). -/
theorem value_operand_selection_witness :
    ((heapXYS ℚ).2 0).ptr = some 2 ∧ ((heapXYS ℚ).2 0).orig = some 0 ∧
    ((heapXYS ℚ).2 1).ptr = some 1 ∧
    ((heapXYS ℚ).1.cell 2)._backward = some Rule.backadd ∧
    Value.rebind (heapXYS ℚ).1 (heapXYS ℚ).2 0 = some (heapXYS ℚ).2 ∧
    (Value.operator_add (heapXYS ℚ).1 (heapXYS ℚ).2 0 1).map
      (fun r => (r.1 0, r.1 1, r.2.2)) =
      some ((heapXYS ℚ).2 0, (heapXYS ℚ).2 1, { ptr := some 3, orig := none }) ∧
    ((Tensor.operator_add (heapXYS ℚ).1 2 1).1.cell 3).left = some 2 ∧
    ((Tensor.operator_add (heapXYS ℚ).1 2 1).1.cell 3).right = some 1 := by
  have hp : ((heapXYS ℚ).2 0).ptr = some 2 := by decide
  have ho : ((heapXYS ℚ).2 0).orig = some 0 := by decide
  have hq : ((heapXYS ℚ).2 1).ptr = some 1 := by decide
  have hk : ((heapXYS ℚ).1.cell 2)._backward = some Rule.backadd := by decide
  have T := value_operand_selection (heapXYS ℚ).1 (heapXYS ℚ).2 0 1 2 0 1 (by decide) hp ho hq 0
  have hL : (2 : Nat) = if ((heapXYS ℚ).1.cell 2)._backward = none then 0 else 2 := by
    rw [hk]; rfl
  obtain ⟨-, t2, t3⟩ := T
  obtain ⟨-, -, -, -, -, tadd, -, -, -, -, -, tl, tr, -⟩ := t3 2 hL
  have hs : Value.setPtr (heapXYS ℚ).2 0 (some 2) = (heapXYS ℚ).2 :=
    Value.setPtr_self _ 0 (some 2) hp
  refine ⟨hp, ho, hq, hk, t2 (by rw [hk]; simp), ?_, tl, tr⟩
  rw [tadd, hs]
  rfl

/-- C22 (the claim at a failing input). After `x = y` (`Value::operator=`) on the
objects of `heapXY`, the object `x` has the leaf `Y` (node 1, no rule tag) as its
current node and the leaf `X` (node 0) as its origin. In `x + x` the second operand `b`
is the object `x` itself, with the current node `Y`; the call rebinds it to `X`, and the
right child of the result is `X`, not `Y`. -/
theorem value_same_object_counterexample :
    ((Value.operator_assign (heapXY ℚ).2 0 1) 0).ptr = some 1 ∧
    ((Value.operator_assign (heapXY ℚ).2 0 1) 0).orig = some 0 ∧
    ((heapXY ℚ).1.cell 1)._backward = none ∧
    (Value.operator_add (heapXY ℚ).1 (Value.operator_assign (heapXY ℚ).2 0 1) 0 0).map
      (fun r => ((r.1 0).ptr, r.2.2.ptr, (r.2.1.cell 2).left, (r.2.1.cell 2).right)) =
      some (some 0, some 2, some 0, some 0) := by
  refine ⟨by decide, by decide, by decide, by decide⟩

/-! ### C23, C24: the stabiliser never amplifies -/

/-- With the real square root, the test `norm > CLIP_NORM` of `clip_gradient` holds
exactly when the sum of squares plus `EPSILON` exceeds 1. -/
theorem real_norm_gt_clip_iff (g : Buf ℝ) (r c : Nat) :
    Real.sqrt (sumsq g r c + EPSILON) > CLIP_NORM ↔ ¬ sumsq g r c + EPSILON ≤ 1 := by
  rw [not_le, gt_iff_lt]
  simp only [CLIP_NORM]
  rw [Real.lt_sqrt (by norm_num)]
  norm_num

/-- With the real square root, what `clip_gradient` returns for a buffer of finite
entries: the buffer itself when the sum of squares plus `EPSILON` is at most 1, and the
`r × c` part multiplied by `CLIP_NORM / norm` otherwise. -/
theorem real_clip_cases (F : FloatOps ℝ) (hsqrt : F.sqrt = Real.sqrt) (g : Buf ℝ) (r c : Nat)
    (hfin : ∀ i j, i < r → j < c → F.isfinite (g i j) = true) :
    (sumsq g r c + EPSILON ≤ 1 → clip_gradient F g r c = g) ∧
    (¬ sumsq g r c + EPSILON ≤ 1 → clip_gradient F g r c = fun a b =>
      if a < r ∧ b < c then g a b * (1 / Real.sqrt (sumsq g r c + EPSILON)) else g a b) := by
  constructor
  · intro hsmall
    apply clip_gradient_in_band F g r c hfin
    · rw [hsqrt, real_norm_gt_clip_iff]
      exact not_not.mpr hsmall
    · rw [hsqrt]
      exact real_norm_ge_min g r c
  · intro hbig
    have hb : F.sqrt (sumsq g r c + EPSILON) > CLIP_NORM := by
      rw [hsqrt]
      exact (real_norm_gt_clip_iff g r c).2 hbig
    rw [clip_gradient_of_big F g r c hfin hb, hsqrt]
    rfl

/-- C23. For a buffer of finite entries with sum of squares `S` and the real square
root: the sum that the first loop of `clip_gradient` returns is `S`; the function returns
the buffer unchanged when `S + EPSILON <= 1` and the `r × c` part multiplied by
`1 / sqrt (S + EPSILON)` otherwise; the norm `sqrt (S + EPSILON)` is at least
`MIN_GRAD_NORM`, so the test of the second branch fails; and no entry of the output has
a larger magnitude than the entry of the input. -/
theorem clip_gradient_never_amplifies (F : FloatOps ℝ) (hsqrt : F.sqrt = Real.sqrt)
    (g : Buf ℝ) (r c : Nat) (hfin : ∀ i j, i < r → j < c → F.isfinite (g i j) = true) :
    (sanitize_loop F g r c).2 = sumsq g r c ∧
    (sumsq g r c + EPSILON ≤ 1 → clip_gradient F g r c = g) ∧
    (¬ sumsq g r c + EPSILON ≤ 1 → clip_gradient F g r c = fun a b =>
      if a < r ∧ b < c then g a b * (1 / Real.sqrt (sumsq g r c + EPSILON)) else g a b) ∧
    MIN_GRAD_NORM ≤ Real.sqrt (sumsq g r c + EPSILON) ∧
    ¬ F.sqrt ((sanitize_loop F g r c).2 + EPSILON) < MIN_GRAD_NORM ∧
    ∀ i j, |clip_gradient F g r c i j| ≤ |g i j| := by
  have hsum : (sanitize_loop F g r c).2 = sumsq g r c := by
    rw [sanitize_loop_eq, sanitize_of_finite F g r c hfin]
  have hcases := real_clip_cases F hsqrt g r c hfin
  refine ⟨hsum, hcases.1, hcases.2, not_lt.mp (real_norm_ge_min g r c), ?_, ?_⟩
  · rw [hsum, hsqrt]
    exact real_norm_ge_min g r c
  · intro i j
    by_cases hsmall : sumsq g r c + EPSILON ≤ 1
    · rw [hcases.1 hsmall]
    · rw [hcases.2 hsmall]
      by_cases hin : i < r ∧ j < c
      · simp only [hin, and_self, if_true]
        have h1 : (1 : ℝ) < Real.sqrt (sumsq g r c + EPSILON) := by
          have := (real_norm_gt_clip_iff g r c).2 hsmall
          simpa [CLIP_NORM] using this
        rw [abs_mul, abs_of_pos (by positivity : (0 : ℝ) < 1 / Real.sqrt (sumsq g r c + EPSILON))]
        have hle : 1 / Real.sqrt (sumsq g r c + EPSILON) ≤ 1 := by
          rw [div_le_one (lt_trans one_pos h1)]
          exact h1.le
        calc |g i j| * (1 / Real.sqrt (sumsq g r c + EPSILON)) ≤ |g i j| * 1 :=
              mul_le_mul_of_nonneg_left hle (abs_nonneg _)
          _ = |g i j| := mul_one _
      · simp only [hin, if_false, le_refl]

/-- C23, at a concrete input: the 1 x 2 buffer `(3, 4)` (sum of squares 25) is
multiplied by `1 / sqrt (25 + EPSILON)`, and the 1 x 2 buffer `(3/5, 4/5)` (sum of
squares 1, norm above `CLIP_NORM`) is multiplied by `1 / sqrt (1 + EPSILON)`; the
1 x 1 buffer `(1/2)` is returned unchanged. -/
theorem clip_gradient_never_amplifies_witness :
    clip_gradient ⟨fun _ => true, Real.sqrt⟩ (Buf.ofLists [[3, 4]]) 1 2 0 0 =
      3 * (1 / Real.sqrt (25 + EPSILON)) ∧
    clip_gradient ⟨fun _ => true, Real.sqrt⟩ (Buf.ofLists [[3 / 5, 4 / 5]]) 1 2 0 1 =
      4 / 5 * (1 / Real.sqrt (1 + EPSILON)) ∧
    clip_gradient ⟨fun _ => true, Real.sqrt⟩ (Buf.ofLists [[1 / 2]]) 1 1 =
      (Buf.ofLists [[1 / 2]] : Buf ℝ) := by
  have hS1 : sumsq (Buf.ofLists [[3, 4]] : Buf ℝ) 1 2 = 25 := by
    simp [sumsq, Finset.sum_range_succ, Buf.ofLists]
    norm_num
  have hS2 : sumsq (Buf.ofLists [[3 / 5, 4 / 5]] : Buf ℝ) 1 2 = 1 := by
    simp [sumsq, Finset.sum_range_succ, Buf.ofLists]
    norm_num
  have hS3 : sumsq (Buf.ofLists [[1 / 2]] : Buf ℝ) 1 1 = 1 / 4 := by
    simp [sumsq, Finset.sum_range_succ, Buf.ofLists]
    norm_num
  refine ⟨?_, ?_, ?_⟩
  · rw [(clip_gradient_never_amplifies ⟨fun _ => true, Real.sqrt⟩ rfl (Buf.ofLists [[3, 4]])
      1 2 (fun _ _ _ _ => rfl)).2.2.1 (by rw [hS1]; norm_num [EPSILON]), hS1]
    simp [Buf.ofLists]
  · rw [(clip_gradient_never_amplifies ⟨fun _ => true, Real.sqrt⟩ rfl
      (Buf.ofLists [[3 / 5, 4 / 5]]) 1 2 (fun _ _ _ _ => rfl)).2.2.1
      (by rw [hS2]; norm_num [EPSILON]), hS2]
    simp [Buf.ofLists]
  · exact (clip_gradient_never_amplifies ⟨fun _ => true, Real.sqrt⟩ rfl (Buf.ofLists [[1 / 2]])
      1 1 (fun _ _ _ _ => rfl)).2.1 (by rw [hS3]; norm_num [EPSILON])

/-- C24. For a buffer of finite entries and the real square root, the output of
`clip_gradient` has a sum of squares strictly below 1 (its L2 norm stays below
`CLIP_NORM`), and every entry of the output is positive, negative or zero as the entry
of the input is. -/
theorem clip_gradient_below_threshold (F : FloatOps ℝ) (hsqrt : F.sqrt = Real.sqrt)
    (g : Buf ℝ) (r c : Nat) (hfin : ∀ i j, i < r → j < c → F.isfinite (g i j) = true) :
    sumsq (clip_gradient F g r c) r c < 1 ∧
    Real.sqrt (sumsq (clip_gradient F g r c) r c) < CLIP_NORM ∧
    ∀ i j, (0 < g i j → 0 < clip_gradient F g r c i j) ∧
      (g i j < 0 → clip_gradient F g r c i j < 0) ∧
      (g i j = 0 → clip_gradient F g r c i j = 0) := by
  have hcases := real_clip_cases F hsqrt g r c hfin
  have heps : (0 : ℝ) < EPSILON := by norm_num [EPSILON]
  have hlt : sumsq (clip_gradient F g r c) r c < 1 := by
    by_cases hsmall : sumsq g r c + EPSILON ≤ 1
    · rw [hcases.1 hsmall]
      linarith
    · exact (real_clip_norm_of_big F hsqrt g r c hfin
        ((real_norm_gt_clip_iff g r c).2 hsmall)).1
  refine ⟨hlt, ?_, ?_⟩
  · simp only [CLIP_NORM]
    rw [Real.sqrt_lt' one_pos]
    simpa using hlt
  · intro i j
    by_cases hsmall : sumsq g r c + EPSILON ≤ 1
    · rw [hcases.1 hsmall]
      exact ⟨id, id, id⟩
    · rw [hcases.2 hsmall]
      have h1 : (1 : ℝ) < Real.sqrt (sumsq g r c + EPSILON) := by
        have := (real_norm_gt_clip_iff g r c).2 hsmall
        simpa [CLIP_NORM] using this
      have hs : (0 : ℝ) < 1 / Real.sqrt (sumsq g r c + EPSILON) :=
        div_pos one_pos (lt_trans one_pos h1)
      by_cases hin : i < r ∧ j < c
      · simp only [hin, and_self, if_true]
        exact ⟨fun hg => mul_pos hg hs, fun hg => mul_neg_of_neg_of_pos hg hs,
          fun hg => by rw [hg, zero_mul]⟩
      · simp only [hin, if_false]
        exact ⟨id, id, id⟩

/-- C24, at a concrete input: the output for the 1 x 2 buffer `(3, -4)` has a sum of
squares below 1, a positive first entry and a negative second entry. -/
theorem clip_gradient_below_threshold_witness :
    sumsq (clip_gradient ⟨fun _ => true, Real.sqrt⟩ (Buf.ofLists [[3, -4]] : Buf ℝ) 1 2) 1 2
      < 1 ∧
    0 < clip_gradient ⟨fun _ => true, Real.sqrt⟩ (Buf.ofLists [[3, -4]] : Buf ℝ) 1 2 0 0 ∧
    clip_gradient ⟨fun _ => true, Real.sqrt⟩ (Buf.ofLists [[3, -4]] : Buf ℝ) 1 2 0 1 < 0 :=
  ⟨(clip_gradient_below_threshold ⟨fun _ => true, Real.sqrt⟩ rfl (Buf.ofLists [[3, -4]]) 1 2
      (fun _ _ _ _ => rfl)).1,
    ((clip_gradient_below_threshold ⟨fun _ => true, Real.sqrt⟩ rfl (Buf.ofLists [[3, -4]]) 1 2
      (fun _ _ _ _ => rfl)).2.2 0 0).1 (by simp [Buf.ofLists]),
    ((clip_gradient_below_threshold ⟨fun _ => true, Real.sqrt⟩ rfl (Buf.ofLists [[3, -4]]) 1 2
      (fun _ _ _ _ => rfl)).2.2 0 1).2.1 (by simp [Buf.ofLists])⟩

/-! ### C25, C26: what `backward` does -/

/-- The call `clip_gradient(p->grad, ...)` leaves every other node as it is. -/
theorem Heap.clip_cell_ne (F : FloatOps α) (h : Heap α) (p q : Nat) (hq : q ≠ p) :
    (Heap.clip F h p).cell q = h.cell q := by
  simp [Heap.clip, hq]

/-- The rule `backadd` leaves every node that is not a child of the node as it is. -/
theorem backadd_cell_of_ne (F : FloatOps α) (h : Heap α) (s q : Nat)
    (hl : (h.cell s).left ≠ some q) (hr : (h.cell s).right ≠ some q) :
    (Tensor.backadd F h s).cell q = h.cell q := by
  unfold Tensor.backadd
  have h1 : Heap.gradOnly h (match (h.cell s).left with
      | some l =>
        Heap.clip F (forRange (h.cell s).rows (fun i st => forRange (h.cell s).cols
          (fun j st => st.setGrad l i j ((st.cell l).grad i j + (st.cell s).grad i j)) st) h) l
      | none => h) := by
    cases (h.cell s).left with
    | none => exact Heap.gradOnly_refl h
    | some l =>
      exact Heap.gradOnly_trans (gradOnly_loop2 h l _ _ _) (Heap.gradOnly_clip F _ l)
  have h1q : (match (h.cell s).left with
      | some l =>
        Heap.clip F (forRange (h.cell s).rows (fun i st => forRange (h.cell s).cols
          (fun j st => st.setGrad l i j ((st.cell l).grad i j + (st.cell s).grad i j)) st) h) l
      | none => h).cell q = h.cell q := by
    cases hleft : (h.cell s).left with
    | none => rfl
    | some l =>
      have hne : q ≠ l := fun e => hl (by rw [hleft, e])
      simp only
      rw [Heap.clip_cell_ne F _ l q hne, cell_ne_loop2 h l q _ _ _ hne]
  simp only
  split
  · rename_i r hright
    have hright' : (h.cell s).right = some r := ((h1.2 s).2.2.2.2.1).symm.trans hright
    have hne : q ≠ r := fun e => hr (by rw [hright', e])
    exact ((Heap.clip_cell_ne F _ r q hne).trans (cell_ne_loop2 _ r q _ _ _ hne)).trans h1q
  · exact h1q

/-- The rule `backsub` leaves every node that is not a child of the node as it is. -/
theorem backsub_cell_of_ne (F : FloatOps α) (h : Heap α) (s q : Nat)
    (hl : (h.cell s).left ≠ some q) (hr : (h.cell s).right ≠ some q) :
    (Tensor.backsub F h s).cell q = h.cell q := by
  unfold Tensor.backsub
  have h1 : Heap.gradOnly h (match (h.cell s).left with
      | some l =>
        Heap.clip F (forRange (h.cell s).rows (fun i st => forRange (h.cell s).cols
          (fun j st => st.setGrad l i j ((st.cell l).grad i j + (st.cell s).grad i j)) st) h) l
      | none => h) := by
    cases (h.cell s).left with
    | none => exact Heap.gradOnly_refl h
    | some l =>
      exact Heap.gradOnly_trans (gradOnly_loop2 h l _ _ _) (Heap.gradOnly_clip F _ l)
  have h1q : (match (h.cell s).left with
      | some l =>
        Heap.clip F (forRange (h.cell s).rows (fun i st => forRange (h.cell s).cols
          (fun j st => st.setGrad l i j ((st.cell l).grad i j + (st.cell s).grad i j)) st) h) l
      | none => h).cell q = h.cell q := by
    cases hleft : (h.cell s).left with
    | none => rfl
    | some l =>
      have hne : q ≠ l := fun e => hl (by rw [hleft, e])
      simp only
      rw [Heap.clip_cell_ne F _ l q hne, cell_ne_loop2 h l q _ _ _ hne]
  simp only
  split
  · rename_i r hright
    have hright' : (h.cell s).right = some r := ((h1.2 s).2.2.2.2.1).symm.trans hright
    have hne : q ≠ r := fun e => hr (by rw [hright', e])
    exact ((Heap.clip_cell_ne F _ r q hne).trans (cell_ne_loop2 _ r q _ _ _ hne)).trans h1q
  · exact h1q

/-- The rule `backmul`, when it returns, has left every node that is not a child of
the node as it was. -/
theorem backmul_cell_of_ne (F : FloatOps α) (h h' : Heap α) (s q : Nat)
    (hrun : Tensor.backmul F h s = some h')
    (hl : (h.cell s).left ≠ some q) (hr : (h.cell s).right ≠ some q) :
    h'.cell q = h.cell q := by
  unfold Tensor.backmul at hrun
  split at hrun
  · rename_i l r hleft hright
    have hnl : q ≠ l := fun e => hl (by rw [hleft, e])
    have hnr : q ≠ r := fun e => hr (by rw [hright, e])
    simp only [Option.some.injEq] at hrun
    subst hrun
    rw [Heap.clip_cell_ne F _ r q hnr, cell_ne_loop3 _ r q _ _ _ _ hnr,
      Heap.clip_cell_ne F _ l q hnl, cell_ne_loop3 _ l q _ _ _ _ hnl]
  · simp only [Option.some.injEq] at hrun
    subst hrun
    rfl
  · exact absurd hrun (by simp)

/-- The rule `backdot`, when it returns, has left every node that is not a child of
the node as it was. -/
theorem backdot_cell_of_ne (F : FloatOps α) (h h' : Heap α) (s q : Nat)
    (hrun : Tensor.backdot F h s = some h')
    (hl : (h.cell s).left ≠ some q) (hr : (h.cell s).right ≠ some q) :
    h'.cell q = h.cell q := by
  unfold Tensor.backdot at hrun
  split at hrun
  · rename_i l r hleft hright
    have hnl : q ≠ l := fun e => hl (by rw [hleft, e])
    have hnr : q ≠ r := fun e => hr (by rw [hright, e])
    simp only [Option.some.injEq] at hrun
    subst hrun
    rw [Heap.clip_cell_ne F _ r q hnr, cell_ne_loop1 _ r q _ _ hnr,
      Heap.clip_cell_ne F _ l q hnl, cell_ne_loop1 _ l q _ _ hnl]
  · simp only [Option.some.injEq] at hrun
    subst hrun
    rfl
  · exact absurd hrun (by simp)

/-- The rule `backleakyrelu` leaves every node that is not the left child of the node
as it is. -/
theorem backleakyrelu_cell_of_ne (F : FloatOps α) (h : Heap α) (s q : Nat)
    (hl : (h.cell s).left ≠ some q) :
    (Tensor.backleakyrelu F h s).cell q = h.cell q := by
  unfold Tensor.backleakyrelu
  split
  · rename_i l hleft
    have hnl : q ≠ l := fun e => hl (by rw [hleft, e])
    unfold Tensor.backleakyrelu_loop
    rw [Heap.clip_cell_ne F _ l q hnl, cell_ne_loop2 _ l q _ _ _ hnl]
  · rfl

/-- Every rule, when it returns, has left every node that is not a child of the node
as it was. -/
theorem call_backward_cell_of_ne (F : FloatOps α) (rule : Rule) (h h' : Heap α) (p q : Nat)
    (hrun : Tensor.call_backward F rule h p = some h')
    (hl : (h.cell p).left ≠ some q) (hr : (h.cell p).right ≠ some q) :
    h'.cell q = h.cell q := by
  cases rule with
  | backadd =>
    simp only [Tensor.call_backward, Option.some.injEq] at hrun
    subst hrun; exact backadd_cell_of_ne F h p q hl hr
  | backsub =>
    simp only [Tensor.call_backward, Option.some.injEq] at hrun
    subst hrun; exact backsub_cell_of_ne F h p q hl hr
  | backmul => exact backmul_cell_of_ne F h h' p q hrun hl hr
  | backdot => exact backdot_cell_of_ne F h h' p q hrun hl hr
  | backleakyrelu =>
    simp only [Tensor.call_backward, Option.some.injEq] at hrun
    subst hrun; exact backleakyrelu_cell_of_ne F h p q hl

/-- The function `clip_gradient` leaves an all-zero buffer all zero, whatever the
finiteness test and the square root are. -/
theorem clip_gradient_zero (F : FloatOps α) (g : Buf α) (r c : Nat)
    (hz : ∀ i j, i < r → j < c → g i j = 0) :
    ∀ i j, i < r → j < c → clip_gradient F g r c i j = 0 := by
  intro i j hi hj
  have hs : sanitize F g r c i j = 0 := by
    rw [sanitize_apply F g r c i j hi hj, hz i j hi hj]
    simp
  rw [clip_gradient_eq]
  split_ifs
  · simp [hi, hj, hs]
  · simp [hi, hj, hs]
  · exact hs

/-- The call `clip_gradient(p->grad, ...)` keeps all gradient buffers all zero. -/
theorem Heap.gradZero_clip (F : FloatOps α) (h : Heap α) (p : Nat) (hz : h.gradZero) :
    (Heap.clip F h p).gradZero := by
  intro q i j hi hj
  by_cases hq : q = p
  · subst hq
    simp only [Heap.clip, if_pos] at hi hj ⊢
    exact clip_gradient_zero F _ _ _ (hz q) i j hi hj
  · rw [Heap.clip_cell_ne F h p q hq] at hi hj ⊢
    exact hz q i j hi hj

/-- The clearing of a node keeps all gradient buffers all zero. -/
theorem Heap.gradZero_clear (h : Heap α) (p : Nat) (hz : h.gradZero) :
    (h.clear p).gradZero := by
  intro q i j hi hj
  by_cases hq : q = p
  · subst hq
    simp only [Heap.clear, if_pos] at hi hj ⊢
    exact hz q i j hi hj
  · simp only [Heap.clear, if_neg hq] at hi hj ⊢
    exact hz q i j hi hj

/-- One block of `backadd` (the accumulation loop and the call of `clip_gradient`) on
a heap with all-zero gradient buffers: the loop writes back what it reads, and the
buffers are all zero afterwards. -/
theorem add_block_gradZero (F : FloatOps α) (g : Heap α) (s p : Nat) (hz : g.gradZero) :
    (Heap.clip F (forRange (g.cell s).rows (fun i st => forRange (g.cell s).cols (fun j st =>
      st.setGrad p i j ((st.cell p).grad i j + (st.cell s).grad i j)) st) g) p).gradZero := by
  rw [noop_loop2 g p _ _ (fun st i j => (st.cell p).grad i j + (st.cell s).grad i j)
    (fun i j hi hj => by beta_reduce; rw [hz s i j hi hj, add_zero])]
  exact Heap.gradZero_clip F g p hz

/-- The second block of `backsub` on a heap with all-zero gradient buffers. -/
theorem sub_block_gradZero (F : FloatOps α) (g : Heap α) (s p : Nat) (hz : g.gradZero) :
    (Heap.clip F (forRange (g.cell s).rows (fun i st => forRange (g.cell s).cols (fun j st =>
      st.setGrad p i j ((st.cell p).grad i j - (st.cell s).grad i j)) st) g) p).gradZero := by
  rw [noop_loop2 g p _ _ (fun st i j => (st.cell p).grad i j - (st.cell s).grad i j)
    (fun i j hi hj => by beta_reduce; rw [hz s i j hi hj, sub_zero])]
  exact Heap.gradZero_clip F g p hz

/-- The rule `backadd` keeps all gradient buffers all zero. -/
theorem backadd_gradZero (F : FloatOps α) (h : Heap α) (s : Nat) (hz : h.gradZero) :
    (Tensor.backadd F h s).gradZero := by
  unfold Tensor.backadd
  have h1 : Heap.gradZero (match (h.cell s).left with
      | some l =>
        Heap.clip F (forRange (h.cell s).rows (fun i st => forRange (h.cell s).cols
          (fun j st => st.setGrad l i j ((st.cell l).grad i j + (st.cell s).grad i j)) st) h) l
      | none => h) := by
    cases (h.cell s).left with
    | none => exact hz
    | some l => exact add_block_gradZero F h s l hz
  simp only
  split
  · exact add_block_gradZero F _ s _ h1
  · exact h1

/-- The rule `backsub` keeps all gradient buffers all zero. -/
theorem backsub_gradZero (F : FloatOps α) (h : Heap α) (s : Nat) (hz : h.gradZero) :
    (Tensor.backsub F h s).gradZero := by
  unfold Tensor.backsub
  have h1 : Heap.gradZero (match (h.cell s).left with
      | some l =>
        Heap.clip F (forRange (h.cell s).rows (fun i st => forRange (h.cell s).cols
          (fun j st => st.setGrad l i j ((st.cell l).grad i j + (st.cell s).grad i j)) st) h) l
      | none => h) := by
    cases (h.cell s).left with
    | none => exact hz
    | some l => exact add_block_gradZero F h s l hz
  simp only
  split
  · exact sub_block_gradZero F _ s _ h1
  · exact h1

/-- The rule `backmul`, when it returns, has kept all gradient buffers all zero. -/
theorem backmul_gradZero (F : FloatOps α) (h h' : Heap α) (s : Nat)
    (hrun : Tensor.backmul F h s = some h') (hz : h.gradZero) : h'.gradZero := by
  unfold Tensor.backmul at hrun
  split at hrun
  · rename_i l r hleft hright
    simp only [Option.some.injEq] at hrun
    subst hrun
    have e1 : forRange (h.cell s).rows (fun i st => forRange (h.cell r).rows (fun j st =>
        forRange (h.cell s).cols (fun k st =>
          st.setGrad l i j ((st.cell l).grad i j + (st.cell s).grad i k * (st.cell r).data j k))
          st) st) h = h :=
      noop_loop3 h l _ _ _
        (fun st i j k => (st.cell l).grad i j + (st.cell s).grad i k * (st.cell r).data j k)
        (fun i j k hi _ hk => by beta_reduce; rw [hz s i k hi hk, zero_mul, add_zero])
    have hz1 : (Heap.clip F h l).gradZero := Heap.gradZero_clip F h l hz
    rw [e1]
    have e2 : forRange ((Heap.clip F h l).cell l).cols (fun i st =>
        forRange ((Heap.clip F h l).cell s).cols (fun j st =>
          forRange ((Heap.clip F h l).cell s).rows (fun k st =>
            st.setGrad r i j ((st.cell r).grad i j + (st.cell s).grad k j * (st.cell l).data k i))
          st) st) (Heap.clip F h l) = Heap.clip F h l :=
      noop_loop3 (Heap.clip F h l) r _ _ _
        (fun st i j k => (st.cell r).grad i j + (st.cell s).grad k j * (st.cell l).data k i)
        (fun i j k _ hj hk => by beta_reduce; rw [hz1 s k j hk hj, zero_mul, add_zero])
    rw [e2]
    exact Heap.gradZero_clip F _ r hz1
  · simp only [Option.some.injEq] at hrun
    subst hrun
    exact hz
  · exact absurd hrun (by simp)

/-- The rule `backdot`, when it returns on a node with an allocated entry `(0, 0)`,
has kept all gradient buffers all zero. -/
theorem backdot_gradZero (F : FloatOps α) (h h' : Heap α) (s : Nat)
    (hrun : Tensor.backdot F h s = some h') (hz : h.gradZero)
    (hshape : 0 < (h.cell s).rows ∧ 0 < (h.cell s).cols) : h'.gradZero := by
  unfold Tensor.backdot at hrun
  split at hrun
  · rename_i l r hleft hright
    simp only [Option.some.injEq] at hrun
    subst hrun
    have e1 : forRange (h.cell l).rows (fun i st =>
        st.setGrad l i 0 ((st.cell l).grad i 0 + (st.cell s).grad 0 0 * (st.cell r).data i 0))
        h = h :=
      noop_loop1 h l _
        (fun st i => (st.cell l).grad i 0 + (st.cell s).grad 0 0 * (st.cell r).data i 0)
        (fun i _ => by beta_reduce; rw [hz s 0 0 hshape.1 hshape.2, zero_mul, add_zero])
    have hz1 : (Heap.clip F h l).gradZero := Heap.gradZero_clip F h l hz
    have hshape1 : 0 < ((Heap.clip F h l).cell s).rows ∧ 0 < ((Heap.clip F h l).cell s).cols := by
      have := (Heap.gradOnly_clip F h l).2 s
      rw [this.1, this.2.1]
      exact hshape
    rw [e1]
    have e2 : forRange ((Heap.clip F h l).cell r).rows (fun i st =>
        st.setGrad r i 0 ((st.cell r).grad i 0 + (st.cell s).grad 0 0 * (st.cell l).data i 0))
        (Heap.clip F h l) = Heap.clip F h l :=
      noop_loop1 (Heap.clip F h l) r _
        (fun st i => (st.cell r).grad i 0 + (st.cell s).grad 0 0 * (st.cell l).data i 0)
        (fun i _ => by beta_reduce; rw [hz1 s 0 0 hshape1.1 hshape1.2, zero_mul, add_zero])
    rw [e2]
    exact Heap.gradZero_clip F _ r hz1
  · simp only [Option.some.injEq] at hrun
    subst hrun
    exact hz
  · exact absurd hrun (by simp)

/-- The rule `backleakyrelu` keeps all gradient buffers all zero. -/
theorem backleakyrelu_gradZero (F : FloatOps α) (h : Heap α) (s : Nat) (hz : h.gradZero) :
    (Tensor.backleakyrelu F h s).gradZero := by
  unfold Tensor.backleakyrelu
  split
  · rename_i l hleft
    unfold Tensor.backleakyrelu_loop
    rw [noop_loop2 h l _ _ (fun st i j => (st.cell l).grad i j +
      (if (st.cell s).data i j > 0 then (st.cell s).grad i j
        else (1 / 100) * (st.cell s).grad i j))
      (fun i j hi hj => by beta_reduce; rw [hz s i j hi hj]; simp)]
    exact Heap.gradZero_clip F h l hz
  · exact hz

/-- Every rule, when it returns, has kept all gradient buffers all zero; for `backdot`
the node is to have an allocated entry `(0, 0)`, which the rule reads. -/
theorem call_backward_gradZero (F : FloatOps α) (rule : Rule) (h h' : Heap α) (p : Nat)
    (hrun : Tensor.call_backward F rule h p = some h') (hz : h.gradZero)
    (hdot : rule = Rule.backdot → 0 < (h.cell p).rows ∧ 0 < (h.cell p).cols) :
    h'.gradZero := by
  cases rule with
  | backadd =>
    simp only [Tensor.call_backward, Option.some.injEq] at hrun
    subst hrun; exact backadd_gradZero F h p hz
  | backsub =>
    simp only [Tensor.call_backward, Option.some.injEq] at hrun
    subst hrun; exact backsub_gradZero F h p hz
  | backmul => exact backmul_gradZero F h h' p hrun hz
  | backdot => exact backdot_gradZero F h h' p hrun hz (hdot rfl)
  | backleakyrelu =>
    simp only [Tensor.call_backward, Option.some.injEq] at hrun
    subst hrun; exact backleakyrelu_gradZero F h p hz

/-- A heap in which every gradient buffer is the zero function has all-zero gradient
buffers. -/
theorem Heap.gradZero_of_forall (h : Heap α) (hall : ∀ p, (h.cell p).grad = fun _ _ => 0) :
    h.gradZero := by
  intro p i j _ _
  rw [hall p]

/-- C25. Any two non-null handles are equivalent under the ordering of the set, so
once the root is in `visited`, `find` succeeds for every non-null handle; the traversal
from a root with an empty set (depth bound at least 2) returns the one-element sequence
`[root]`. Hence `backward` is the rule of the root, if it has one, followed by the
clearing of the root: when it returns, every node that is not a child of the root has
the gradient buffer it had, the root has no children and no rule, and every other node
has the children and the rule it had. It does return unless the rule of the root is
`backmul` or `backdot` and exactly one child handle of the root is null. -/
theorem backward_root_only (F : FloatOps α) (h : Heap α) (n root : Nat) :
    (∀ p q, intrusive_ptr_less (some p) (some q) = false) ∧
    set_insert [] (some root) = [some root] ∧
    (∀ p, set_find [some root] (some p) = some (some root)) ∧
    visit_tensor h (n + 2) (some root) ([], []) = some ([some root], [root]) ∧
    Tensor.backward F (n + 2) h root =
      (match (h.cell root)._backward with
      | some rule => (Tensor.call_backward F rule h root).map (fun h1 => h1.clear root)
      | none => some (h.clear root)) ∧
    (∀ h', Tensor.backward F (n + 2) h root = some h' →
      (∀ q, (h.cell root).left ≠ some q → (h.cell root).right ≠ some q →
        (h'.cell q).grad = (h.cell q).grad) ∧
      (h'.cell root).left = none ∧ (h'.cell root).right = none ∧
      (h'.cell root)._backward = none ∧
      ∀ q, q ≠ root → (h'.cell q).left = (h.cell q).left ∧
        (h'.cell q).right = (h.cell q).right ∧
        (h'.cell q)._backward = (h.cell q)._backward) ∧
    (((h.cell root)._backward = some Rule.backmul ∨
        (h.cell root)._backward = some Rule.backdot →
        (h.cell root).left.isSome = (h.cell root).right.isSome) →
      ∃ h', Tensor.backward F (n + 2) h root = some h') := by
  refine ⟨intrusive_ptr_less_some, by simp [set_insert, set_find],
    fun p => set_find_singleton root p, visit_tensor_root h n root,
    backward_eq_root F h n root, ?_, ?_⟩
  · intro h' hrun
    rw [backward_eq_root] at hrun
    have key : ∃ h1, Heap.gradOnly h h1 ∧ h' = h1.clear root ∧
        ∀ q, (h.cell root).left ≠ some q → (h.cell root).right ≠ some q →
          h1.cell q = h.cell q := by
      cases hb : (h.cell root)._backward with
      | none =>
        rw [hb] at hrun
        simp only [Option.some.injEq] at hrun
        exact ⟨h, Heap.gradOnly_refl h, hrun.symm, fun _ _ _ => rfl⟩
      | some rule =>
        rw [hb] at hrun
        cases hc : Tensor.call_backward F rule h root with
        | none => simp [hc] at hrun
        | some h1 =>
          simp only [hc, Option.map_some', Option.some.injEq] at hrun
          exact ⟨h1, call_backward_gradOnly F rule h h1 root hc, hrun.symm,
            fun q hl hr => call_backward_cell_of_ne F rule h h1 root q hc hl hr⟩
    obtain ⟨h1, hg, hh', hframe⟩ := key
    subst hh'
    refine ⟨?_, by simp [Heap.clear], by simp [Heap.clear], by simp [Heap.clear], ?_⟩
    · intro q hl hr
      rw [Heap.clear_grad, hframe q hl hr]
    · intro q hq
      have hc : (h1.clear root).cell q = h1.cell q := by simp [Heap.clear, hq]
      rw [hc]
      exact ⟨(hg.2 q).2.2.2.1, (hg.2 q).2.2.2.2.1, (hg.2 q).2.2.2.2.2.1⟩
  · intro hsafe
    rw [backward_eq_root]
    cases hb : (h.cell root)._backward with
    | none => exact ⟨_, rfl⟩
    | some rule =>
      obtain ⟨h1, h1run⟩ := call_backward_returns F rule h root (by
        intro hr
        apply hsafe
        rcases hr with hr | hr
        · left; rw [hb, hr]
        · right; rw [hb, hr])
      exact ⟨h1.clear root, by simp [h1run]⟩

/-- C25, at a concrete input: on the diamond `root = (L + A) * (L + B)` (root at
address 5, the sums at 3 and 4, `L` at 0) `backward` returns; the leaf `L`, which is not
a child of the root, has the gradient buffer it had, and the sum at address 3 keeps its
children and its rule. -/
theorem backward_root_only_witness :
    ((heapDiamond ℝ).cell 5).left = some 3 ∧ ((heapDiamond ℝ).cell 5).right = some 4 ∧
    ((heapDiamond ℝ).cell 3).left = some 0 ∧
    ((heapDiamond ℝ).cell 3)._backward = some Rule.backadd ∧
    ∃ h', Tensor.backward ⟨fun _ => true, Real.sqrt⟩ 6 (heapDiamond ℝ) 5 = some h' ∧
      (h'.cell 0).grad = ((heapDiamond ℝ).cell 0).grad ∧
      (h'.cell 5).left = none ∧ (h'.cell 5)._backward = none ∧
      (h'.cell 3).left = some 0 ∧ (h'.cell 3)._backward = some Rule.backadd := by
  have hl : ((heapDiamond ℝ).cell 5).left = some 3 := by decide
  have hr : ((heapDiamond ℝ).cell 5).right = some 4 := by decide
  have h3l : ((heapDiamond ℝ).cell 3).left = some 0 := by decide
  have h3b : ((heapDiamond ℝ).cell 3)._backward = some Rule.backadd := by decide
  have T := backward_root_only ⟨fun _ => true, Real.sqrt⟩ (heapDiamond ℝ) 4 5
  obtain ⟨h', hrun⟩ := T.2.2.2.2.2.2 (fun _ => by decide)
  obtain ⟨t1, t2, -, t4, t5⟩ := T.2.2.2.2.2.1 h' hrun
  refine ⟨hl, hr, h3l, h3b, h', hrun, t1 0 (by rw [hl]; decide) (by rw [hr]; decide), t2, t4,
    (t5 3 (by decide)).1.trans h3l, (t5 3 (by decide)).2.2.trans h3b⟩

/-- C26. On a heap in which every node has an all-zero gradient buffer,
`clip_gradient` maps an all-zero buffer to an all-zero buffer, every rule that returns
leaves all gradient buffers all zero, and so does `backward` (depth bound at least 2),
which returns unless the rule of the root is `backmul` or `backdot` and exactly one child
handle of the root is null: `backward` writes no seed into the gradient buffer of the
root. A root with the rule `backdot` is to have an allocated entry `(0, 0)`, which the
rule reads (the result of `operator^` is 1 x 1). -/
theorem backward_keeps_zero_grads (F : FloatOps α) (h : Heap α) (root : Nat)
    (hz : h.gradZero)
    (hdot : (h.cell root)._backward = some Rule.backdot →
      0 < (h.cell root).rows ∧ 0 < (h.cell root).cols) :
    (∀ (g : Buf α) r c, (∀ i j, i < r → j < c → g i j = 0) →
      ∀ i j, i < r → j < c → clip_gradient F g r c i j = 0) ∧
    (∀ rule h', (h.cell root)._backward = some rule →
      Tensor.call_backward F rule h root = some h' →
      ∀ p i j, i < (h'.cell p).rows → j < (h'.cell p).cols → (h'.cell p).grad i j = 0) ∧
    (∀ n h', Tensor.backward F (n + 2) h root = some h' →
      ∀ p i j, i < (h'.cell p).rows → j < (h'.cell p).cols → (h'.cell p).grad i j = 0) ∧
    (∀ n, ((h.cell root)._backward = some Rule.backmul ∨
        (h.cell root)._backward = some Rule.backdot →
        (h.cell root).left.isSome = (h.cell root).right.isSome) →
      ∃ h', Tensor.backward F (n + 2) h root = some h' ∧ h'.gradZero) := by
  have hrule : ∀ rule h', (h.cell root)._backward = some rule →
      Tensor.call_backward F rule h root = some h' → h'.gradZero := by
    intro rule h' hb hc
    exact call_backward_gradZero F rule h h' root hc hz (fun e => hdot (by rw [hb, e]))
  have hback : ∀ n h', Tensor.backward F (n + 2) h root = some h' → h'.gradZero := by
    intro n h' hrun
    rw [backward_eq_root] at hrun
    cases hb : (h.cell root)._backward with
    | none =>
      rw [hb] at hrun
      simp only [Option.some.injEq] at hrun
      subst hrun
      exact Heap.gradZero_clear h root hz
    | some rule =>
      rw [hb] at hrun
      cases hc : Tensor.call_backward F rule h root with
      | none => simp [hc] at hrun
      | some h1 =>
        simp only [hc, Option.map_some', Option.some.injEq] at hrun
        subst hrun
        exact Heap.gradZero_clear h1 root (hrule rule h1 hb hc)
  refine ⟨fun g r c hg => clip_gradient_zero F g r c hg, hrule, hback, ?_⟩
  intro n hsafe
  have hex : ∃ h', Tensor.backward F (n + 2) h root = some h' := by
    rw [backward_eq_root]
    cases hb : (h.cell root)._backward with
    | none => exact ⟨_, rfl⟩
    | some rule =>
      obtain ⟨h1, h1run⟩ := call_backward_returns F rule h root (by
        intro hr
        apply hsafe
        rcases hr with hr | hr
        · left; rw [hb, hr]
        · right; rw [hb, hr])
      exact ⟨h1.clear root, by simp [h1run]⟩
  obtain ⟨h', hrun⟩ := hex
  exact ⟨h', hrun, hback n h' hrun⟩

/-- C26, at a concrete input: the node `s = u ^ v` over the leaves of `heapUV`, as
`operator^` leaves it (address 2, rule `backdot`, shape 1 x 1, all gradient buffers
zero); `backward` returns and the gradient buffers of `u`, `v` and `s` are all zero. -/
theorem backward_keeps_zero_grads_witness :
    (Tensor.operator_caret (heapUV ℚ) 0 1).2 = Except.ok 2 ∧
    ((Tensor.operator_caret (heapUV ℚ) 0 1).1.cell 2)._backward = some Rule.backdot ∧
    (Tensor.operator_caret (heapUV ℚ) 0 1).1.gradZero ∧
    ∃ h', Tensor.backward ⟨fun _ => true, fun x => x⟩ 2
        (Tensor.operator_caret (heapUV ℚ) 0 1).1 2 = some h' ∧
      (h'.cell 0).grad 0 0 = 0 ∧ (h'.cell 0).grad 1 0 = 0 ∧
      (h'.cell 1).grad 0 0 = 0 ∧ (h'.cell 1).grad 1 0 = 0 ∧ (h'.cell 2).grad 0 0 = 0 := by
  have hcond : ¬ (((heapUV ℚ).cell 0).cols ≠ 1 ∨ ((heapUV ℚ).cell 1).cols ≠ 1 ∨
      ((heapUV ℚ).cell 0).rows ≠ ((heapUV ℚ).cell 1).rows) := by decide
  have hok : (Tensor.operator_caret (heapUV ℚ) 0 1).2 = Except.ok 2 := by
    rw [Tensor.operator_caret, if_neg hcond]
    rfl
  have hz : (Tensor.operator_caret (heapUV ℚ) 0 1).1.gradZero := by
    apply Heap.gradZero_of_forall
    intro p
    simp only [Tensor.operator_caret, if_neg hcond, Heap.alloc]
    split_ifs
    · simp only [Tensor.new_grad]
    · simp only [heapUV, Heap.leaf, Heap.alloc, Heap.empty]
      split_ifs <;> exact Tensor.new_grad _ _ _ _
  have hb : ((Tensor.operator_caret (heapUV ℚ) 0 1).1.cell 2)._backward = some Rule.backdot := by
    decide
  have T := backward_keeps_zero_grads ⟨fun _ => true, fun x => x⟩
    (Tensor.operator_caret (heapUV ℚ) 0 1).1 2 hz (fun _ => by decide)
  obtain ⟨h', hrun, -⟩ := T.2.2.2 0 (fun _ => by decide)
  have hs := backward_sameValues _ _ _ _ _ hrun
  have Z := T.2.2.1 0 h' hrun
  refine ⟨hok, hb, hz, h', hrun, ?_, ?_, ?_, ?_, ?_⟩
  · exact Z 0 0 0 (by rw [(hs 0).1]; decide) (by rw [(hs 0).2.1]; decide)
  · exact Z 0 1 0 (by rw [(hs 0).1]; decide) (by rw [(hs 0).2.1]; decide)
  · exact Z 1 0 0 (by rw [(hs 1).1]; decide) (by rw [(hs 1).2.1]; decide)
  · exact Z 1 1 0 (by rw [(hs 1).1]; decide) (by rw [(hs 1).2.1]; decide)
  · exact Z 2 0 0 (by rw [(hs 2).1]; decide) (by rw [(hs 2).2.1]; decide)

end Theorems

/-! ### C20: handles and reference counts -/

section Handles

/-- Counting the handles that point at `p` after a new handle object `k` was added
with pointer `v`. -/
theorem card_filter_insert_px (live : Finset Nat) (px : Nat → Option Nat) (k p : Nat)
    (v : Option Nat) (hk : k ∉ live) :
    ((insert k live).filter (fun j => (if j = k then v else px j) = some p)).card =
      (live.filter (fun j => px j = some p)).card + (if v = some p then 1 else 0) := by
  have hcongr : live.filter (fun j => (if j = k then v else px j) = some p) =
      live.filter (fun j => px j = some p) := by
    apply Finset.filter_congr
    intro j hj
    have hjk : j ≠ k := fun h => hk (h ▸ hj)
    simp [hjk]
  rw [Finset.filter_insert, hcongr]
  simp only [if_true]
  by_cases hv : v = some p
  · have hnot : k ∉ live.filter (fun j => px j = some p) := fun h =>
      hk (Finset.mem_of_mem_filter k h)
    rw [if_pos hv, if_pos hv, Finset.card_insert_of_not_mem hnot]
  · rw [if_neg hv, if_neg hv, Nat.add_zero]

/-- Counting the handles that point at `p`, the handle object `k` apart. -/
theorem card_filter_erase_px (live : Finset Nat) (px : Nat → Option Nat) (k p : Nat)
    (hk : k ∈ live) :
    (live.filter (fun j => px j = some p)).card =
      ((live.erase k).filter (fun j => px j = some p)).card +
        (if px k = some p then 1 else 0) := by
  have h := card_filter_insert_px (live.erase k) px k p (px k) (Finset.not_mem_erase k live)
  rw [Finset.insert_erase hk] at h
  have hcongr : live.filter (fun j => (if j = k then px k else px j) = some p) =
      live.filter (fun j => px j = some p) := by
    apply Finset.filter_congr
    intro j _
    by_cases hjk : j = k
    · simp [hjk]
    · simp [hjk]
  rw [hcongr] at h
  exact h

/-- Counting the handles that point at `p` after the live handle object `k` was given the
pointer `v`. -/
theorem card_filter_update_px (live : Finset Nat) (px : Nat → Option Nat) (k p : Nat)
    (v : Option Nat) (hk : k ∈ live) :
    (live.filter (fun j => (if j = k then v else px j) = some p)).card =
      ((live.erase k).filter (fun j => px j = some p)).card +
        (if v = some p then 1 else 0) := by
  have h := card_filter_insert_px (live.erase k) px k p v (Finset.not_mem_erase k live)
  rw [Finset.insert_erase hk] at h
  exact h

/-- The handle object `k` does not count among the others. -/
theorem card_filter_erase_update_px (live : Finset Nat) (px : Nat → Option Nat) (k p : Nat)
    (v : Option Nat) :
    ((live.erase k).filter (fun j => (if j = k then v else px j) = some p)).card =
      ((live.erase k).filter (fun j => px j = some p)).card := by
  congr 1
  apply Finset.filter_congr
  intro j hj
  have hjk : j ≠ k := Finset.ne_of_mem_erase hj
  simp [hjk]

/-- No more handles point at a node than are alive. -/
theorem RcState.handles_to_le (s : RcState) (p : Nat) : s.handles_to p ≤ s.live.card :=
  Finset.card_filter_le _ _

/-- The handles other than `k` are fewer than the live ones. -/
theorem card_filter_erase_lt (live : Finset Nat) (px : Nat → Option Nat) (k p : Nat)
    (hk : k ∈ live) :
    ((live.erase k).filter (fun j => px j = some p)).card < live.card := by
  have h1 : ((live.erase k).filter (fun j => px j = some p)).card ≤ (live.erase k).card :=
    Finset.card_filter_le _ _
  have h2 : (live.erase k).card < live.card := Finset.card_erase_lt_of_mem hk
  omega

/-- Two different live handle objects that point at `p` make its count at least 2. -/
theorem RcState.two_le_handles_to (s : RcState) (k r p : Nat) (hk : k ∈ s.live)
    (hr : r ∈ s.live) (hkr : k ≠ r) (hpk : s.px k = some p) (hpr : s.px r = some p) :
    2 ≤ s.handles_to p := by
  have hsub : ({k, r} : Finset Nat) ⊆ s.live.filter (fun j => s.px j = some p) := by
    intro j hj
    simp only [Finset.mem_insert, Finset.mem_singleton] at hj
    rcases hj with hj | hj
    · subst hj; exact Finset.mem_filter.mpr ⟨hk, hpk⟩
    · subst hj; exact Finset.mem_filter.mpr ⟨hr, hpr⟩
  have := Finset.card_le_card hsub
  rw [Finset.card_pair hkr] at this
  exact this

/-- The decrement `--ref_count_` of a count between 1 and `2 ^ w - 1`. -/
theorem size_t_decrement (w c : Nat) (h1 : 1 ≤ c) (h2 : c < 2 ^ w) :
    (c + (2 ^ w - 1)) % 2 ^ w = c - 1 := by
  have hpos : 0 < 2 ^ w := Nat.two_pow_pos w
  have : c + (2 ^ w - 1) = (c - 1) + 2 ^ w := by omega
  rw [this, Nat.add_mod_right, Nat.mod_eq_of_lt (by omega)]

/-- What `intrusive_ptr::release` does in a consistent state to a live handle object
`k`: the handle becomes null, the count of the node it pointed at drops by one, that node
is deleted when its count was 1, and the state stays consistent. -/
theorem release_effect (w : Nat) (s : RcState) (k : Nat) (hc : s.consistent w)
    (hk : k ∈ s.live) :
    (intrusive_ptr.release w s k).live = s.live ∧
    (intrusive_ptr.release w s k).px = (fun j => if j = k then none else s.px j) ∧
    (∀ p, (intrusive_ptr.release w s k).ref_count_ p =
      s.ref_count_ p - (if s.px k = some p then 1 else 0)) ∧
    (∀ p, (intrusive_ptr.release w s k).deleted p =
      (s.deleted p || decide (s.px k = some p ∧ s.ref_count_ p = 1))) ∧
    (intrusive_ptr.release w s k).consistent w := by
  cases hpx : s.px k with
  | none =>
    have hrel : intrusive_ptr.release w s k = s := by simp [intrusive_ptr.release, hpx]
    rw [hrel]
    refine ⟨rfl, ?_, ?_, ?_, hc⟩
    · funext j
      by_cases hj : j = k
      · simp [hj, hpx]
      · simp [hj]
    · intro p; simp
    · intro p; simp
  | some q =>
    have hrel : intrusive_ptr.release w s k = (ref_counter.release w s q).setPx k none := by
      simp [intrusive_ptr.release, hpx]
    have hsplit := fun p => card_filter_erase_px s.live s.px k p hk
    have hq1 : 1 ≤ s.ref_count_ q := by
      rw [(hc.2 q).1]
      have := hsplit q
      simp only [hpx, if_true] at this
      unfold RcState.handles_to
      omega
    have hq2 : s.ref_count_ q < 2 ^ w := by
      rw [(hc.2 q).1]
      exact lt_of_le_of_lt (s.handles_to_le q) hc.1
    have hdec := size_t_decrement w (s.ref_count_ q) hq1 hq2
    have hcount : ∀ p, ((ref_counter.release w s q).setPx k none).ref_count_ p =
        s.ref_count_ p - (if some q = some p then 1 else 0) := by
      intro p
      by_cases hp : p = q
      · subst hp
        simp [ref_counter.release, RcState.setPx, hdec]
      · have hp' : ¬ q = p := fun h => hp h.symm
        simp [ref_counter.release, RcState.setPx, hp, hp']
    have hdel : ∀ p, ((ref_counter.release w s q).setPx k none).deleted p =
        (s.deleted p || decide (some q = some p ∧ s.ref_count_ p = 1)) := by
      intro p
      by_cases hp : p = q
      · subst hp
        simp only [ref_counter.release, RcState.setPx, if_true, hdec, true_and]
        by_cases h1 : s.ref_count_ p = 1
        · simp [h1]
        · have : ¬ s.ref_count_ p - 1 = 0 := by omega
          simp [h1, this]
      · have hp' : ¬ q = p := fun h => hp h.symm
        simp [ref_counter.release, RcState.setPx, hp, hp']
    have hhandles : ∀ p, ((ref_counter.release w s q).setPx k none).handles_to p =
        s.handles_to p - (if some q = some p then 1 else 0) := by
      intro p
      have h1 := card_filter_update_px s.live s.px k p none hk
      have h2 := hsplit p
      simp only [hpx] at h2
      simp only [RcState.handles_to, ref_counter.release, RcState.setPx]
      rw [h1, h2]
      simp
    rw [hrel]
    refine ⟨rfl, rfl, hcount, hdel, hc.1, ?_⟩
    intro p
    refine ⟨?_, ?_⟩
    · rw [hcount p, hhandles p, (hc.2 p).1]
    · intro hd
      rw [hdel p] at hd
      rw [hhandles p]
      simp only [Bool.or_eq_true, decide_eq_true_eq] at hd
      rcases hd with hd | ⟨hqp, h1⟩
      · rw [(hc.2 p).2 hd, Nat.zero_sub]
      · rw [← (hc.2 p).1, h1, if_pos hqp]

/-- What `px = v; add_ref();` does in a consistent state to a live null handle object
`k`, for `v` null or a pointer to a node that has not been deleted: the count of that
node rises by one and the state stays consistent. -/
theorem point_effect (w : Nat) (s : RcState) (k : Nat) (v : Option Nat)
    (hc : s.consistent w) (hk : k ∈ s.live) (hnull : s.px k = none)
    (hv : ∀ q, v = some q → s.deleted q = false) :
    (intrusive_ptr.add_ref w (s.setPx k v) k).live = s.live ∧
    (intrusive_ptr.add_ref w (s.setPx k v) k).px = (fun j => if j = k then v else s.px j) ∧
    (∀ p, (intrusive_ptr.add_ref w (s.setPx k v) k).ref_count_ p =
      s.ref_count_ p + (if v = some p then 1 else 0)) ∧
    (intrusive_ptr.add_ref w (s.setPx k v) k).deleted = s.deleted ∧
    (intrusive_ptr.add_ref w (s.setPx k v) k).consistent w := by
  have hold' : ∀ p, (s.live.filter (fun j => s.px j = some p)).card =
      ((s.live.erase k).filter (fun j => s.px j = some p)).card := by
    intro p
    have := card_filter_erase_px s.live s.px k p hk
    simp only [hnull] at this
    simpa using this
  have hold : ∀ p, s.handles_to p =
      ((s.live.erase k).filter (fun j => s.px j = some p)).card := hold'
  cases v with
  | none =>
    have hadd : intrusive_ptr.add_ref w (s.setPx k none) k = s.setPx k none := by
      simp [intrusive_ptr.add_ref, RcState.setPx]
    rw [hadd]
    refine ⟨rfl, rfl, ?_, rfl, hc.1, ?_⟩
    · intro p; simp [RcState.setPx]
    · intro p
      have hnew : (s.setPx k none).handles_to p = s.handles_to p := by
        have := card_filter_update_px s.live s.px k p none hk
        simp only [RcState.handles_to, RcState.setPx]
        rw [this, hold' p]
        simp
      rw [hnew]
      exact hc.2 p
  | some q =>
    have hadd : intrusive_ptr.add_ref w (s.setPx k (some q)) k =
        ref_counter.add_ref w (s.setPx k (some q)) q := by
      simp [intrusive_ptr.add_ref, RcState.setPx]
    have hlt : s.ref_count_ q + 1 < 2 ^ w := by
      rw [(hc.2 q).1, hold q]
      have := card_filter_erase_lt s.live s.px k q hk
      have := hc.1
      omega
    have hcount : ∀ p, (ref_counter.add_ref w (s.setPx k (some q)) q).ref_count_ p =
        s.ref_count_ p + (if some q = some p then 1 else 0) := by
      intro p
      by_cases hp : p = q
      · subst hp
        simp [ref_counter.add_ref, RcState.setPx, Nat.mod_eq_of_lt hlt]
      · have hp' : ¬ q = p := fun h => hp h.symm
        simp [ref_counter.add_ref, RcState.setPx, hp, hp']
    have hnew : ∀ p, (ref_counter.add_ref w (s.setPx k (some q)) q).handles_to p =
        s.handles_to p + (if some q = some p then 1 else 0) := by
      intro p
      have := card_filter_update_px s.live s.px k p (some q) hk
      simp only [RcState.handles_to, ref_counter.add_ref, RcState.setPx]
      rw [this, ← hold' p]
    rw [hadd]
    refine ⟨rfl, rfl, hcount, rfl, hc.1, ?_⟩
    intro p
    refine ⟨?_, ?_⟩
    · rw [hcount p, hnew p, (hc.2 p).1]
    · intro hd
      have hd' : s.deleted p = true := hd
      rw [hnew p, (hc.2 p).2 hd']
      by_cases hqp : some q = some p
      · have hq : q = p := Option.some.inj hqp
        have := hv q rfl
        rw [hq, hd'] at this
        exact absurd this (by simp)
      · simp [hqp]

/-- The beginning of the lifetime of a null handle object keeps a state consistent and
changes no count. -/
theorem new_effect (w : Nat) (s : RcState) (k : Nat) (hc : s.consistent w)
    (hk : k ∉ s.live) (hroom : s.live.card + 1 < 2 ^ w) :
    RcState.consistent w { s.setPx k none with live := insert k s.live } := by
  refine ⟨?_, ?_⟩
  · show (insert k s.live).card < 2 ^ w
    rw [Finset.card_insert_of_not_mem hk]
    exact hroom
  · intro p
    have hnew : RcState.handles_to { s.setPx k none with live := insert k s.live } p =
        s.handles_to p := by
      have := card_filter_insert_px s.live s.px k p none hk
      simp only [RcState.handles_to, RcState.setPx]
      rw [this]
      simp
    rw [hnew]
    exact hc.2 p

/-- The end of the lifetime of a null handle object keeps a state consistent. -/
theorem del_effect (w : Nat) (s : RcState) (k : Nat) (hc : s.consistent w)
    (hk : k ∈ s.live) (hnull : s.px k = none) :
    RcState.consistent w { s with live := s.live.erase k } := by
  refine ⟨?_, ?_⟩
  · show (s.live.erase k).card < 2 ^ w
    exact lt_trans (Finset.card_erase_lt_of_mem hk) hc.1
  · intro p
    have hnew : RcState.handles_to { s with live := s.live.erase k } p = s.handles_to p := by
      have := card_filter_erase_px s.live s.px k p hk
      simp only [hnull] at this
      simp only [RcState.handles_to]
      rw [this]
      simp
    rw [hnew]
    exact hc.2 p

/-- In a consistent state a live handle object does not point at a deleted node. -/
theorem live_target_not_deleted (w : Nat) (s : RcState) (r q : Nat) (hc : s.consistent w)
    (hr : r ∈ s.live) (hpr : s.px r = some q) : s.deleted q = false := by
  cases hd : s.deleted q with
  | false => rfl
  | true =>
    have h0 := (hc.2 q).2 hd
    have := card_filter_erase_px s.live s.px r q hr
    simp only [hpr, if_true] at this
    unfold RcState.handles_to at h0
    omega

/-- What one operation does in a consistent state in which it can be performed: the
state stays consistent, the count of every node drops by one if the operation gave up a
pointer to it and rises by one if it took one up, and a node is deleted when the
operation gave up a pointer to it and its count was 1. -/
theorem op_effect (w : Nat) (s : RcState) (op : HandleOp) (hc : s.consistent w)
    (hvalid : HandleOp.valid w s op) :
    (HandleOp.apply w s op).consistent w ∧
    (∀ p, (HandleOp.apply w s op).ref_count_ p =
      s.ref_count_ p - (if HandleOp.released s op = some p then 1 else 0) +
        (if HandleOp.acquired s op = some p then 1 else 0)) ∧
    (∀ p, (HandleOp.apply w s op).deleted p =
      (s.deleted p || decide (HandleOp.released s op = some p ∧ s.ref_count_ p = 1))) := by
  cases op with
  | ctor_default k =>
    obtain ⟨hk, hroom⟩ := hvalid
    refine ⟨new_effect w s k hc hk hroom, ?_, ?_⟩
    · intro p; simp [HandleOp.apply, HandleOp.released, HandleOp.acquired, RcState.setPx]
    · intro p; simp [HandleOp.apply, HandleOp.released, RcState.setPx]
  | ctor_raw k v =>
    obtain ⟨hk, hroom, hv⟩ := hvalid
    have h0 := new_effect w s k hc hk hroom
    have heq : ({ s.setPx k v with live := insert k s.live } : RcState) =
        RcState.setPx { s.setPx k none with live := insert k s.live } k v := by
      simp only [RcState.setPx, RcState.mk.injEq, true_and]
      funext j
      by_cases hj : j = k <;> simp [hj]
    obtain ⟨_, _, hcount, hdel, hcons⟩ := point_effect w _ k v h0
      (Finset.mem_insert_self k s.live) (by simp [RcState.setPx]) hv
    simp only [HandleOp.apply, HandleOp.released, HandleOp.acquired, heq]
    refine ⟨hcons, ?_, ?_⟩
    · intro p; rw [hcount p]; simp [RcState.setPx]
    · intro p; rw [hdel]; simp [RcState.setPx]
  | ctor_copy k rhs =>
    obtain ⟨hk, hroom, hrhs⟩ := hvalid
    have h0 := new_effect w s k hc hk hroom
    have heq : ({ s.setPx k (s.px rhs) with live := insert k s.live } : RcState) =
        RcState.setPx { s.setPx k none with live := insert k s.live } k (s.px rhs) := by
      simp only [RcState.setPx, RcState.mk.injEq, true_and]
      funext j
      by_cases hj : j = k <;> simp [hj]
    obtain ⟨_, _, hcount, hdel, hcons⟩ := point_effect w _ k (s.px rhs) h0
      (Finset.mem_insert_self k s.live) (by simp [RcState.setPx])
      (fun q hq => live_target_not_deleted w s rhs q hc hrhs hq)
    simp only [HandleOp.apply, HandleOp.released, HandleOp.acquired, heq]
    refine ⟨hcons, ?_, ?_⟩
    · intro p; rw [hcount p]; simp [RcState.setPx]
    · intro p; rw [hdel]; simp [RcState.setPx]
  | dtor k =>
    have hk : k ∈ s.live := hvalid
    obtain ⟨hlive, hpx, hcount, hdel, hcons⟩ := release_effect w s k hc hk
    have hnull : (intrusive_ptr.release w s k).px k = none := by rw [hpx]; simp
    have hd := del_effect w _ k hcons (hlive ▸ hk) hnull
    rw [hlive] at hd
    simp only [HandleOp.apply, HandleOp.released, HandleOp.acquired]
    refine ⟨hd, ?_, ?_⟩
    · intro p; rw [show ({ intrusive_ptr.release w s k with live := s.live.erase k } :
        RcState).ref_count_ p = (intrusive_ptr.release w s k).ref_count_ p from rfl, hcount p]
      simp
    · intro p; exact hdel p
  | assign k rhs =>
    obtain ⟨hk, hrhs⟩ := hvalid
    by_cases hkr : k = rhs
    · subst hkr
      simp only [HandleOp.apply, HandleOp.released, HandleOp.acquired, ne_eq, not_true,
        if_false]
      exact ⟨hc, fun p => by simp, fun p => by simp⟩
    · obtain ⟨hlive, hpx, hcount, hdel, hcons⟩ := release_effect w s k hc hk
      have hnull : (intrusive_ptr.release w s k).px k = none := by rw [hpx]; simp
      have hrpx : (intrusive_ptr.release w s k).px rhs = s.px rhs := by
        rw [hpx]
        have : rhs ≠ k := fun h => hkr h.symm
        simp [this]
      obtain ⟨_, _, hcount2, hdel2, hcons2⟩ := point_effect w _ k
        ((intrusive_ptr.release w s k).px rhs) hcons (hlive ▸ hk) hnull
        (fun q hq => live_target_not_deleted w _ rhs q hcons (hlive ▸ hrhs) hq)
      simp only [HandleOp.apply, HandleOp.released, HandleOp.acquired, ne_eq, hkr,
        not_false_eq_true, if_true]
      refine ⟨hcons2, ?_, ?_⟩
      · intro p; rw [hcount2 p, hcount p, hrpx]
      · intro p; rw [hdel2, hdel p]
  | assign_raw k v =>
    obtain ⟨hk, hv⟩ := hvalid
    by_cases hg : s.px k = v
    · simp only [HandleOp.apply, HandleOp.released, HandleOp.acquired, ne_eq, hg, not_true,
        if_false]
      exact ⟨hc, fun p => by simp, fun p => by simp⟩
    · obtain ⟨hlive, hpx, hcount, hdel, hcons⟩ := release_effect w s k hc hk
      have hnull : (intrusive_ptr.release w s k).px k = none := by rw [hpx]; simp
      obtain ⟨_, _, hcount2, hdel2, hcons2⟩ := point_effect w _ k v hcons (hlive ▸ hk) hnull
        (by
          intro q hq
          rw [hdel q, hv q hq]
          have : ¬ s.px k = some q := fun h => hg (h.trans hq.symm)
          simp [this])
      simp only [HandleOp.apply, HandleOp.released, HandleOp.acquired, ne_eq, hg,
        not_false_eq_true, if_true]
      refine ⟨hcons2, ?_, ?_⟩
      · intro p; rw [hcount2 p, hcount p]
      · intro p; rw [hdel2, hdel p]

/-- A sequence of operations, each of which can be performed where it is reached,
keeps a consistent state consistent. -/
theorem run_consistent (w : Nat) (ops : List HandleOp) :
    ∀ s : RcState, s.consistent w → HandleOp.validSeq w s ops →
      (HandleOp.run w s ops).consistent w := by
  induction ops with
  | nil => intro s hc _; exact hc
  | cons op rest ih =>
    intro s hc hv
    exact ih (HandleOp.apply w s op) (op_effect w s op hc hv.1).1 hv.2

/-- An operation that gives up and takes up a pointer to the same node finds at least
two handles pointing at that node. -/
theorem released_acquired (w : Nat) (s : RcState) (op : HandleOp) (p : Nat)
    (hvalid : HandleOp.valid w s op) (hrel : HandleOp.released s op = some p)
    (hacq : HandleOp.acquired s op = some p) : 2 ≤ s.handles_to p := by
  cases op with
  | ctor_default k => simp [HandleOp.released] at hrel
  | ctor_raw k v => simp [HandleOp.released] at hrel
  | ctor_copy k rhs => simp [HandleOp.released] at hrel
  | dtor k => simp [HandleOp.acquired] at hacq
  | assign k rhs =>
    by_cases hkr : k = rhs
    · simp [HandleOp.released, hkr] at hrel
    · simp only [HandleOp.released, HandleOp.acquired, ne_eq, hkr, not_false_eq_true,
        if_true] at hrel hacq
      exact s.two_le_handles_to k rhs p hvalid.1 hvalid.2 hkr hrel hacq
  | assign_raw k v =>
    by_cases hg : s.px k = v
    · simp [HandleOp.released, hg] at hrel
    · simp only [HandleOp.released, HandleOp.acquired, ne_eq, hg, not_false_eq_true,
        if_true] at hrel hacq
      exact absurd (hrel.trans hacq.symm) hg

/-- C20. The state before any handle exists is consistent, and after every sequence
of handle operations (default construction, construction from a raw pointer, copy
construction, destruction, assignment from a handle, assignment from a raw pointer or
null), each performed on operands that are alive, the `ref_count_` of every node is the
number of live handle objects that point at it. An operation whose handles are null
changes no count. In one operation a node is deleted exactly when its count goes from 1
to 0. -/
theorem handle_counts (w : Nat) :
    RcState.consistent w RcState.init ∧
    (∀ (s : RcState) (ops : List HandleOp), s.consistent w → HandleOp.validSeq w s ops →
      ∀ p, (HandleOp.run w s ops).ref_count_ p = (HandleOp.run w s ops).handles_to p) ∧
    (∀ (s : RcState) (k rhs : Nat),
      (HandleOp.apply w s (HandleOp.ctor_default k)).ref_count_ = s.ref_count_ ∧
      (HandleOp.apply w s (HandleOp.ctor_raw k none)).ref_count_ = s.ref_count_ ∧
      (s.px rhs = none →
        (HandleOp.apply w s (HandleOp.ctor_copy k rhs)).ref_count_ = s.ref_count_) ∧
      (s.px k = none → (HandleOp.apply w s (HandleOp.dtor k)).ref_count_ = s.ref_count_) ∧
      (s.px k = none → s.px rhs = none →
        (HandleOp.apply w s (HandleOp.assign k rhs)).ref_count_ = s.ref_count_) ∧
      (s.px k = none →
        (HandleOp.apply w s (HandleOp.assign_raw k none)).ref_count_ = s.ref_count_)) ∧
    (∀ (s : RcState) (op : HandleOp), s.consistent w → HandleOp.valid w s op → ∀ p,
      ((HandleOp.apply w s op).deleted p = true ∧ s.deleted p = false) ↔
        (s.ref_count_ p = 1 ∧ (HandleOp.apply w s op).ref_count_ p = 0)) := by
  refine ⟨?_, ?_, ?_, ?_⟩
  · refine ⟨?_, fun p => ⟨?_, fun _ => ?_⟩⟩
    · simp [RcState.init]
    · simp [RcState.init, RcState.handles_to]
    · simp [RcState.init, RcState.handles_to]
  · intro s ops hc hv p
    exact ((run_consistent w ops s hc hv).2 p).1
  · intro s k rhs
    refine ⟨?_, ?_, ?_, ?_, ?_, ?_⟩
    · simp [HandleOp.apply, RcState.setPx]
    · simp [HandleOp.apply, RcState.setPx, intrusive_ptr.add_ref]
    · intro h
      simp [HandleOp.apply, RcState.setPx, intrusive_ptr.add_ref, h]
    · intro h
      simp [HandleOp.apply, intrusive_ptr.release, h]
    · intro hk hr
      by_cases hkr : k = rhs
      · simp [HandleOp.apply, hkr]
      · simp [HandleOp.apply, hkr, intrusive_ptr.release, intrusive_ptr.add_ref, RcState.setPx,
          hk, hr]
    · intro h
      simp [HandleOp.apply, h]
  · intro s op hc hvalid p
    obtain ⟨_, hcount, hdel⟩ := op_effect w s op hc hvalid
    rw [hcount p, hdel p]
    constructor
    · rintro ⟨h1, h2⟩
      simp only [h2, Bool.false_or, decide_eq_true_eq] at h1
      obtain ⟨hrel, hone⟩ := h1
      have hacq : ¬ HandleOp.acquired s op = some p := by
        intro hacq
        have := released_acquired w s op p hvalid hrel hacq
        rw [← (hc.2 p).1] at this
        omega
      refine ⟨hone, ?_⟩
      rw [if_pos hrel, if_neg hacq, hone]
    · rintro ⟨hone, hzero⟩
      have hrel : HandleOp.released s op = some p := by
        by_contra hrel
        rw [if_neg hrel, hone] at hzero
        omega
      have hnd : s.deleted p = false := by
        cases hd : s.deleted p with
        | false => rfl
        | true =>
          have := (hc.2 p).2 hd
          rw [← (hc.2 p).1] at this
          omega
      refine ⟨?_, hnd⟩
      simp [hrel, hone]

/-- C20, at a concrete input with 32-bit counts: a handle is made from a raw pointer
to node 7, copied, the first handle is destroyed and the copy is assigned null. Every
operation can be performed; the count of node 7 is 2 after the copy and 0 at the end,
when the node is deleted; the final count is the number of live handles. -/
theorem handle_counts_witness :
    RcState.consistent 32 RcState.init ∧
    HandleOp.validSeq 32 RcState.init
      [HandleOp.ctor_raw 0 (some 7), HandleOp.ctor_copy 1 0, HandleOp.dtor 0,
        HandleOp.assign_raw 1 none] ∧
    (HandleOp.run 32 RcState.init
      [HandleOp.ctor_raw 0 (some 7), HandleOp.ctor_copy 1 0]).ref_count_ 7 = 2 ∧
    (HandleOp.run 32 RcState.init
      [HandleOp.ctor_raw 0 (some 7), HandleOp.ctor_copy 1 0, HandleOp.dtor 0]).deleted 7
        = false ∧
    (HandleOp.run 32 RcState.init
      [HandleOp.ctor_raw 0 (some 7), HandleOp.ctor_copy 1 0, HandleOp.dtor 0,
        HandleOp.assign_raw 1 none]).ref_count_ 7 = 0 ∧
    (HandleOp.run 32 RcState.init
      [HandleOp.ctor_raw 0 (some 7), HandleOp.ctor_copy 1 0, HandleOp.dtor 0,
        HandleOp.assign_raw 1 none]).deleted 7 = true ∧
    (HandleOp.run 32 RcState.init
      [HandleOp.ctor_raw 0 (some 7), HandleOp.ctor_copy 1 0, HandleOp.dtor 0,
        HandleOp.assign_raw 1 none]).handles_to 7 = 0 := by
  have hvalid : HandleOp.validSeq 32 RcState.init
      [HandleOp.ctor_raw 0 (some 7), HandleOp.ctor_copy 1 0, HandleOp.dtor 0,
        HandleOp.assign_raw 1 none] := by
    simp [HandleOp.validSeq, HandleOp.valid, HandleOp.apply, RcState.init, RcState.setPx,
      intrusive_ptr.add_ref, intrusive_ptr.release, ref_counter.add_ref, ref_counter.release]
  have hfinal : (HandleOp.run 32 RcState.init
      [HandleOp.ctor_raw 0 (some 7), HandleOp.ctor_copy 1 0, HandleOp.dtor 0,
        HandleOp.assign_raw 1 none]).ref_count_ 7 = 0 := by
    simp [HandleOp.run, HandleOp.apply, RcState.init, RcState.setPx,
      intrusive_ptr.add_ref, intrusive_ptr.release, ref_counter.add_ref, ref_counter.release]
  refine ⟨(handle_counts 32).1, hvalid, ?_, ?_, hfinal, ?_, ?_⟩
  · simp [HandleOp.run, HandleOp.apply, RcState.init, RcState.setPx,
      intrusive_ptr.add_ref, intrusive_ptr.release, ref_counter.add_ref, ref_counter.release]
  · simp [HandleOp.run, HandleOp.apply, RcState.init, RcState.setPx,
      intrusive_ptr.add_ref, intrusive_ptr.release, ref_counter.add_ref, ref_counter.release]
  · simp [HandleOp.run, HandleOp.apply, RcState.init, RcState.setPx,
      intrusive_ptr.add_ref, intrusive_ptr.release, ref_counter.add_ref, ref_counter.release]
  · rw [← (handle_counts 32).2.1 RcState.init _ (handle_counts 32).1 hvalid 7]
    exact hfinal

end Handles

end NN
